import Mathlib

/-!
# The PPPoS chat-script automaton of `contrib/examples/ppp/pppos_example.c`

A shallow embedding of the modem bring-up code: the line assembler
(`pppos_byte_process`), the acknowledgment matcher (`find_cmd_ack`,
`pppos_find_ack`), the command executor (`pppos_command_execute`,
`pppos_command_wait`) and the chat-script controller (`pppos_state_interval`).

Conventions of the embedding.

* A `char` is its bit pattern, a value `0 .. 255`.
* A `char[128]` array is a function from indices to bytes; a write or a copy
  that would leave the 128 bytes of the array has no defined result in C and
  makes the embedded function return `none`.
* A handler that calls `sys_timeout`, `sio_write`, `ppp_connect`, `ppp_close`
  or `pppos_rx_input` returns those calls, in order, as a list of `Effect`s.
* `uint32_t` arithmetic is reduced modulo `2 ^ 32`, `uint8_t` modulo `2 ^ 8`,
  and `int8_t` is wrapped into `-128 .. 127`.
-/

namespace PPPoS

/-! ## Data model -/

/-- One `char` of serial data, as its bit pattern. -/
abbrev Byte := Fin 256

/-- The bytes of a C string literal, without the terminating NUL. -/
def cstr (s : String) : List Byte :=
  s.toList.map (fun c => Fin.ofNat c.toNat)

/-- `enum at_result_enum`. -/
inductive at_result_enum where
  | at_result_failure_no_response
  | at_result_success
  | at_result_failure_error
  deriving DecidableEq, Repr

/-- `enum PPPOS_ChatscriptState`, in the order of the source. -/
inductive PPPOS_ChatscriptState where
  | PPPOS_CHATSCRIPT_BEGIN
  | PPPOS_CHATSCRIPT_AT_MODE_PRE_WAIT
  | PPPOS_CHATSCRIPT_SEND_PLUS_PLUS_PLUS
  | PPPOS_CHATSCRIPT_AT_MODE_POST_WAIT
  | PPPOS_CHATSCRIPT_START_ATE0
  | PPPOS_CHATSCRIPT_START_CFUN
  | PPPOS_CHATSCRIPT_START_CGDCONT
  | PPPOS_CHATSCRIPT_START_CGDCONT_QUERY
  | PPPOS_CHATSCRIPT_START_CREG_QUERY
  | PPPOS_CHATSCRIPT_START_CGDATA
  | PPPOS_CHATSCRIPT_ON_CONNECT
  deriving DecidableEq, Repr

/-- The timer handlers that the file passes to `sys_timeout`. -/
inductive sys_timeout_handler where
  | pppos_rx_interval
  | pppos_state_interval
  | pppos_command_execute
  | pppos_command_wait
  deriving DecidableEq, Repr

/-- A call into one of the external collaborators (scheduler, serial channel,
PPP engine), recorded in the order the handler makes it. -/
inductive Effect where
  | sys_timeout (msecs : Nat) (handler : sys_timeout_handler)
  | sio_write (data : List Byte)
  | ppp_connect
  | ppp_close
  | pppos_rx_input (data : List Byte)
  deriving DecidableEq, Repr

/-- `pppos_command_result_check`: a custom check reads the NUL-terminated
acknowledgment text; `none` stands for a call without a defined result. -/
abbrev pppos_command_result_check := List Byte → Option at_result_enum

/-- `struct pppos_command`. A `const char *` is `none` when it is `NULL`. -/
structure pppos_command_t where
  callback : sys_timeout_handler
  cmd : List Byte
  expect_result : Option (List Byte)
  check : Option pppos_command_result_check
  expect_error : Option (List Byte)
  timeout : Nat
  start_time : Nat
  try_count : Int
  at_result : at_result_enum

/-- `struct pppos_modem`, without the handles of the serial channel and of the
PPP engine and without the receive buffer of `pppos_rx_interval`. -/
structure pppos_modem_t where
  phase_saved : Nat
  command : pppos_command_t
  find_result_pos : Int
  state : PPPOS_ChatscriptState
  success_state : PPPOS_ChatscriptState
  failure_state : PPPOS_ChatscriptState
  command_ack : Nat → Byte
  command_ack_len : Nat
  buffer_int : Nat → Byte
  buffer_int_pos : Nat
  buffer_cmd_ack_pos : Nat
  buffer_cmd_ack_count : Nat
  buffer_cmd_ack : Nat → Nat → Byte

/-! ## Arrays and C strings -/

/-- `a[i] = v`. -/
def arr_set {α : Type} (a : Nat → α) (i : Nat) (v : α) : Nat → α :=
  fun j => if j = i then v else a j

/-- `memcpy(dst, src, n)`: the first `n` bytes of `dst` become those of `src`. -/
def arr_memcpy (dst src : Nat → Byte) (n : Nat) : Nat → Byte :=
  fun j => if j < n then src j else dst j

/-- The C string held in a `char[128]` array: the bytes before the first NUL.
(An array without NUL is read to its end.) -/
def c_str (a : Nat → Byte) : List Byte :=
  ((List.range 128).map a).takeWhile (fun b => b ≠ 0)

/-- `strstr(haystack, needle)`: the offset of the first occurrence, `none` for
`NULL`. -/
def strstr : List Byte → List Byte → Option Nat
  | [], needle => if needle.isEmpty then some 0 else none
  | h :: t, needle =>
    if needle.isPrefixOf (h :: t) then some 0
    else (strstr t needle).map (fun k => k + 1)

/-! ## Line assembler -/

/-- `const uint32_t line_splitter = 0x0A << 16 | 0x0D << 8 | 0x0A`. -/
def line_splitter : Nat := 0x0A <<< 16 ||| 0x0D <<< 8 ||| 0x0A

/-- `const uint32_t line_end = 0x0D << 8 | 0x0A`. -/
def line_end : Nat := 0x0D <<< 8 ||| 0x0A

/-- The `uint32_t val` that `pppos_byte_process` builds from the last three
scratch bytes. -/
def scratch_val (b3 b2 b1 : Byte) : Nat :=
  (b3.val <<< 16 ||| b2.val <<< 8 ||| b1.val <<< 0) % 2 ^ 32

/-- First statements of `pppos_byte_process`: the byte is stored in the
scratch buffer and the position advances.
`modem->buffer_int[modem->buffer_int_pos] = data; modem->buffer_int_pos += 1;` -/
def scratch_store (modem : pppos_modem_t) (data : Byte) : Option pppos_modem_t :=
  if 128 ≤ modem.buffer_int_pos then none
  else
    some { modem with
      buffer_int := arr_set modem.buffer_int modem.buffer_int_pos data
      buffer_int_pos := modem.buffer_int_pos + 1 }

/-- Second statement of `pppos_byte_process`: the byte is appended to the raw
acknowledgment while its last byte stays free.
`if ((modem->command_ack_len + 1) < sizeof(modem->command_ack)) { .. }` -/
def command_ack_store (modem : pppos_modem_t) (data : Byte) : pppos_modem_t :=
  if modem.command_ack_len + 1 < 128 then
    { modem with
      command_ack := arr_set modem.command_ack modem.command_ack_len data
      command_ack_len := modem.command_ack_len + 1 }
  else modem

/-- The line-end branch of `pppos_byte_process`: the line is NUL-terminated,
copied with its NUL into the slot of the cursor, cursor and count advance and
the scratch position returns to 0. -/
def line_complete (modem : pppos_modem_t) : Option pppos_modem_t :=
  -- modem->buffer_int[modem->buffer_int_pos] = 0;
  if 128 ≤ modem.buffer_int_pos then none
  else
    let modem := { modem with buffer_int := arr_set modem.buffer_int modem.buffer_int_pos 0 }
    -- memcpy(modem->buffer_cmd_ack[modem->buffer_cmd_ack_pos % 2], modem->buffer_int,
    --        modem->buffer_int_pos + 1);
    let slot := modem.buffer_cmd_ack_pos % 2
    let modem := { modem with
      buffer_cmd_ack := arr_set modem.buffer_cmd_ack slot
        (arr_memcpy (modem.buffer_cmd_ack slot) modem.buffer_int (modem.buffer_int_pos + 1)) }
    let modem := { modem with buffer_cmd_ack_pos := (modem.buffer_cmd_ack_pos + 1) % 256 }
    let modem := { modem with buffer_cmd_ack_count := (modem.buffer_cmd_ack_count + 1) % 256 }
    some { modem with buffer_int_pos := 0 }

/-- Last statement of `pppos_byte_process`: `if (modem->buffer_int_pos >= 3) { .. }`,
the anomaly test first, the line-end test second. -/
def line_check (modem : pppos_modem_t) : Option pppos_modem_t :=
  if 3 ≤ modem.buffer_int_pos then
    let val := scratch_val (modem.buffer_int (modem.buffer_int_pos - 3))
                 (modem.buffer_int (modem.buffer_int_pos - 2))
                 (modem.buffer_int (modem.buffer_int_pos - 1))
    if line_splitter = val then
      some { modem with
        buffer_int_pos := 2
        buffer_int := arr_set (arr_set modem.buffer_int 0 0x0D) 1 0x0A }
    else if val &&& 0xFFFF = line_end then line_complete modem
    else some modem
  else some modem

/-- `pppos_byte_process(modem, data)`, its three statements in order. -/
def pppos_byte_process (modem : pppos_modem_t) (data : Byte) : Option pppos_modem_t :=
  match scratch_store modem data with
  | none => none
  | some modem => line_check (command_ack_store modem data)

/-- The loop of `pppos_input_connect` outside the connected state: the bytes
of a chunk go through `pppos_byte_process` in order. -/
def feed_bytes (modem : pppos_modem_t) : List Byte → Option pppos_modem_t
  | [] => some modem
  | b :: bs =>
    match pppos_byte_process modem b with
    | none => none
    | some modem => feed_bytes modem bs

/-- `pppos_modem_receive_reset(modem)`. -/
def pppos_modem_receive_reset (modem : pppos_modem_t) : pppos_modem_t :=
  { modem with buffer_int_pos := 0, buffer_cmd_ack_count := 0, buffer_cmd_ack_pos := 0 }

/-! ## Acknowledgment matcher -/

/-- The sub-patterns that the `while` loop of `find_cmd_ack` takes from the
pattern, one per iteration: the text up to the next line feed, then the text
after it, the last one being the text after the last line feed. -/
def split_lf : List Byte → List (List Byte)
  | [] => [[]]
  | c :: cs =>
    if c = 0x0A then [] :: split_lf cs
    else
      match split_lf cs with
      | [] => [[c]]
      | s :: ss => (c :: s) :: ss

/-- The `for` loop of `find_cmd_ack` over the slot indices still to visit;
`buffer_cmd_ack` is the ring of the modem. It returns `(find_pos, find_substr)`. -/
def scan_slots (buffer_cmd_ack : Nat → Nat → Byte) (str_to_find : List Byte) :
    List Nat → Int × Int → Int × Int
  | [], acc => acc
  | i :: is, acc =>
    if (strstr (c_str (buffer_cmd_ack i)) str_to_find).isSome then
      scan_slots buffer_cmd_ack str_to_find is ((i : Int), 0)
    else scan_slots buffer_cmd_ack str_to_find is acc

/-- The `while` loop of `find_cmd_ack` over the remaining sub-patterns. Copying
a sub-pattern of 100 bytes or more overruns `char str_to_find[100]`. -/
def find_cmd_ack_loop (buffer_cmd_ack : Nat → Nat → Byte) (ack_count : Nat) :
    List (List Byte) → Int → Option Int
  | [], find_pos => some find_pos
  | str_to_find :: rest, find_pos =>
    if 100 ≤ str_to_find.length then none else
    let r := scan_slots buffer_cmd_ack str_to_find (List.range ack_count) (find_pos, -1)
    if r.2 = -1 then some (-1) else find_cmd_ack_loop buffer_cmd_ack ack_count rest r.1

/-- `find_cmd_ack(modem, str)`. -/
def find_cmd_ack (modem : pppos_modem_t) (str : Option (List Byte)) : Option Int :=
  let find_pos : Int := -1
  let ack_count := if modem.buffer_cmd_ack_count < 2 then modem.buffer_cmd_ack_count else 2
  match str with
  | none => some find_pos
  | some pos => find_cmd_ack_loop modem.buffer_cmd_ack ack_count (split_lf pos) find_pos

/-- `pppos_find_ack(modem, result, error)`. -/
def pppos_find_ack (modem : pppos_modem_t) (result error : Option (List Byte)) :
    Option (pppos_modem_t × at_result_enum) :=
  match find_cmd_ack modem result with
  | none => none
  | some r =>
    let modem := { modem with find_result_pos := r }
    if 0 ≤ modem.find_result_pos then some (modem, .at_result_success)
    else
      match find_cmd_ack modem error with
      | none => none
      | some e =>
        if 0 ≤ e then some (modem, .at_result_failure_error)
        else some (modem, .at_result_failure_no_response)

/-! ## Command executor -/

/-- The value of an `int` expression stored into an `int8_t`. -/
def wrap_int8 (x : Int) : Int := (x + 128) % 256 - 128

/-- `pppos_command_wait(arg)`; `sys_now` is the value that `sys_now()` returns. -/
def pppos_command_wait (modem : pppos_modem_t) (sys_now : Nat) :
    Option (pppos_modem_t × List Effect) :=
  match pppos_find_ack modem modem.command.expect_result modem.command.expect_error with
  | none => none
  | some (modem, r) =>
    let modem := { modem with command := { modem.command with at_result := r } }
    if modem.command.at_result = .at_result_success ∨
        modem.command.at_result = .at_result_failure_error then
      some ({ modem with command := { modem.command with try_count := 0 } },
        [.sys_timeout 0 .pppos_command_execute])
    else if (modem.command.start_time + modem.command.timeout) % 2 ^ 32 < sys_now then
      some ({ modem with command :=
                { modem.command with try_count := wrap_int8 (modem.command.try_count - 1) } },
        [.sys_timeout 0 .pppos_command_execute])
    else
      some (modem, [.sys_timeout 10 .pppos_command_wait])

/-- `pppos_command_execute(arg)`; `sys_now` is the value that `sys_now()` returns. -/
def pppos_command_execute (modem : pppos_modem_t) (sys_now : Nat) :
    Option (pppos_modem_t × List Effect) :=
  if modem.command.try_count ≤ 0 then
    let checked : Option pppos_modem_t :=
      match modem.command.check with
      | some check =>
        match check (c_str modem.command_ack) with
        | none => none
        | some r => some { modem with command := { modem.command with at_result := r } }
      | none => some modem
    match checked with
    | none => none
    | some modem =>
      let modem :=
        if modem.command.at_result = .at_result_success then
          { modem with state := modem.success_state }
        else
          { modem with state := modem.failure_state }
      some (modem, [.sys_timeout 0 modem.command.callback])
  else
    let modem := pppos_modem_receive_reset modem
    let modem := { modem with command := { modem.command with start_time := sys_now } }
    some (modem, [.sio_write modem.command.cmd, .sys_timeout 0 .pppos_command_wait])

/-- `pppos_command_run_with_check(modem, callback, cmd, result, error, check,
try_count, timeout, success_state, failure_state)`. -/
def pppos_command_run_with_check (modem : pppos_modem_t) (callback : sys_timeout_handler)
    (cmd : List Byte) (result error : Option (List Byte))
    (check : Option pppos_command_result_check) (try_count : Int) (timeout : Nat)
    (success_state failure_state : PPPOS_ChatscriptState) : pppos_modem_t × List Effect :=
  let modem := { modem with command := { modem.command with
    callback := callback
    cmd := cmd
    check := check
    expect_result := result
    expect_error := error
    try_count := try_count
    timeout := timeout } }
  let modem := { modem with failure_state := failure_state, success_state := success_state }
  let modem := { modem with command_ack := fun _ => 0 }
  let modem := { modem with command_ack_len := 0 }
  (modem, [.sys_timeout 0 .pppos_command_execute])

/-- `pppos_command_run`: `pppos_command_run_with_check` with `check = NULL`. -/
def pppos_command_run (modem : pppos_modem_t) (callback : sys_timeout_handler)
    (cmd : List Byte) (result error : Option (List Byte)) (try_count : Int) (timeout : Nat)
    (success_state failure_state : PPPOS_ChatscriptState) : pppos_modem_t × List Effect :=
  pppos_command_run_with_check modem callback cmd result error none try_count timeout
    success_state failure_state

/-! ## The registration check -/

/-- `isspace` in the C locale. -/
def isspace (b : Byte) : Bool := b = 0x20 || (0x09 ≤ b.val && b.val ≤ 0x0D)

/-- `isdigit`. -/
def isdigit (b : Byte) : Bool := 0x30 ≤ b.val && b.val ≤ 0x39

/-- The value of a run of decimal digits. -/
def digits_value (ds : List Byte) : Int :=
  ds.foldl (fun acc d => acc * 10 + ((d.val : Int) - 0x30)) 0

/-- The outcome of one `%d` conversion of `sscanf`. -/
inductive scan_d_result where
  | input_failure
  | matching_failure
  | undefined
  | converted (value : Int) (rest : List Byte)

/-- One `%d` conversion: white space is skipped, then an optional sign and the
longest run of digits are read; a value outside `int` has no defined result. -/
def scan_d (input : List Byte) : scan_d_result :=
  match input.dropWhile isspace with
  | [] => .input_failure
  | c :: cs =>
    let negative := decide (c = 0x2D)
    let body := if c = 0x2D ∨ c = 0x2B then cs else c :: cs
    let ds := body.takeWhile isdigit
    if ds.isEmpty then .matching_failure
    else
      let v := if negative then - digits_value ds else digits_value ds
      if v < -(2 : Int) ^ 31 ∨ (2 : Int) ^ 31 ≤ v then .undefined
      else .converted v (body.dropWhile isdigit)

/-- The outcome of matching ordinary characters of a `sscanf` format. -/
inductive scan_literal_result where
  | input_failure
  | matching_failure
  | matched (rest : List Byte)

/-- Ordinary characters of a `sscanf` format: each must equal the next input
character; the input may end first (input failure) or differ (matching
failure). -/
def scan_literal : List Byte → List Byte → scan_literal_result
  | [], input => .matched input
  | _ :: _, [] => .input_failure
  | f :: fs, c :: cs => if f = c then scan_literal fs cs else .matching_failure

/-- `sscanf(ack, "\r\n+CREG: %d,%d\r\n", &creg_a, &creg_b)` with the initial
values of the two integers: the return value (the number of assigned items, or
`EOF = -1` when the input ends before the first conversion) and the two
integers afterwards. White space in the format skips any white space of the
input. -/
def sscanf_creg (ack : List Byte) (creg_a creg_b : Int) : Option (Int × Int × Int) :=
  match scan_literal (cstr "+CREG:") (ack.dropWhile isspace) with
  | .input_failure => some (-1, creg_a, creg_b)
  | .matching_failure => some (0, creg_a, creg_b)
  | .matched rest =>
    match scan_d (rest.dropWhile isspace) with
    | .undefined => none
    | .input_failure => some (-1, creg_a, creg_b)
    | .matching_failure => some (0, creg_a, creg_b)
    | .converted a rest =>
      match scan_literal (cstr ",") rest with
      | .input_failure => some (1, a, creg_b)
      | .matching_failure => some (1, a, creg_b)
      | .matched rest =>
        match scan_d rest with
        | .undefined => none
        | .input_failure => some (1, a, creg_b)
        | .matching_failure => some (1, a, creg_b)
        | .converted b _ => some (2, a, b)

/-- `pppos_at_creg_check(ack)`. -/
def pppos_at_creg_check : pppos_command_result_check := fun ack =>
  let creg_a : Int := -1
  let creg_b : Int := -1
  match sscanf_creg ack creg_a creg_b with
  | none => none
  | some (n, _, creg_b) =>
    if n = 2 then
      if creg_b = 1 ∨ creg_b = 5 then some .at_result_success
      else some .at_result_failure_error
    else some .at_result_failure_error

/-! ## Chat-script controller -/

/-- Modelled from the spec: the phase code `PPP_PHASE_DEAD` of `netif/ppp/ppp.h`,
a header that is not among the sources. The spec names four distinct phases
(dead, establishing, running, terminating); the values are those of lwIP, all
different from the "no phase recorded" value `0xFF` of `phase_saved`. -/
def PPP_PHASE_DEAD : Nat := 0

/-- Modelled from the spec: the phase code `PPP_PHASE_ESTABLISH`, see
`PPP_PHASE_DEAD`. -/
def PPP_PHASE_ESTABLISH : Nat := 6

/-- Modelled from the spec: the phase code `PPP_PHASE_RUNNING`, see
`PPP_PHASE_DEAD`. -/
def PPP_PHASE_RUNNING : Nat := 10

/-- Modelled from the spec: the phase code `PPP_PHASE_TERMINATE`, see
`PPP_PHASE_DEAD`. -/
def PPP_PHASE_TERMINATE : Nat := 11

/-- What one call of `pppos_state_interval` reads from its collaborators:
the clock (every `sys_now()` of one call returns the same value), the phase of
the PPP engine (on entry, and after `ppp_connect` returned, which may have
changed it) and the reconnect flag of the serial channel. -/
structure tick_env where
  sys_now : Nat
  ppp_phase : Nat
  ppp_phase_after_connect : Nat
  sio_reconnected : Nat

/-- First statement of the `case PPPOS_CHATSCRIPT_ON_CONNECT` block,
`if (modem->ppp->phase != phase_saved) { .. }`: the context, the calls made and
the phase that the engine is in afterwards. -/
def phase_observe (modem : pppos_modem_t) (env : tick_env) :
    pppos_modem_t × List Effect × Nat :=
  let phase_saved := modem.phase_saved
  if env.ppp_phase ≠ phase_saved then
    let modem := { modem with phase_saved := env.ppp_phase }
    if env.ppp_phase = PPP_PHASE_DEAD ∨ env.ppp_phase = PPP_PHASE_TERMINATE then
      if phase_saved = 0xFF then
        ({ modem with command := { modem.command with start_time := env.sys_now } },
          [.ppp_connect], env.ppp_phase_after_connect)
      else
        ({ modem with phase_saved := 0xFF, state := .PPPOS_CHATSCRIPT_BEGIN }, [], env.ppp_phase)
    else if env.ppp_phase = PPP_PHASE_ESTABLISH then
      ({ modem with command := { modem.command with start_time := env.sys_now } },
        [], env.ppp_phase)
    else (modem, [], env.ppp_phase)
  else (modem, [], env.ppp_phase)

/-- Second statement of the `case PPPOS_CHATSCRIPT_ON_CONNECT` block,
`if (modem->ppp->phase != PPP_PHASE_RUNNING) { .. } else if (sio_is_reconnected)
{ .. } else { .. }`, for the phase that the engine is in now. -/
def phase_supervise (modem : pppos_modem_t) (phase : Nat) (env : tick_env) :
    pppos_modem_t × List Effect :=
  let sio_is_reconnected := env.sio_reconnected
  if phase ≠ PPP_PHASE_RUNNING then
    if phase = PPP_PHASE_ESTABLISH then
      if (modem.command.start_time + 2000) % 2 ^ 32 < env.sys_now then (modem, [.ppp_close])
      else (modem, [])
    else
      if (modem.command.start_time + 15000) % 2 ^ 32 < env.sys_now then (modem, [.ppp_close])
      else (modem, [])
  else if sio_is_reconnected ≠ 0 then
    ({ modem with phase_saved := 0xFF, state := .PPPOS_CHATSCRIPT_START_ATE0 }, [.ppp_close])
  else
    ({ modem with command := { modem.command with start_time := env.sys_now } }, [])

/-- The `case PPPOS_CHATSCRIPT_ON_CONNECT` block of `pppos_state_interval`: its
two statements and `sys_timeout(200, pppos_state_interval, arg)`. (The reconnect
flag is read first in the source; reading it changes nothing in the context.) -/
def pppos_state_on_connect (modem : pppos_modem_t) (env : tick_env) :
    pppos_modem_t × List Effect :=
  let s1 := phase_observe modem env
  let s2 := phase_supervise s1.1 s1.2.2 env
  (s2.1, s1.2.1 ++ s2.2 ++ [.sys_timeout 200 .pppos_state_interval])

/-- `pppos_state_interval(arg)`. (The `default` label is for values outside
the enumeration, which the type excludes; the `sys_msleep` of the debug build
is left out.) -/
def pppos_state_interval (modem : pppos_modem_t) (env : tick_env) :
    pppos_modem_t × List Effect :=
  match modem.state with
  | .PPPOS_CHATSCRIPT_BEGIN =>
    ({ modem with state := .PPPOS_CHATSCRIPT_AT_MODE_PRE_WAIT },
      [.sys_timeout 1200 .pppos_state_interval])
  | .PPPOS_CHATSCRIPT_AT_MODE_PRE_WAIT =>
    ({ modem with state := .PPPOS_CHATSCRIPT_SEND_PLUS_PLUS_PLUS },
      [.sio_write (cstr "+++"), .sys_timeout 0 .pppos_state_interval])
  | .PPPOS_CHATSCRIPT_SEND_PLUS_PLUS_PLUS =>
    ({ modem with state := .PPPOS_CHATSCRIPT_AT_MODE_POST_WAIT },
      [.sys_timeout 1200 .pppos_state_interval])
  | .PPPOS_CHATSCRIPT_AT_MODE_POST_WAIT =>
    ({ modem with state := .PPPOS_CHATSCRIPT_START_ATE0 },
      [.sys_timeout 0 .pppos_state_interval])
  | .PPPOS_CHATSCRIPT_START_ATE0 =>
    pppos_command_run modem .pppos_state_interval
      (cstr "ATE0\r\n") (some (cstr "OK\r\n")) none 2 500
      .PPPOS_CHATSCRIPT_START_CFUN .PPPOS_CHATSCRIPT_BEGIN
  | .PPPOS_CHATSCRIPT_START_CFUN =>
    pppos_command_run modem .pppos_state_interval
      (cstr "AT+CFUN=1\r\n") (some (cstr "OK\r\n")) none 1 500
      .PPPOS_CHATSCRIPT_START_CREG_QUERY .PPPOS_CHATSCRIPT_START_ATE0
  | .PPPOS_CHATSCRIPT_START_CREG_QUERY =>
    pppos_command_run_with_check modem .pppos_state_interval
      (cstr "AT+CREG?\r\n") (some (cstr "OK\r\n")) none (some pppos_at_creg_check) 1 500
      .PPPOS_CHATSCRIPT_START_CGDCONT .PPPOS_CHATSCRIPT_START_ATE0
  | .PPPOS_CHATSCRIPT_START_CGDCONT =>
    pppos_command_run modem .pppos_state_interval
      (cstr "AT+CGDCONT=1,\"IPV4V6\"\r\n") (some (cstr "OK\r\n")) none 1 500
      .PPPOS_CHATSCRIPT_START_CGDCONT_QUERY .PPPOS_CHATSCRIPT_START_CGDCONT_QUERY
  | .PPPOS_CHATSCRIPT_START_CGDCONT_QUERY =>
    pppos_command_run modem .pppos_state_interval
      (cstr "AT+CGDCONT?\r\n") (some (cstr "OK\r\n")) none 1 500
      .PPPOS_CHATSCRIPT_START_CGDATA .PPPOS_CHATSCRIPT_START_ATE0
  | .PPPOS_CHATSCRIPT_START_CGDATA =>
    pppos_command_run modem .pppos_state_interval
      (cstr "AT+CGDATA=\"PPP\",1\r\n") (some (cstr "CONNECT\r\n")) none 1 500
      .PPPOS_CHATSCRIPT_ON_CONNECT .PPPOS_CHATSCRIPT_START_ATE0
  | .PPPOS_CHATSCRIPT_ON_CONNECT => pppos_state_on_connect modem env

/-! ## Receive path and start -/

/-- `pppos_input_connect(modem, s, l)` for a chunk `s` of `l` bytes. -/
def pppos_input_connect (modem : pppos_modem_t) (s : List Byte) :
    Option (pppos_modem_t × List Effect) :=
  if modem.state ≠ .PPPOS_CHATSCRIPT_ON_CONNECT then
    match feed_bytes modem s with
    | none => none
    | some modem => some (modem, [])
  else some (modem, [.pppos_rx_input s])

/-- The context after `memset(&modem, 0, sizeof(modem))` in `pppos_example_init`.
(The zeroed `callback` is a null pointer; it is written by
`pppos_command_run_with_check` before it is read, and stands here as
`pppos_state_interval`.) -/
def modem_zero : pppos_modem_t where
  phase_saved := 0
  command := {
    callback := .pppos_state_interval
    cmd := []
    expect_result := none
    check := none
    expect_error := none
    timeout := 0
    start_time := 0
    try_count := 0
    at_result := .at_result_success }
  find_result_pos := 0
  state := .PPPOS_CHATSCRIPT_BEGIN
  success_state := .PPPOS_CHATSCRIPT_BEGIN
  failure_state := .PPPOS_CHATSCRIPT_BEGIN
  command_ack := fun _ => 0
  command_ack_len := 0
  buffer_int := fun _ => 0
  buffer_int_pos := 0
  buffer_cmd_ack_pos := 0
  buffer_cmd_ack_count := 0
  buffer_cmd_ack := fun _ _ => 0

/-- `pppos_modem_start(modem)`. -/
def pppos_modem_start (modem : pppos_modem_t) : pppos_modem_t × List Effect :=
  let modem := pppos_modem_receive_reset modem
  let modem := { modem with state := .PPPOS_CHATSCRIPT_START_ATE0 }
  let modem := { modem with phase_saved := 0xff }
  (modem, [.sys_timeout 1 .pppos_rx_interval, .sys_timeout 1 .pppos_state_interval])

/-! ## Runs of the command executor -/

/-- What happens to a command in flight: `pppos_rx_interval` passes a received
chunk to `pppos_input_connect`, or the pending timeout of the executor fires
while `sys_now()` returns the given value. -/
inductive exec_event where
  | rx (chunk : List Byte)
  | timer (sys_now : Nat)
  deriving DecidableEq, Repr

/-- A command in flight: the context, the handler that the last `sys_timeout` of
the executor scheduled, and all calls made to the collaborators so far. The
command is retired once the pending handler is its completion callback. -/
structure exec_state where
  modem : pppos_modem_t
  pending : sys_timeout_handler
  log : List Effect

/-- The command right after its creation: `pppos_command_execute` is pending. -/
def exec_start (modem : pppos_modem_t) : exec_state :=
  { modem := modem, pending := .pppos_command_execute, log := [] }

/-- The handler of the first `sys_timeout` among the calls of a handler. -/
def scheduled : List Effect → Option sys_timeout_handler
  | [] => none
  | .sys_timeout _ h :: _ => some h
  | _ :: rest => scheduled rest

/-- The data of the `sio_write` calls among the calls made, in order. -/
def sio_writes : List Effect → List (List Byte)
  | [] => []
  | .sio_write data :: rest => data :: sio_writes rest
  | _ :: rest => sio_writes rest

/-- The number of times `pppos_command_execute` was scheduled. In a run without
success or error match these are the timeouts declared by `pppos_command_wait`. -/
def execute_scheduled : List Effect → Nat
  | [] => 0
  | .sys_timeout _ .pppos_command_execute :: rest => execute_scheduled rest + 1
  | _ :: rest => execute_scheduled rest

/-- The state after a handler returned `(modem, calls)`. -/
def exec_after (s : exec_state) (r : pppos_modem_t × List Effect) : exec_state :=
  { modem := r.1, pending := (scheduled r.2).getD s.pending, log := s.log ++ r.2 }

/-- One event of a command in flight. A retired command ignores events. -/
def exec_step (s : exec_state) : exec_event → Option exec_state
  | .rx chunk =>
    match s.pending with
    | .pppos_command_execute | .pppos_command_wait =>
      (pppos_input_connect s.modem chunk).map (exec_after s)
    | _ => some s
  | .timer sys_now =>
    match s.pending with
    | .pppos_command_execute => (pppos_command_execute s.modem sys_now).map (exec_after s)
    | .pppos_command_wait => (pppos_command_wait s.modem sys_now).map (exec_after s)
    | _ => some s

/-- A sequence of events, in order. -/
def exec_run (s : exec_state) : List exec_event → Option exec_state
  | [] => some s
  | e :: es =>
    match exec_step s e with
    | none => none
    | some s => exec_run s es

/-- The verdict that a poll of the acknowledgment matcher reports now. -/
def poll_verdict (modem : pppos_modem_t) : Option at_result_enum :=
  (pppos_find_ack modem modem.command.expect_result modem.command.expect_error).map Prod.snd

/-- The event is not a poll of `pppos_command_wait`, or the poll reports "no
response". -/
def poll_silent (s : exec_state) (e : exec_event) : Bool :=
  match s.pending, e with
  | .pppos_command_wait, .timer _ =>
    decide (poll_verdict s.modem = some .at_result_failure_no_response)
  | _, _ => true

/-- Every poll of `pppos_command_wait` during the run reports "no response". -/
def polls_silent (s : exec_state) : List exec_event → Bool
  | [] => true
  | e :: es =>
    poll_silent s e &&
    (match exec_step s e with
      | none => true
      | some s => polls_silent s es)

/-! ## Specification vocabulary and sample contexts -/

/-- An array holding the bytes of `l`, then NUL bytes. -/
def arr_of_list (l : List Byte) : Nat → Byte := fun j => l.getD j 0

/-- The sub-pattern `sub` is a substring of one of the first `ack_count` slots
of the ring. -/
def slot_hit (buffer_cmd_ack : Nat → Nat → Byte) (ack_count : Nat) (sub : List Byte) : Prop :=
  ∃ i, i < ack_count ∧ sub <:+: c_str (buffer_cmd_ack i)

/-- The line `"\r\nOK\r\n"` in a 128-byte array. -/
def line_ok : Nat → Byte := arr_of_list (cstr "\r\nOK\r\n")

/-- The line `"\r\n+CREG: 0,1\r\n"` in a 128-byte array. -/
def line_creg : Nat → Byte := arr_of_list (cstr "\r\n+CREG: 0,1\r\n")

/-- A context whose ring holds the single completed line `line_ok`. -/
def modem_ok_line : pppos_modem_t :=
  { modem_zero with
    buffer_cmd_ack_count := 1
    buffer_cmd_ack_pos := 1
    buffer_cmd_ack := arr_set modem_zero.buffer_cmd_ack 0 line_ok }

/-- A context whose ring holds the two completed lines `line_creg` (slot 0) and
`line_ok` (slot 1). -/
def modem_two_lines : pppos_modem_t :=
  { modem_zero with
    buffer_cmd_ack_count := 2
    buffer_cmd_ack_pos := 2
    buffer_cmd_ack := arr_set (arr_set modem_zero.buffer_cmd_ack 0 line_creg) 1 line_ok }

/-- The number of CR LF pairs in a byte sequence. -/
def count_crlf : List Byte → Nat
  | a :: b :: rest => (if a = 0x0D ∧ b = 0x0A then 1 else 0) + count_crlf (b :: rest)
  | _ => 0

/-- The number of CR LF pairs that directly follow a byte other than LF. -/
def count_line_ends : List Byte → Nat
  | a :: b :: c :: rest =>
    (if a ≠ 0x0A ∧ b = 0x0D ∧ c = 0x0A then 1 else 0) + count_line_ends (b :: c :: rest)
  | _ => 0

/-- The last scratch bytes that the next tests of `pppos_byte_process` can
still read: the last two, or, when only one byte is held, that byte behind a
line feed (with fewer than three bytes held no test is made). -/
def scratch_tail (modem : pppos_modem_t) : List Byte :=
  if modem.buffer_int_pos = 0 then []
  else if modem.buffer_int_pos = 1 then [0x0A, modem.buffer_int 0]
  else [modem.buffer_int (modem.buffer_int_pos - 2), modem.buffer_int (modem.buffer_int_pos - 1)]

/-- A byte sequence repeated `n` times. -/
def repeat_bytes (n : Nat) (bs : List Byte) : List Byte := (List.replicate n bs).flatten

/-- The part of the context that the receive path never writes. -/
def same_control (a b : pppos_modem_t) : Prop :=
  a.command = b.command ∧ a.state = b.state ∧ a.success_state = b.success_state ∧
  a.failure_state = b.failure_state ∧ a.phase_saved = b.phase_saved ∧
  a.find_result_pos = b.find_result_pos

/-- The invariant of a command in flight whose polls report no response:
`N` attempts were requested, the command text is `cmd`, the descriptor routes
to `ss` or `fs`. -/
def retry_inv (N : Int) (cmd : List Byte) (ss fs : PPPOS_ChatscriptState)
    (s : exec_state) : Prop :=
  s.modem.command.cmd = cmd ∧ s.modem.command.callback = .pppos_state_interval ∧
  s.modem.success_state = ss ∧ s.modem.failure_state = fs ∧
  (∀ x ∈ sio_writes s.log, x = cmd) ∧
  s.modem.command.try_count = N - execute_scheduled s.log ∧
  (s.pending = .pppos_command_wait →
    1 ≤ s.modem.command.try_count ∧
      (sio_writes s.log).length = execute_scheduled s.log + 1) ∧
  (s.pending = .pppos_command_execute →
    0 ≤ s.modem.command.try_count ∧ (sio_writes s.log).length = execute_scheduled s.log) ∧
  (s.pending = .pppos_state_interval →
    s.modem.command.try_count = 0 ∧ ((sio_writes s.log).length : Int) = N ∧
      (s.modem.state = ss ∨ s.modem.state = fs)) ∧
  s.pending ≠ .pppos_rx_interval

/-- The verdict that `pppos_command_execute` routes on: that of the custom
check on the raw acknowledgment if there is one, else the stored verdict of
the last poll. -/
def final_verdict (modem : pppos_modem_t) : Option at_result_enum :=
  match modem.command.check with
  | some check => check (c_str modem.command_ack)
  | none => some modem.command.at_result

/-- The descriptor of the echo-off state on a zeroed context: two attempts. -/
def sample_ate0 : pppos_modem_t :=
  (pppos_command_run_with_check modem_zero .pppos_state_interval (cstr "ATE0\r\n")
    (some (cstr "OK\r\n")) none none 2 500
    .PPPOS_CHATSCRIPT_START_CFUN .PPPOS_CHATSCRIPT_BEGIN).1

/-- A silent run: send at 0, poll at 10, time out at 501, send at 502, time out
at 1003, evaluate at 1004. -/
def silent_events : List exec_event :=
  [.timer 0, .timer 10, .timer 501, .timer 502, .timer 1003, .timer 1004]

/-- The state at the end of the silent run. -/
def silent_final : exec_state :=
  (exec_run (exec_start sample_ate0) silent_events).getD (exec_start sample_ate0)

/-- The descriptor of a command in flight after an error verdict at a poll of
the first attempt: nothing left to send, routing to `fs` pending or done. -/
def error_inv (cmd : List Byte) (fs : PPPOS_ChatscriptState) (s : exec_state) : Prop :=
  sio_writes s.log = [cmd] ∧ s.modem.command.try_count = 0 ∧
  s.modem.command.check = none ∧ s.modem.command.callback = .pppos_state_interval ∧
  s.modem.failure_state = fs ∧ s.modem.command.at_result = .at_result_failure_error ∧
  (s.pending = .pppos_command_execute ∨
    (s.pending = .pppos_state_interval ∧ s.modem.state = fs))

/-- A command with three attempts, the success pattern `"OK\r\n"` and the error
pattern `"ERROR\r\n"`, created on a zeroed context. -/
def sample_three : pppos_modem_t :=
  (pppos_command_run modem_zero .pppos_state_interval (cstr "ATE0\r\n")
    (some (cstr "OK\r\n")) (some (cstr "ERROR\r\n")) 3 500
    .PPPOS_CHATSCRIPT_START_CFUN .PPPOS_CHATSCRIPT_BEGIN).1

/-- The state of `sample_three` after the events `evs`; the state at creation if
the run has no defined result. -/
def sample_three_after (evs : List exec_event) : exec_state :=
  (exec_run (exec_start sample_three) evs).getD (exec_start sample_three)

/-- The descriptor that `pppos_state_interval` creates in the given state of a
zeroed context. -/
def descriptor_in (state : PPPOS_ChatscriptState) : pppos_modem_t :=
  (pppos_state_interval { modem_zero with state := state } ⟨0, 0, 0, 0⟩).1

/-- The state of the descriptor of `state` after the events `evs`; the state at
creation if the run has no defined result. -/
def descriptor_after (state : PPPOS_ChatscriptState) (evs : List exec_event) : exec_state :=
  (exec_run (exec_start (descriptor_in state)) evs).getD (exec_start (descriptor_in state))

/-- What a call of `pppos_state_interval` configured, apart from the custom
check: command text, success pattern, error pattern, attempts, timeout, success
state, failure state, completion callback, and the calls it made. -/
def configured (r : pppos_modem_t × List Effect) :
    List Byte × Option (List Byte) × Option (List Byte) × Int × Nat ×
      PPPOS_ChatscriptState × PPPOS_ChatscriptState × sys_timeout_handler × List Effect :=
  (r.1.command.cmd, r.1.command.expect_result, r.1.command.expect_error,
    r.1.command.try_count, r.1.command.timeout, r.1.success_state, r.1.failure_state,
    r.1.command.callback, r.2)

/-- The events of a command that gets no answer, `k` attempts being left: each
attempt is sent when the clock reads 0 and polled once when it reads
`timeout + 1`; a last timer event evaluates the command. -/
def retry_schedule (timeout : Nat) : Nat → List exec_event
  | 0 => [.timer 0]
  | k + 1 => .timer 0 :: .timer (timeout + 1) :: retry_schedule timeout k

/-! ## Output callback, ticks of the controller, order of the chat script -/

/-- `ppp_output_cb(pcb, data, len, ctx)` for the `len` bytes `data`;
`sio_write` stands for the serial channel: the byte count that its write of the
given data returns, a `u32_t`. The result is the return value and the calls
made. -/
def ppp_output_cb (modem : pppos_modem_t) (data : List Byte) (sio_write : List Byte → Nat) :
    Nat × List Effect :=
  if modem.state = .PPPOS_CHATSCRIPT_ON_CONNECT then
    (sio_write data, [.sio_write data])
  else (0, [])

/-- Successive calls of `pppos_state_interval`, one for each tick, with the
calls that each tick made. (In the four escape states and in the connected
state every call reschedules `pppos_state_interval` itself.) -/
def state_ticks (modem : pppos_modem_t) : List tick_env → pppos_modem_t × List (List Effect)
  | [] => (modem, [])
  | env :: envs =>
    let r := pppos_state_interval modem env
    let rest := state_ticks r.1 envs
    (rest.1, r.2 :: rest.2)

/-- The place of a state in the chat-script sequence: Begin, PreEscapeWait,
SendEscape, PostEscapeWait, EchoOff, FunctionEnable, RegistrationQuery,
ContextSet, ContextQuery, DataModeEntry, Connected. This is the order in which
the success states of `pppos_state_interval` chain the states (the `enum`
declares `START_CREG_QUERY` after `START_CGDCONT_QUERY`, the controller runs it
before `START_CGDCONT`). -/
def script_position : PPPOS_ChatscriptState → Nat
  | .PPPOS_CHATSCRIPT_BEGIN => 0
  | .PPPOS_CHATSCRIPT_AT_MODE_PRE_WAIT => 1
  | .PPPOS_CHATSCRIPT_SEND_PLUS_PLUS_PLUS => 2
  | .PPPOS_CHATSCRIPT_AT_MODE_POST_WAIT => 3
  | .PPPOS_CHATSCRIPT_START_ATE0 => 4
  | .PPPOS_CHATSCRIPT_START_CFUN => 5
  | .PPPOS_CHATSCRIPT_START_CREG_QUERY => 6
  | .PPPOS_CHATSCRIPT_START_CGDCONT => 7
  | .PPPOS_CHATSCRIPT_START_CGDCONT_QUERY => 8
  | .PPPOS_CHATSCRIPT_START_CGDATA => 9
  | .PPPOS_CHATSCRIPT_ON_CONNECT => 10

/-- The failure state that `pppos_state_interval` configures in a state. -/
def configured_failure (modem : pppos_modem_t) (env : tick_env)
    (state : PPPOS_ChatscriptState) : PPPOS_ChatscriptState :=
  (pppos_state_interval { modem with state := state } env).1.failure_state

/-- What a run of the executor left: pending handler, chat-script state, stored
verdict and `try_count`. -/
def exec_outcome (s : exec_state) :
    sys_timeout_handler × PPPOS_ChatscriptState × at_result_enum × Int :=
  (s.pending, s.modem.state, s.modem.command.at_result, s.modem.command.try_count)

/-- A context in the connected state with the given phase snapshot. -/
def modem_connected (phase_saved : Nat) : pppos_modem_t :=
  { modem_zero with state := .PPPOS_CHATSCRIPT_ON_CONNECT, phase_saved := phase_saved }

/-! ## Broadcast test of an IPv4 address -/

/-- Modelled from the spec: the constant `IPADDR_ANY` of `lwip/ip4_addr.h`, a
header that is not among the sources: the address 0.0.0.0. -/
def IPADDR_ANY : Nat := 0x00000000

/-- Modelled from the spec: the constant `IPADDR_BROADCAST` of
`lwip/ip4_addr.h`, not among the sources: the address 255.255.255.255. -/
def IPADDR_BROADCAST : Nat := 0xffffffff

/-- Modelled from the spec: the flag bit `NETIF_FLAG_BROADCAST` of
`lwip/netif.h`, not among the sources: set in `flags` when the interface has
broadcast capability. -/
def NETIF_FLAG_BROADCAST : Nat := 0x02

/-- The fields of `struct netif` that `ip4_addr_isbroadcast_u32` reads: the
flags, and the address and netmask that `netif_ip4_addr` and
`netif_ip4_netmask` return, as `u32_t` values. -/
structure netif_t where
  flags : Nat
  ip_addr : Nat
  netmask : Nat

/-- The `u32_t` complement `~x`. -/
def u32_not (x : Nat) : Nat := (2 ^ 32 - 1 - x % 2 ^ 32)

/-- Modelled from the spec: the macro `ip4_addr_net_eq(addr1, addr2, mask)` of
`lwip/ip4_addr.h`, not among the sources: the two addresses are on the same
subnet, they agree under the mask. -/
def ip4_addr_net_eq (addr1 addr2 mask : Nat) : Bool :=
  addr1 &&& mask = addr2 &&& mask

/-- `ip4_addr_isbroadcast_u32(addr, netif)`. -/
def ip4_addr_isbroadcast_u32 (addr : Nat) (netif : netif_t) : Nat :=
  let ipaddr := addr
  if u32_not addr = IPADDR_ANY ∨ addr = IPADDR_ANY then 1
  else if netif.flags &&& NETIF_FLAG_BROADCAST = 0 then 0
  else if addr = netif.ip_addr then 0
  else if ip4_addr_net_eq ipaddr netif.ip_addr netif.netmask = true ∧
      addr &&& u32_not netif.netmask = IPADDR_BROADCAST &&& u32_not netif.netmask then 1
  else 0

/-- The address is on the subnet of `ip` under `mask`: the two agree on every
bit of the netmask. -/
def on_subnet (addr ip mask : Nat) : Prop :=
  ∀ i, i < 32 → mask.testBit i = true → addr.testBit i = ip.testBit i

/-- Every host bit of the address, the bits outside the netmask, is one. -/
def host_bits_all_one (addr mask : Nat) : Prop :=
  ∀ i, i < 32 → mask.testBit i = false → addr.testBit i = true

/-- A sample interface: 192.168.1.10 with netmask 255.255.255.0, addresses as
the `u32_t` read on a big-endian host, broadcast capable. -/
def netif_sample : netif_t := { flags := 0x02, ip_addr := 0xC0A8010A, netmask := 0xFFFFFF00 }

/-! ## Further vocabulary of the executor and of the connected state -/

/-- A descriptor with the registration check and two attempts, created on a
zeroed context. -/
def sample_creg_two : pppos_modem_t :=
  (pppos_command_run_with_check modem_zero .pppos_state_interval (cstr "AT+CREG?\r\n")
    (some (cstr "OK\r\n")) none (some pppos_at_creg_check) 2 500
    .PPPOS_CHATSCRIPT_START_CGDCONT .PPPOS_CHATSCRIPT_START_ATE0).1

/-- The invariant of a command in flight that was created with the controller
as completion callback: `try_count` is an `int8_t`, and at least one attempt is
left while `pppos_command_wait` is pending. -/
def attempts_inv (s : exec_state) : Prop :=
  s.modem.command.callback = .pppos_state_interval ∧
  -128 ≤ s.modem.command.try_count ∧ s.modem.command.try_count ≤ 127 ∧
  (s.pending = .pppos_command_wait → 1 ≤ s.modem.command.try_count)

/-- The phase that the second statement of the `ON_CONNECT` block reads from
the engine: the phase on entry, or the phase after `ppp_connect` returned when
the first statement called it. -/
def phase_supervised (modem : pppos_modem_t) (env : tick_env) : Nat :=
  (phase_observe modem env).2.2

/-- The first statement of the `ON_CONNECT` block restarts the chat script:
the phase changed to dead or terminating and a phase was recorded before. -/
def link_dropped (modem : pppos_modem_t) (env : tick_env) : Prop :=
  env.ppp_phase ≠ modem.phase_saved ∧
  (env.ppp_phase = PPP_PHASE_DEAD ∨ env.ppp_phase = PPP_PHASE_TERMINATE) ∧
  modem.phase_saved ≠ 0xFF

/-! ## The whole core under the scheduler -/

/-- `pppos_rx_interval(arg)`: `chunks` are the reads of positive length that
successive `sio_tryread` calls deliver before one returns nothing; each goes to
`pppos_input_connect`, then the handler reschedules itself after 1. -/
def pppos_rx_interval (modem : pppos_modem_t) :
    List (List Byte) → Option (pppos_modem_t × List Effect)
  | [] => some (modem, [.sys_timeout 1 .pppos_rx_interval])
  | chunk :: chunks =>
    match pppos_input_connect modem chunk with
    | none => none
    | some r =>
      match pppos_rx_interval r.1 chunks with
      | none => none
      | some r' => some (r'.1, r.2 ++ r'.2)

/-- The handlers of the `sys_timeout` calls among the calls made, in order. -/
def timeouts : List Effect → List sys_timeout_handler
  | [] => []
  | .sys_timeout _ h :: rest => h :: timeouts rest
  | _ :: rest => timeouts rest

/-- The expiry of a pending timeout: the handler that runs, and what its
collaborators deliver while it runs (clock, phase of the PPP engine and
reconnect flag for the controller and the executor, the reads of the serial
channel for `pppos_rx_interval`). -/
structure core_event where
  handler : sys_timeout_handler
  env : tick_env
  chunks : List (List Byte)

/-- The core between two handlers: the context and the pending timeouts. -/
structure core_state where
  modem : pppos_modem_t
  timers : List sys_timeout_handler

/-- The handler of an event, run on the context. -/
def run_handler (modem : pppos_modem_t) (e : core_event) :
    Option (pppos_modem_t × List Effect) :=
  match e.handler with
  | .pppos_rx_interval => pppos_rx_interval modem e.chunks
  | .pppos_state_interval => some (pppos_state_interval modem e.env)
  | .pppos_command_execute => pppos_command_execute modem e.env.sys_now
  | .pppos_command_wait => pppos_command_wait modem e.env.sys_now

/-- One event of the scheduler: a pending timeout expires (it is no longer
pending), its handler runs, and the timeouts that the handler scheduled are
pending afterwards. Any pending timeout may be the next to expire. -/
def core_step (s : core_state) (e : core_event) : Option core_state :=
  if e.handler ∈ s.timers then
    match run_handler s.modem e with
    | none => none
    | some r => some { modem := r.1, timers := s.timers.erase e.handler ++ timeouts r.2 }
  else none

/-- A sequence of events, in order. -/
def core_run (s : core_state) : List core_event → Option core_state
  | [] => some s
  | e :: es =>
    match core_step s e with
    | none => none
    | some s => core_run s es

/-- The core after `pppos_modem_start(modem)`. -/
def core_start (modem : pppos_modem_t) : core_state :=
  { modem := (pppos_modem_start modem).1, timers := timeouts (pppos_modem_start modem).2 }

/-- The number of pending timeouts of the controller and the executor:
`pppos_state_interval`, `pppos_command_execute`, `pppos_command_wait`. -/
def chat_pending (s : core_state) : Nat :=
  s.timers.count .pppos_state_interval + s.timers.count .pppos_command_execute +
    s.timers.count .pppos_command_wait

/-- The invariant of the core: one timeout of the controller and the executor
is pending; while it is one of the executor, the completion callback is the
controller and the chat script is not in the connected state; outside the
connected state no phase is recorded. -/
def core_inv (s : core_state) : Prop :=
  chat_pending s = 1 ∧
  ((.pppos_command_execute ∈ s.timers ∨ .pppos_command_wait ∈ s.timers) →
    s.modem.command.callback = .pppos_state_interval ∧
      s.modem.state ≠ .PPPOS_CHATSCRIPT_ON_CONNECT) ∧
  (s.modem.state ≠ .PPPOS_CHATSCRIPT_ON_CONNECT → s.modem.phase_saved = 0xFF)

/-- An event that lets the timeout of a handler expire while the clock reads
0, the engine is dead and the serial channel delivers the given reads. -/
def expiry (handler : sys_timeout_handler) (chunks : List (List Byte)) : core_event :=
  { handler := handler, env := ⟨0, 0, 0, 0⟩, chunks := chunks }

/-- The events of one command of the chat script that the modem answers with
`answer`: the controller creates the descriptor, the executor sends, the
answer is read, the poll finds it, the executor evaluates. -/
def answered (answer : List Byte) : List core_event :=
  [expiry .pppos_state_interval [], expiry .pppos_command_execute [],
   expiry .pppos_rx_interval [answer], expiry .pppos_command_wait [],
   expiry .pppos_command_execute []]

/-- The events of a chat script that the modem answers as expected, from the
start up to the evaluation of the data-mode command. -/
def script_events : List core_event :=
  answered (cstr "\r\nOK\r\n") ++ answered (cstr "\r\nOK\r\n") ++
  answered (cstr "\r\n+CREG: 0,1\r\n\r\nOK\r\n") ++ answered (cstr "\r\nOK\r\n") ++
  answered (cstr "\r\nOK\r\n") ++ answered (cstr "\r\nCONNECT\r\n")

/-- The core after the events `evs` from the start on a zeroed context; the
core at the start if the run has no defined result. -/
def core_after (evs : List core_event) : core_state :=
  (core_run (core_start modem_zero) evs).getD (core_start modem_zero)

/-- The core right before the chat script enters the connected state: the
data-mode command was answered and the poll has found the answer. -/
def script_before_entry : core_state := core_after script_events.dropLast

/-- The core at the entry into the connected state: the evaluation of the
data-mode command has run. -/
def script_entry : core_state :=
  (core_step script_before_entry (expiry .pppos_command_execute [])).getD script_before_entry

/-! ## The scratch bytes read as signed characters -/

/-- The `int` that a scratch byte is promoted to where `char` is signed, as
its 32-bit two's-complement pattern: bytes from `0x80` on are negative and so
have the upper 24 bits set. -/
def sign_extend (b : Byte) : Nat :=
  if b.val < 128 then b.val else 0xFFFFFF00 + b.val

/-- The `uint32_t val` of `pppos_byte_process` where `char` is signed: each of
the three bytes is sign-extended before it is shifted, shifts and ors act on
the 32-bit patterns. -/
def scratch_val_signed (b3 b2 b1 : Byte) : Nat :=
  ((sign_extend b3 <<< 16) % 2 ^ 32 ||| (sign_extend b2 <<< 8) % 2 ^ 32 |||
    (sign_extend b1 <<< 0) % 2 ^ 32) % 2 ^ 32

/-- Byte `k` of a word, counted from the least significant. -/
def word_byte (k x : Nat) : Nat := (x >>> (8 * k)) % 2 ^ 8

/-- The upper bits that a sign-extended byte contributes to each place above
its own: all ones for a negative byte, none otherwise. -/
def sign_fill (b : Byte) : Nat := if b.val < 128 then 0 else 255

/-! ## A deadline at the end of the clock range -/

/-- A command in flight whose deadline `start_time + timeout` is the largest
value of the 32-bit clock: it waits with an empty ring, `try_count` is `N`, the
text `cmd` was written once and no timeout was declared. -/
def deadline_stuck (cmd : List Byte) (N : Int) (s : exec_state) : Prop :=
  s.pending = .pppos_command_wait ∧ s.modem.buffer_cmd_ack_count = 0 ∧
  (∀ p, s.modem.command.expect_result = some p → ∀ sub ∈ p.splitOn 0x0A, sub.length < 100) ∧
  (∀ p, s.modem.command.expect_error = some p → ∀ sub ∈ p.splitOn 0x0A, sub.length < 100) ∧
  (s.modem.command.start_time + s.modem.command.timeout) % 2 ^ 32 = 2 ^ 32 - 1 ∧
  s.modem.command.try_count = N ∧ sio_writes s.log = [cmd] ∧ execute_scheduled s.log = 0

/-- The timer events of polls at the given clock readings, each taken as a
32-bit value. -/
def polls_at (clocks : List Nat) : List exec_event :=
  clocks.map (fun t => .timer (t % 2 ^ 32))

/-! # Theorems -/

/-! ## Acknowledgment matcher -/

theorem strstr_isSome_iff (h n : List Byte) : (strstr h n).isSome = true ↔ n <:+: h := by
  induction h with
  | nil =>
    cases n <;> simp [strstr]
  | cons a t ih =>
    rw [List.infix_cons_iff]
    unfold strstr
    by_cases hp : n.isPrefixOf (a :: t) = true
    · simp only [hp, if_true, Option.isSome_some, true_iff]
      exact Or.inl (List.isPrefixOf_iff_prefix.mp hp)
    · simp only [hp, Option.isSome_map', Bool.false_eq_true, if_false]
      rw [ih]
      constructor
      · intro h1; exact Or.inr h1
      · rintro (h1 | h1)
        · exact absurd (List.isPrefixOf_iff_prefix.mpr h1) hp
        · exact h1

theorem split_lf_eq_splitOn (p : List Byte) : split_lf p = p.splitOn 0x0A := by
  induction p with
  | nil => simp [split_lf, List.splitOn]
  | cons c cs ih =>
    unfold split_lf
    rw [ih]
    simp only [List.splitOn]
    rw [List.splitOnP_cons]
    by_cases hc : c = 0x0A
    · simp [hc]
    · have : (c == (0x0A : Byte)) = false := by simpa using hc
      simp only [hc, this, if_false]
      cases h : List.splitOnP (fun x => x == (0x0A : Byte)) cs with
      | nil => exact absurd h (List.splitOnP_ne_nil _ _)
      | cons s ss => simp [List.modifyHead]

theorem split_lf_ne_nil (p : List Byte) : split_lf p ≠ [] := by
  cases p with
  | nil => simp [split_lf]
  | cons c cs =>
    unfold split_lf
    split
    · simp
    · split <;> simp

theorem scan_slots_miss (ring : Nat → Nat → Byte) (sub : List Byte) :
    ∀ (is : List Nat) (acc : Int × Int),
      (¬ ∃ i ∈ is, sub <:+: c_str (ring i)) →
      scan_slots ring sub is acc = acc := by
  intro l
  induction l with
  | nil => intro a _; rfl
  | cons k l ihl =>
    intro a hn
    have hk : ¬ (strstr (c_str (ring k)) sub).isSome = true := by
      rw [strstr_isSome_iff]
      exact fun hk => hn ⟨k, List.mem_cons_self _ _, hk⟩
    rw [scan_slots]
    simp only [hk, if_false]
    exact ihl a (fun ⟨x, hx, hx2⟩ => hn ⟨x, List.mem_cons_of_mem _ hx, hx2⟩)

theorem scan_slots_hit (ring : Nat → Nat → Byte) (sub : List Byte) :
    ∀ (is : List Nat) (acc : Int × Int),
      (∃ i ∈ is, sub <:+: c_str (ring i)) →
      ∃ j : Nat, j ∈ is ∧ scan_slots ring sub is acc = ((j : Int), 0) := by
  intro is
  induction is with
  | nil => intro acc h; simp at h
  | cons i is ih =>
    intro acc h
    by_cases hrest : ∃ k ∈ is, sub <:+: c_str (ring k)
    · rw [scan_slots]
      split
      · obtain ⟨j, hj, e⟩ := ih ((i : Int), 0) hrest
        exact ⟨j, List.mem_cons_of_mem _ hj, e⟩
      · obtain ⟨j, hj, e⟩ := ih acc hrest
        exact ⟨j, List.mem_cons_of_mem _ hj, e⟩
    · have hi : (strstr (c_str (ring i)) sub).isSome = true := by
        rw [strstr_isSome_iff]
        obtain ⟨k, hk, hk2⟩ := h
        rcases List.mem_cons.mp hk with rfl | hk'
        · exact hk2
        · exact absurd ⟨k, hk', hk2⟩ hrest
      rw [scan_slots]
      simp only [hi, if_true]
      exact ⟨i, List.mem_cons_self _ _, scan_slots_miss ring sub is _ hrest⟩

theorem slot_hit_iff_range (ring : Nat → Nat → Byte) (n : Nat) (sub : List Byte) :
    slot_hit ring n sub ↔ ∃ i ∈ List.range n, sub <:+: c_str (ring i) := by
  unfold slot_hit
  constructor
  · rintro ⟨i, hi, h⟩; exact ⟨i, List.mem_range.mpr hi, h⟩
  · rintro ⟨i, hi, h⟩; exact ⟨i, List.mem_range.mp hi, h⟩

/-- One iteration of the `while` loop on a sub-pattern that fits `str_to_find`. -/
theorem find_cmd_ack_loop_cons (ring : Nat → Nat → Byte) (n : Nat) (sub : List Byte)
    (rest : List (List Byte)) (fp : Int) (hlen : sub.length < 100) :
    (slot_hit ring n sub → ∃ j : Nat,
        find_cmd_ack_loop ring n (sub :: rest) fp = find_cmd_ack_loop ring n rest (j : Int)) ∧
    (¬ slot_hit ring n sub → find_cmd_ack_loop ring n (sub :: rest) fp = some (-1)) := by
  have hl : ¬ 100 ≤ sub.length := by omega
  constructor
  · intro h
    obtain ⟨j, _, e⟩ := scan_slots_hit ring sub (List.range n) (fp, -1)
      ((slot_hit_iff_range ring n sub).mp h)
    refine ⟨j, ?_⟩
    rw [find_cmd_ack_loop]
    simp [hl, e]
  · intro h
    have e := scan_slots_miss ring sub (List.range n) (fp, -1)
      (fun hh => h ((slot_hit_iff_range ring n sub).mpr hh))
    rw [find_cmd_ack_loop]
    simp [hl, e]

theorem find_cmd_ack_loop_spec (ring : Nat → Nat → Byte) (n : Nat) :
    ∀ (subs : List (List Byte)) (fp : Int), (fp = -1 ∨ 0 ≤ fp) →
      (∀ sub ∈ subs, sub.length < 100) →
      ∃ r : Int, find_cmd_ack_loop ring n subs fp = some r ∧ (r = -1 ∨ 0 ≤ r) ∧
        (subs ≠ [] → (0 ≤ r ↔ ∀ sub ∈ subs, slot_hit ring n sub)) ∧
        (subs = [] → r = fp) := by
  intro subs
  induction subs with
  | nil =>
    intro fp hfp _
    exact ⟨fp, rfl, hfp, fun h => absurd rfl h, fun _ => rfl⟩
  | cons sub rest ih =>
    intro fp hfp hfit
    have hlen : sub.length < 100 := hfit sub (List.mem_cons_self _ _)
    have hrest : ∀ s ∈ rest, s.length < 100 := fun s hs => hfit s (List.mem_cons_of_mem _ hs)
    obtain ⟨hhit, hmiss⟩ := find_cmd_ack_loop_cons ring n sub rest fp hlen
    by_cases h : slot_hit ring n sub
    · obtain ⟨j, e⟩ := hhit h
      obtain ⟨r, hr, hsign, hne, hnil⟩ := ih (j : Int) (Or.inr (Int.ofNat_nonneg j)) hrest
      refine ⟨r, by rw [e, hr], hsign, fun _ => ?_, fun hc => absurd hc (List.cons_ne_nil _ _)⟩
      by_cases hr0 : rest = []
      · subst hr0
        have : r = (j : Int) := hnil rfl
        simp [this, h]
      · rw [hne hr0]
        simp [h]
    · refine ⟨-1, hmiss h, Or.inl rfl, fun _ => ?_, fun hc => absurd hc (List.cons_ne_nil _ _)⟩
      constructor
      · intro hc; omega
      · intro hall; exact absurd (hall sub (List.mem_cons_self _ _)) h

/-- C1, amended: for every ring content and every pattern whose sub-patterns
(the pieces between line feeds) are each shorter than the 100 bytes of
`str_to_find`, `find_cmd_ack` returns an index, which is non-negative or `-1`;
it is non-negative if and only if the pattern is not `NULL` and every
sub-pattern is a substring of at least one of the `min(buffer_cmd_ack_count, 2)`
live slots. -/
theorem find_cmd_ack_spec (modem : pppos_modem_t) (str : Option (List Byte))
    (hfit : ∀ p, str = some p → ∀ sub ∈ p.splitOn 0x0A, sub.length < 100) :
    ∃ r : Int, find_cmd_ack modem str = some r ∧ (0 ≤ r ∨ r = -1) ∧
      (0 ≤ r ↔ ∃ p, str = some p ∧ ∀ sub ∈ p.splitOn 0x0A,
        ∃ i, i < min modem.buffer_cmd_ack_count 2 ∧ sub <:+: c_str (modem.buffer_cmd_ack i)) := by
  cases str with
  | none =>
    refine ⟨-1, rfl, Or.inr rfl, ?_⟩
    constructor
    · intro h; omega
    · rintro ⟨p, hp, _⟩; cases hp
  | some p =>
    have hmin : (if modem.buffer_cmd_ack_count < 2 then modem.buffer_cmd_ack_count else 2)
        = min modem.buffer_cmd_ack_count 2 := by
      split <;> omega
    have hfit' : ∀ sub ∈ split_lf p, sub.length < 100 := by
      rw [split_lf_eq_splitOn]; exact hfit p rfl
    obtain ⟨r, hr, hsign, hne, _⟩ :=
      find_cmd_ack_loop_spec modem.buffer_cmd_ack (min modem.buffer_cmd_ack_count 2)
        (split_lf p) (-1) (Or.inl rfl) hfit'
    refine ⟨r, ?_, hsign.symm, ?_⟩
    · simp only [find_cmd_ack, hmin]; exact hr
    · rw [hne (split_lf_ne_nil p), split_lf_eq_splitOn]
      constructor
      · intro h; exact ⟨p, rfl, h⟩
      · rintro ⟨q, hq, h⟩; cases hq; exact h

/-- Witness of `find_cmd_ack_spec`: the pattern `"OK\r\n"` against a ring
holding the line `"\r\nOK\r\n"`. -/
theorem find_cmd_ack_spec_witness :
    (∀ p, some (cstr "OK\r\n") = some p → ∀ sub ∈ p.splitOn 0x0A, sub.length < 100) ∧
    ∃ r : Int, find_cmd_ack modem_ok_line (some (cstr "OK\r\n")) = some r ∧ (0 ≤ r ∨ r = -1) ∧
      (0 ≤ r ↔ ∃ p, some (cstr "OK\r\n") = some p ∧ ∀ sub ∈ p.splitOn 0x0A,
        ∃ i, i < min modem_ok_line.buffer_cmd_ack_count 2 ∧
          sub <:+: c_str (modem_ok_line.buffer_cmd_ack i)) :=
  have h : ∀ p, some (cstr "OK\r\n") = some p → ∀ sub ∈ p.splitOn 0x0A, sub.length < 100 := by
    intro p hp
    cases hp
    rw [← split_lf_eq_splitOn]
    decide
  ⟨h, find_cmd_ack_spec modem_ok_line (some (cstr "OK\r\n")) h⟩

/-- C1 as stated fails: on a pattern of 100 letters `A` the copy into
`str_to_find[100]` overruns the array, so `find_cmd_ack` returns neither an
index nor `-1`. -/
theorem find_cmd_ack_long_pattern :
    ¬ ∃ r : Int, find_cmd_ack modem_ok_line (some (List.replicate 100 0x41)) = some r := by
  have h : find_cmd_ack modem_ok_line (some (List.replicate 100 0x41)) = none := by decide
  rw [h]
  simp



/-- The verdict of `pppos_find_ack` in terms of the two `find_cmd_ack` calls. -/
theorem pppos_find_ack_snd (modem : pppos_modem_t) (result error : Option (List Byte)) :
    (pppos_find_ack modem result error).map Prod.snd =
      match find_cmd_ack modem result with
      | none => none
      | some r =>
        if 0 ≤ r then some .at_result_success
        else
          match find_cmd_ack modem error with
          | none => none
          | some e =>
            if 0 ≤ e then some .at_result_failure_error
            else some .at_result_failure_no_response := by
  unfold pppos_find_ack
  cases hr : find_cmd_ack modem result with
  | none => rfl
  | some r =>
    by_cases h0 : 0 ≤ r
    · simp [h0]
    · have hsame : find_cmd_ack { modem with find_result_pos := r } error
          = find_cmd_ack modem error := rfl
      simp only [h0, if_false, hsame]
      cases he : find_cmd_ack modem error with
      | none => rfl
      | some e =>
        by_cases h1 : 0 ≤ e <;> simp [h1]

/-- C2: whenever `find_cmd_ack` returns `r` on the success pattern (and, if
`r` is negative, `e` on the error pattern), the verdict of `pppos_find_ack` is
`at_result_success` if the success pattern matches (`0 ≤ r`), whatever the
error pattern does; `at_result_failure_error` if the success pattern does not
match and the error pattern does; `at_result_failure_no_response` if neither
matches. -/
theorem pppos_find_ack_verdict (modem : pppos_modem_t) (result error : Option (List Byte))
    (r e : Int) (hr : find_cmd_ack modem result = some r)
    (he : 0 ≤ r ∨ find_cmd_ack modem error = some e) :
    (0 ≤ r → (pppos_find_ack modem result error).map Prod.snd = some .at_result_success) ∧
    (r < 0 → 0 ≤ e →
      (pppos_find_ack modem result error).map Prod.snd = some .at_result_failure_error) ∧
    (r < 0 → e < 0 →
      (pppos_find_ack modem result error).map Prod.snd
        = some .at_result_failure_no_response) := by
  rw [pppos_find_ack_snd, hr]
  refine ⟨fun h => by simp [h], fun h h' => ?_, fun h h' => ?_⟩
  · have hn : ¬ 0 ≤ r := by omega
    rcases he with he | he
    · exact absurd he hn
    · simp [hn, he, h']
  · have hn : ¬ 0 ≤ r := by omega
    have hn' : ¬ 0 ≤ e := by omega
    rcases he with he | he
    · exact absurd he hn
    · simp [hn, he, hn']

theorem find_cmd_ack_loop_same_sign (ring1 ring2 : Nat → Nat → Byte) (n : Nat)
    (h : ∀ sub, slot_hit ring1 n sub ↔ slot_hit ring2 n sub) :
    ∀ (subs : List (List Byte)) (fp1 fp2 : Int), (0 ≤ fp1 ↔ 0 ≤ fp2) →
      (find_cmd_ack_loop ring1 n subs fp1 = none ∧ find_cmd_ack_loop ring2 n subs fp2 = none) ∨
      ∃ r1 r2 : Int, find_cmd_ack_loop ring1 n subs fp1 = some r1 ∧
        find_cmd_ack_loop ring2 n subs fp2 = some r2 ∧ (0 ≤ r1 ↔ 0 ≤ r2) := by
  intro subs
  induction subs with
  | nil =>
    intro fp1 fp2 hfp
    exact Or.inr ⟨fp1, fp2, rfl, rfl, hfp⟩
  | cons sub rest ih =>
    intro fp1 fp2 _
    by_cases hlen : 100 ≤ sub.length
    · left
      constructor <;> (rw [find_cmd_ack_loop]; simp [hlen])
    · have hl : sub.length < 100 := by omega
      obtain ⟨hhit1, hmiss1⟩ := find_cmd_ack_loop_cons ring1 n sub rest fp1 hl
      obtain ⟨hhit2, hmiss2⟩ := find_cmd_ack_loop_cons ring2 n sub rest fp2 hl
      by_cases hs : slot_hit ring1 n sub
      · obtain ⟨j1, e1⟩ := hhit1 hs
        obtain ⟨j2, e2⟩ := hhit2 ((h sub).mp hs)
        rw [e1, e2]
        exact ih (j1 : Int) (j2 : Int) (by simp)
      · right
        refine ⟨-1, -1, hmiss1 hs, hmiss2 (fun hc => hs ((h sub).mpr hc)), by simp⟩

theorem find_cmd_ack_same_sign (m1 m2 : pppos_modem_t)
    (hc : m1.buffer_cmd_ack_count = m2.buffer_cmd_ack_count)
    (h : ∀ sub, slot_hit m1.buffer_cmd_ack (min m1.buffer_cmd_ack_count 2) sub ↔
      slot_hit m2.buffer_cmd_ack (min m1.buffer_cmd_ack_count 2) sub)
    (str : Option (List Byte)) :
    (find_cmd_ack m1 str = none ∧ find_cmd_ack m2 str = none) ∨
    ∃ r1 r2 : Int, find_cmd_ack m1 str = some r1 ∧ find_cmd_ack m2 str = some r2 ∧
      (0 ≤ r1 ↔ 0 ≤ r2) := by
  cases str with
  | none => exact Or.inr ⟨-1, -1, rfl, rfl, Iff.rfl⟩
  | some p =>
    have hmin : ∀ c : Nat, (if c < 2 then c else 2) = min c 2 := by
      intro c; split <;> omega
    simp only [find_cmd_ack, ← hc, hmin]
    exact find_cmd_ack_loop_same_sign _ _ _ h (split_lf p) (-1) (-1) Iff.rfl

/-- C3: with both slots live, `pppos_find_ack` gives the same verdict when
slot 0 holds `a` and slot 1 holds `b` as when slot 0 holds `b` and slot 1
holds `a`. -/
theorem pppos_find_ack_slot_swap (modem : pppos_modem_t) (a b : Nat → Byte)
    (result error : Option (List Byte)) (hlive : 2 ≤ modem.buffer_cmd_ack_count) :
    (pppos_find_ack
        { modem with buffer_cmd_ack := arr_set (arr_set modem.buffer_cmd_ack 0 a) 1 b }
        result error).map Prod.snd =
    (pppos_find_ack
        { modem with buffer_cmd_ack := arr_set (arr_set modem.buffer_cmd_ack 0 b) 1 a }
        result error).map Prod.snd := by
  have hswap : ∀ sub,
      slot_hit (arr_set (arr_set modem.buffer_cmd_ack 0 a) 1 b)
        (min modem.buffer_cmd_ack_count 2) sub ↔
      slot_hit (arr_set (arr_set modem.buffer_cmd_ack 0 b) 1 a)
        (min modem.buffer_cmd_ack_count 2) sub := by
    intro sub
    have h2 : min modem.buffer_cmd_ack_count 2 = 2 := by omega
    rw [h2]
    constructor <;>
    · rintro ⟨i, hi, hin⟩
      have hi01 : i = 0 ∨ i = 1 := by omega
      rcases hi01 with rfl | rfl
      · exact ⟨1, by omega, by simpa [arr_set] using hin⟩
      · exact ⟨0, by omega, by simpa [arr_set] using hin⟩
  have key := fun str => find_cmd_ack_same_sign
    { modem with buffer_cmd_ack := arr_set (arr_set modem.buffer_cmd_ack 0 a) 1 b }
    { modem with buffer_cmd_ack := arr_set (arr_set modem.buffer_cmd_ack 0 b) 1 a }
    rfl hswap str
  rw [pppos_find_ack_snd, pppos_find_ack_snd]
  rcases key result with ⟨h1, h2⟩ | ⟨r1, r2, h1, h2, hs⟩
  · rw [h1, h2]
  · rw [h1, h2]
    by_cases h0 : 0 ≤ r1
    · simp [h0, hs.mp h0]
    · have h0' : ¬ 0 ≤ r2 := fun hc => h0 (hs.mpr hc)
      simp only [h0, h0', if_false]
      rcases key error with ⟨h3, h4⟩ | ⟨e1, e2, h3, h4, hs'⟩
      · rw [h3, h4]
      · rw [h3, h4]
        by_cases h5 : 0 ≤ e1
        · simp [h5, hs'.mp h5]
        · have h5' : ¬ 0 ≤ e2 := fun hc => h5 (hs'.mpr hc)
          simp [h5, h5']

/-- Witness of `pppos_find_ack_verdict`, one instance for each of the three
verdicts, on a ring holding the line `"\r\nOK\r\n"`. -/
theorem pppos_find_ack_verdict_witness :
    (pppos_find_ack modem_ok_line (some (cstr "OK\r\n")) (some (cstr "OK"))).map Prod.snd
      = some .at_result_success ∧
    (pppos_find_ack modem_ok_line (some (cstr "CONNECT\r\n")) (some (cstr "OK"))).map Prod.snd
      = some .at_result_failure_error ∧
    (pppos_find_ack modem_ok_line (some (cstr "CONNECT\r\n")) none).map Prod.snd
      = some .at_result_failure_no_response :=
  ⟨(pppos_find_ack_verdict modem_ok_line (some (cstr "OK\r\n")) (some (cstr "OK")) 0 0
      (by decide) (Or.inl (by decide))).1 (by decide),
   (pppos_find_ack_verdict modem_ok_line (some (cstr "CONNECT\r\n")) (some (cstr "OK")) (-1) 0
      (by decide) (Or.inr (by decide))).2.1 (by decide) (by decide),
   (pppos_find_ack_verdict modem_ok_line (some (cstr "CONNECT\r\n")) none (-1) (-1)
      (by decide) (Or.inr (by decide))).2.2 (by decide) (by decide)⟩

/-- Witness of `pppos_find_ack_slot_swap`: the two lines `line_creg` and
`line_ok` in either order, against the two-line pattern `"+CREG\nOK"`. -/
theorem pppos_find_ack_slot_swap_witness :
    2 ≤ modem_two_lines.buffer_cmd_ack_count ∧
    (pppos_find_ack
        { modem_two_lines with
          buffer_cmd_ack := arr_set (arr_set modem_two_lines.buffer_cmd_ack 0 line_creg) 1 line_ok }
        (some (cstr "+CREG\nOK")) none).map Prod.snd =
    (pppos_find_ack
        { modem_two_lines with
          buffer_cmd_ack := arr_set (arr_set modem_two_lines.buffer_cmd_ack 0 line_ok) 1 line_creg }
        (some (cstr "+CREG\nOK")) none).map Prod.snd :=
  ⟨by decide,
   pppos_find_ack_slot_swap modem_two_lines line_creg line_ok (some (cstr "+CREG\nOK")) none
     (by decide)⟩

/-! ## Line assembler -/

theorem scratch_val_eq (a b c : Byte) :
    scratch_val a b c = a.val * 65536 + b.val * 256 + c.val := by
  unfold scratch_val
  have ha := a.isLt
  have hb := b.isLt
  have hc := c.isLt
  have h1 : a.val <<< 16 ||| b.val <<< 8 = 2 ^ 8 * (2 ^ 8 * a.val + b.val) := by
    rw [Nat.shiftLeft_eq, Nat.shiftLeft_eq]
    have : a.val * 2 ^ 16 = 2 ^ 16 * a.val := by ring
    rw [this, ← Nat.mul_add_lt_is_or (by omega) a.val]
    ring
  rw [Nat.shiftLeft_zero, h1, ← Nat.mul_add_lt_is_or (by omega)]
  omega

theorem line_splitter_test (a b c : Byte) :
    line_splitter = scratch_val a b c ↔ a = 0x0A ∧ b = 0x0D ∧ c = 0x0A := by
  rw [scratch_val_eq]
  have hls : line_splitter = 0x0A * 65536 + 0x0D * 256 + 0x0A := by decide
  rw [hls]
  have ha := a.isLt
  have hb := b.isLt
  have hc := c.isLt
  constructor
  · intro h
    refine ⟨Fin.ext ?_, Fin.ext ?_, Fin.ext ?_⟩ <;> show _ = (_ : Nat) <;> omega
  · rintro ⟨rfl, rfl, rfl⟩
    rfl

theorem line_end_test (a b c : Byte) :
    scratch_val a b c &&& 0xFFFF = line_end ↔ b = 0x0D ∧ c = 0x0A := by
  rw [scratch_val_eq]
  have hle : line_end = 0x0D * 256 + 0x0A := by decide
  have hand : ∀ x : Nat, x &&& 0xFFFF = x % 65536 := fun x => Nat.and_pow_two_sub_one_eq_mod x 16
  rw [hle, hand]
  have ha := a.isLt
  have hb := b.isLt
  have hc := c.isLt
  constructor
  · intro h
    refine ⟨Fin.ext ?_, Fin.ext ?_⟩ <;> show _ = (_ : Nat) <;> omega
  · rintro ⟨rfl, rfl⟩
    simp
    omega


theorem count_line_ends_lf (l : List Byte) : count_line_ends (0x0A :: l) = count_line_ends l := by
  match l with
  | [] => rfl
  | [_] => rfl
  | a :: b :: rest => simp [count_line_ends]

theorem count_line_ends_crlf (l : List Byte) :
    count_line_ends (0x0D :: 0x0A :: l) = count_line_ends l := by
  match l with
  | [] => rfl
  | c :: rest =>
    rw [count_line_ends, count_line_ends_lf]
    simp


@[simp]
theorem command_ack_store_buffer_int (modem : pppos_modem_t) (data : Byte) :
    (command_ack_store modem data).buffer_int = modem.buffer_int := by
  unfold command_ack_store; split <;> rfl

@[simp]
theorem command_ack_store_buffer_int_pos (modem : pppos_modem_t) (data : Byte) :
    (command_ack_store modem data).buffer_int_pos = modem.buffer_int_pos := by
  unfold command_ack_store; split <;> rfl

@[simp]
theorem command_ack_store_buffer_cmd_ack_count (modem : pppos_modem_t) (data : Byte) :
    (command_ack_store modem data).buffer_cmd_ack_count = modem.buffer_cmd_ack_count := by
  unfold command_ack_store; split <;> rfl

@[simp]
theorem command_ack_store_buffer_cmd_ack_pos (modem : pppos_modem_t) (data : Byte) :
    (command_ack_store modem data).buffer_cmd_ack_pos = modem.buffer_cmd_ack_pos := by
  unfold command_ack_store; split <;> rfl

@[simp]
theorem command_ack_store_buffer_cmd_ack (modem : pppos_modem_t) (data : Byte) :
    (command_ack_store modem data).buffer_cmd_ack = modem.buffer_cmd_ack := by
  unfold command_ack_store; split <;> rfl

/-- The three outcomes of `line_check` in terms of the last three scratch bytes. -/
theorem line_check_eq (modem : pppos_modem_t) :
    line_check modem =
      if 3 ≤ modem.buffer_int_pos ∧ modem.buffer_int (modem.buffer_int_pos - 3) = 0x0A ∧
          modem.buffer_int (modem.buffer_int_pos - 2) = 0x0D ∧
          modem.buffer_int (modem.buffer_int_pos - 1) = 0x0A then
        some { modem with
          buffer_int_pos := 2
          buffer_int := arr_set (arr_set modem.buffer_int 0 0x0D) 1 0x0A }
      else if 3 ≤ modem.buffer_int_pos ∧ modem.buffer_int (modem.buffer_int_pos - 2) = 0x0D ∧
          modem.buffer_int (modem.buffer_int_pos - 1) = 0x0A then line_complete modem
      else some modem := by
  unfold line_check
  simp only [line_splitter_test, line_end_test]
  by_cases h3 : 3 ≤ modem.buffer_int_pos
  · simp only [h3, true_and, if_true]
  · simp only [h3, false_and, if_false]

/-- What one byte does to the scratch position and the line counter: either
the byte ends a line (three or more bytes held, the last two CR LF, the one
before not LF), or no line is completed. -/
theorem pppos_byte_process_step (modem modem' : pppos_modem_t) (data : Byte)
    (h : pppos_byte_process modem data = some modem') :
    (modem'.buffer_int_pos = 0 ∧
      modem'.buffer_cmd_ack_count = (modem.buffer_cmd_ack_count + 1) % 256 ∧
      2 ≤ modem.buffer_int_pos ∧
      modem.buffer_int (modem.buffer_int_pos - 2) ≠ 0x0A ∧
      modem.buffer_int (modem.buffer_int_pos - 1) = 0x0D ∧ data = 0x0A) ∨
    (modem'.buffer_cmd_ack_count = modem.buffer_cmd_ack_count ∧
      scratch_tail modem' =
        (if modem.buffer_int_pos = 0 then [0x0A, data]
         else [modem.buffer_int (modem.buffer_int_pos - 1), data]) ∧
      ¬ (2 ≤ modem.buffer_int_pos ∧ modem.buffer_int (modem.buffer_int_pos - 2) ≠ 0x0A ∧
          modem.buffer_int (modem.buffer_int_pos - 1) = 0x0D ∧ data = 0x0A)) := by
  unfold pppos_byte_process scratch_store at h
  by_cases hp : 128 ≤ modem.buffer_int_pos
  · simp [hp] at h
  · simp only [hp, if_false] at h
    rw [line_check_eq] at h
    simp only [command_ack_store_buffer_int, command_ack_store_buffer_int_pos] at h
    have e1 : modem.buffer_int_pos + 1 - 1 = modem.buffer_int_pos := by omega
    have hz : arr_set modem.buffer_int modem.buffer_int_pos data modem.buffer_int_pos = data := by
      simp [arr_set]
    rw [e1, hz] at h
    by_cases h2 : 2 ≤ modem.buffer_int_pos
    · have e2 : modem.buffer_int_pos + 1 - 2 = modem.buffer_int_pos - 1 := by omega
      have e3 : modem.buffer_int_pos + 1 - 3 = modem.buffer_int_pos - 2 := by omega
      have hy : arr_set modem.buffer_int modem.buffer_int_pos data (modem.buffer_int_pos - 1)
          = modem.buffer_int (modem.buffer_int_pos - 1) := by
        have : modem.buffer_int_pos - 1 ≠ modem.buffer_int_pos := by omega
        simp [arr_set, this]
      have hx : arr_set modem.buffer_int modem.buffer_int_pos data (modem.buffer_int_pos - 2)
          = modem.buffer_int (modem.buffer_int_pos - 2) := by
        have : modem.buffer_int_pos - 2 ≠ modem.buffer_int_pos := by omega
        simp [arr_set, this]
      have h3 : 3 ≤ modem.buffer_int_pos + 1 := by omega
      rw [e2, e3, hx, hy] at h
      simp only [h3, true_and] at h
      split at h
      · -- anomaly
        rename_i hc
        obtain ⟨hx', hy', hz'⟩ := hc
        cases h
        right
        refine ⟨by simp, ?_, ?_⟩
        · have hne : modem.buffer_int_pos ≠ 0 := by omega
          simp [scratch_tail, arr_set, hne, hy', hz']
        · intro hc; exact hc.2.1 hx'
      · rename_i hc
        split at h
        · -- line end
          rename_i hc2
          unfold line_complete at h
          simp only [command_ack_store_buffer_int_pos] at h
          split at h
          · cases h
          · cases h
            left
            refine ⟨rfl, by simp, h2, ?_, hc2.1, hc2.2⟩
            intro hx'
            exact hc ⟨hx', hc2.1, hc2.2⟩
        · rename_i hc2
          cases h
          right
          have hne : modem.buffer_int_pos ≠ 0 := by omega
          have hne1 : modem.buffer_int_pos + 1 ≠ 1 := by omega
          refine ⟨by simp, ?_, ?_⟩
          · simp [scratch_tail, hne, hne1, e1, hz, hy]
          · intro hc3; exact hc2 ⟨hc3.2.2.1, hc3.2.2.2⟩
    · have h3 : ¬ 3 ≤ modem.buffer_int_pos + 1 := by omega
      simp only [h3, false_and, if_false] at h
      cases h
      right
      refine ⟨by simp, ?_, fun hc => h2 hc.1⟩
      have hp01 : modem.buffer_int_pos = 0 ∨ modem.buffer_int_pos = 1 := by omega
      rcases hp01 with h0 | h1
      · simp [scratch_tail, h0, arr_set]
      · simp [scratch_tail, h1, arr_set]


theorem count_line_ends_scratch_tail (modem : pppos_modem_t) :
    count_line_ends (scratch_tail modem) = 0 := by
  unfold scratch_tail
  split
  · rfl
  · split <;> rfl

/-- Feeding a byte sequence advances the line counter by the number of CR LF
pairs that follow a byte other than LF, the bytes still in the scratch buffer
counting as the bytes before the sequence. -/
theorem feed_bytes_count (bs : List Byte) :
    ∀ (modem modem' : pppos_modem_t), modem.buffer_cmd_ack_count < 256 →
      feed_bytes modem bs = some modem' →
      modem'.buffer_cmd_ack_count =
        (modem.buffer_cmd_ack_count + count_line_ends (scratch_tail modem ++ bs)) % 256 := by
  induction bs with
  | nil =>
    intro modem modem' hlt h
    simp only [feed_bytes, Option.some.injEq] at h
    subst h
    rw [List.append_nil, count_line_ends_scratch_tail]
    omega
  | cons b bs ih =>
    intro modem modem' hlt h
    rw [feed_bytes] at h
    cases hstep : pppos_byte_process modem b with
    | none => simp [hstep] at h
    | some m1 =>
      simp only [hstep] at h
      rcases pppos_byte_process_step modem m1 b hstep with
        ⟨hpos, hcnt, h2, hx, hy, hz⟩ | ⟨hcnt, htail, hno⟩
      · -- the byte completes a line
        have hm1 : m1.buffer_cmd_ack_count < 256 := by rw [hcnt]; omega
        have hrec := ih m1 modem' hm1 h
        have ht1 : scratch_tail m1 = [] := by simp [scratch_tail, hpos]
        have ht : scratch_tail modem =
            [modem.buffer_int (modem.buffer_int_pos - 2),
             modem.buffer_int (modem.buffer_int_pos - 1)] := by
          have h0 : modem.buffer_int_pos ≠ 0 := by omega
          have h1 : modem.buffer_int_pos ≠ 1 := by omega
          simp [scratch_tail, h0, h1]
        rw [hrec, ht1, hcnt, ht, hy, hz]
        simp only [List.nil_append, List.cons_append]
        rw [count_line_ends, count_line_ends_crlf]
        simp only [hx, ne_eq, not_false_eq_true, and_self, if_true]
        omega
      · -- no line is completed
        have hm1 : m1.buffer_cmd_ack_count < 256 := by rw [hcnt]; exact hlt
        have hrec := ih m1 modem' hm1 h
        rw [hrec, hcnt, htail]
        congr 2
        by_cases h0 : modem.buffer_int_pos = 0
        · simp only [h0, if_true, scratch_tail, List.nil_append, List.cons_append]
          rw [count_line_ends_lf]
        · by_cases h1 : modem.buffer_int_pos = 1
          · have e10 : ¬ ((1 : Nat) = 0) := by omega
            simp only [h1, e10, if_false, if_true, scratch_tail, List.cons_append,
              List.nil_append, Nat.sub_self]
            rw [count_line_ends_lf]
          · have h2 : 2 ≤ modem.buffer_int_pos := by omega
            simp only [h0, h1, if_false, scratch_tail, List.cons_append, List.nil_append]
            rw [count_line_ends]
            have : ¬ (modem.buffer_int (modem.buffer_int_pos - 2) ≠ 0x0A ∧
                modem.buffer_int (modem.buffer_int_pos - 1) = 0x0D ∧ b = 0x0A) :=
              fun hc => hno ⟨h2, hc⟩
            simp only [this, if_false, Nat.zero_add]


/-- While the scratch buffer has room for the byte and a NUL, `pppos_byte_process`
has a defined result and the scratch position grows by at most one. -/
theorem pppos_byte_process_defined (modem : pppos_modem_t) (data : Byte)
    (h : modem.buffer_int_pos + 1 < 128) :
    ∃ modem', pppos_byte_process modem data = some modem' ∧
      modem'.buffer_int_pos ≤ modem.buffer_int_pos + 1 := by
  unfold pppos_byte_process scratch_store
  have hp : ¬ 128 ≤ modem.buffer_int_pos := by omega
  simp only [hp, if_false]
  rw [line_check_eq]
  simp only [command_ack_store_buffer_int, command_ack_store_buffer_int_pos]
  split
  · rename_i hc
    exact ⟨_, rfl, by simp; omega⟩
  · split
    · unfold line_complete
      simp only [command_ack_store_buffer_int_pos]
      have hp' : ¬ 128 ≤ modem.buffer_int_pos + 1 := by omega
      simp only [hp', if_false]
      exact ⟨_, rfl, by simp⟩
    · exact ⟨_, rfl, by simp⟩

theorem feed_bytes_defined (bs : List Byte) :
    ∀ modem : pppos_modem_t, modem.buffer_int_pos + bs.length < 128 →
      ∃ modem', feed_bytes modem bs = some modem' ∧
        modem'.buffer_int_pos ≤ modem.buffer_int_pos + bs.length := by
  induction bs with
  | nil => intro modem _; exact ⟨modem, rfl, by simp⟩
  | cons b bs ih =>
    intro modem h
    simp only [List.length_cons] at h
    obtain ⟨m1, h1, hp1⟩ := pppos_byte_process_defined modem b (by omega)
    obtain ⟨m2, h2, hp2⟩ := ih m1 (by omega)
    refine ⟨m2, ?_, ?_⟩
    · rw [feed_bytes, h1]; exact h2
    · simp only [List.length_cons]; omega

/-- C4, amended: fed to a freshly reset assembler, a byte sequence that does
not overrun the scratch buffer leaves `buffer_cmd_ack_count` (a `uint8_t`, so
modulo 256) equal to the number of CR LF terminators that directly follow a
byte other than LF: one completed line for each of them and none for a CR LF
at the start of the sequence or directly after an LF. Every sequence shorter
than 128 bytes stays within the scratch buffer. -/
theorem feed_bytes_line_count (modem : pppos_modem_t) (bs : List Byte) :
    (∀ modem', feed_bytes (pppos_modem_receive_reset modem) bs = some modem' →
      modem'.buffer_cmd_ack_count = count_line_ends bs % 256) ∧
    (bs.length < 128 →
      ∃ modem', feed_bytes (pppos_modem_receive_reset modem) bs = some modem') := by
  constructor
  · intro modem' h
    have hc := feed_bytes_count bs (pppos_modem_receive_reset modem) modem'
      (by simp [pppos_modem_receive_reset]) h
    rw [hc]
    simp [pppos_modem_receive_reset, scratch_tail]
  · intro hlen
    obtain ⟨m', h, _⟩ := feed_bytes_defined bs (pppos_modem_receive_reset modem)
      (by simp [pppos_modem_receive_reset]; exact hlen)
    exact ⟨m', h⟩

/-- Witness of `feed_bytes_line_count`: the answer to `AT+CREG?` completes two
lines. -/
theorem feed_bytes_line_count_witness :
    ∃ modem', feed_bytes (pppos_modem_receive_reset modem_zero)
        (cstr "\r\n+CREG: 0,1\r\n\r\nOK\r\n") = some modem' ∧
      modem'.buffer_cmd_ack_count = 2 := by
  obtain ⟨m', hm'⟩ :=
    (feed_bytes_line_count modem_zero (cstr "\r\n+CREG: 0,1\r\n\r\nOK\r\n")).2 (by decide)
  refine ⟨m', hm', ?_⟩
  rw [(feed_bytes_line_count modem_zero (cstr "\r\n+CREG: 0,1\r\n\r\nOK\r\n")).1 m' hm']
  decide

/-- C4 as stated fails: a CR LF at the start of the sequence completes no line
(fewer than three bytes are held), a CR LF directly after an LF completes no
line (the anomaly branch is taken), and after 256 lines the 8-bit counter is
back at 0; each time the sequence ends in CR LF. -/
theorem line_count_ne_crlf_count :
    (feed_bytes (pppos_modem_receive_reset modem_zero) (cstr "\r\n")).map
        (fun m => m.buffer_cmd_ack_count) = some 0 ∧
      count_crlf (cstr "\r\n") = 1 ∧
    (feed_bytes (pppos_modem_receive_reset modem_zero) (cstr "A\n\r\n")).map
        (fun m => m.buffer_cmd_ack_count) = some 0 ∧
      count_crlf (cstr "A\n\r\n") = 1 ∧
    (feed_bytes (pppos_modem_receive_reset modem_zero) (repeat_bytes 256 (cstr "A\r\n"))).map
        (fun m => m.buffer_cmd_ack_count) = some 0 ∧
      count_crlf (repeat_bytes 256 (cstr "A\r\n")) = 256 := by
  set_option maxRecDepth 100000 in decide

/-- C5 fails on the code: after 128 bytes without CR LF the scratch position is
128, the 129th byte is written at index 128, outside `char buffer_int[128]`;
and a line of 126 letters and CR LF gets its NUL at index 128 and is copied,
129 bytes long, into a 128-byte slot. -/
theorem scratch_buffer_overrun :
    (feed_bytes (pppos_modem_receive_reset modem_zero) (List.replicate 128 0x41)).map
        (fun m => m.buffer_int_pos) = some 128 ∧
    (feed_bytes (pppos_modem_receive_reset modem_zero) (List.replicate 129 0x41)).isNone = true ∧
    (feed_bytes (pppos_modem_receive_reset modem_zero)
        (List.replicate 125 0x41 ++ cstr "\r\n")).isSome = true ∧
    (feed_bytes (pppos_modem_receive_reset modem_zero)
        (List.replicate 126 0x41 ++ cstr "\r\n")).isNone = true := by
  set_option maxRecDepth 100000 in decide

/-! ## Command executor -/

theorem pppos_byte_process_frame (modem modem' : pppos_modem_t) (data : Byte)
    (h : pppos_byte_process modem data = some modem') : same_control modem' modem := by
  unfold pppos_byte_process scratch_store at h
  split at h
  · cases h
  · rename_i m1 hm1
    split at hm1
    · cases hm1
    · cases hm1
      have hc : same_control (command_ack_store
          { modem with
            buffer_int := arr_set modem.buffer_int modem.buffer_int_pos data
            buffer_int_pos := modem.buffer_int_pos + 1 } data) modem := by
        unfold command_ack_store same_control
        split <;> exact ⟨rfl, rfl, rfl, rfl, rfl, rfl⟩
      generalize command_ack_store
          { modem with
            buffer_int := arr_set modem.buffer_int modem.buffer_int_pos data
            buffer_int_pos := modem.buffer_int_pos + 1 } data = m2 at h hc
      unfold line_check at h
      split at h
      · simp only [] at h
        split at h
        · cases h; exact hc
        · split at h
          · unfold line_complete at h
            split at h
            · cases h
            · cases h; exact hc
          · cases h; exact hc
      · cases h; exact hc

theorem feed_bytes_frame (bs : List Byte) :
    ∀ modem modem' : pppos_modem_t, feed_bytes modem bs = some modem' →
      same_control modem' modem := by
  induction bs with
  | nil =>
    intro modem modem' h
    simp only [feed_bytes, Option.some.injEq] at h
    subst h
    exact ⟨rfl, rfl, rfl, rfl, rfl, rfl⟩
  | cons b bs ih =>
    intro modem modem' h
    rw [feed_bytes] at h
    cases hstep : pppos_byte_process modem b with
    | none => simp [hstep] at h
    | some m1 =>
      simp only [hstep] at h
      obtain ⟨a1, a2, a3, a4, a5, a6⟩ := ih m1 modem' h
      obtain ⟨b1, b2, b3, b4, b5, b6⟩ := pppos_byte_process_frame modem m1 b hstep
      exact ⟨a1.trans b1, a2.trans b2, a3.trans b3, a4.trans b4, a5.trans b5, a6.trans b6⟩

theorem sio_writes_append (l1 l2 : List Effect) :
    sio_writes (l1 ++ l2) = sio_writes l1 ++ sio_writes l2 := by
  induction l1 with
  | nil => rfl
  | cons e l ih => cases e <;> simp [sio_writes, ih]

theorem execute_scheduled_append (l1 l2 : List Effect) :
    execute_scheduled (l1 ++ l2) = execute_scheduled l1 + execute_scheduled l2 := by
  induction l1 with
  | nil => simp [execute_scheduled]
  | cons e l ih =>
    cases e with
    | sys_timeout ms h =>
      cases h <;> simp [execute_scheduled, ih]
      omega
    | _ => simp [execute_scheduled, ih]

/-- A receive event leaves the command, the pending handler, the writes and the
scheduling of a command in flight as they are. -/
theorem exec_step_rx (s s' : exec_state) (chunk : List Byte)
    (h : exec_step s (.rx chunk) = some s') :
    same_control s'.modem s.modem ∧ s'.pending = s.pending ∧
      sio_writes s'.log = sio_writes s.log ∧
      execute_scheduled s'.log = execute_scheduled s.log := by
  have key : ∀ r, pppos_input_connect s.modem chunk = some r →
      same_control r.1 s.modem ∧ scheduled r.2 = none ∧ sio_writes r.2 = [] ∧
        execute_scheduled r.2 = 0 := by
    intro r hr
    unfold pppos_input_connect at hr
    split at hr
    · cases hf : feed_bytes s.modem chunk with
      | none => simp [hf] at hr
      | some m1 =>
        simp only [hf, Option.some.injEq] at hr
        subst hr
        exact ⟨feed_bytes_frame chunk s.modem m1 hf, rfl, rfl, rfl⟩
    · simp only [Option.some.injEq] at hr
      subst hr
      exact ⟨⟨rfl, rfl, rfl, rfl, rfl, rfl⟩, rfl, rfl, rfl⟩
  have done : ∀ r, pppos_input_connect s.modem chunk = some r → s' = exec_after s r →
      same_control s'.modem s.modem ∧ s'.pending = s.pending ∧
      sio_writes s'.log = sio_writes s.log ∧
      execute_scheduled s'.log = execute_scheduled s.log := by
    intro r hr hs
    obtain ⟨k1, k2, k3, k4⟩ := key r hr
    subst hs
    refine ⟨k1, ?_, ?_, ?_⟩
    · simp [exec_after, k2]
    · simp [exec_after, sio_writes_append, k3]
    · simp [exec_after, execute_scheduled_append, k4]
  unfold exec_step at h
  simp only [] at h
  split at h
  · obtain ⟨r, hr, hs⟩ := Option.map_eq_some'.mp h
    exact done r hr hs.symm
  · obtain ⟨r, hr, hs⟩ := Option.map_eq_some'.mp h
    exact done r hr hs.symm
  · simp only [Option.some.injEq] at h
    subst h
    exact ⟨⟨rfl, rfl, rfl, rfl, rfl, rfl⟩, rfl, rfl, rfl⟩

theorem pppos_find_ack_modem (modem m1 : pppos_modem_t) (result error : Option (List Byte))
    (v : at_result_enum) (h : pppos_find_ack modem result error = some (m1, v)) :
    m1 = { modem with find_result_pos := m1.find_result_pos } := by
  unfold pppos_find_ack at h
  split at h
  · cases h
  · simp only [] at h
    split at h
    · cases h; rfl
    · split at h
      · cases h
      · split at h <;> (cases h; rfl)

/-- `pppos_command_wait` in terms of the verdict of its poll. -/
theorem pppos_command_wait_verdict (modem : pppos_modem_t) (sys_now : Nat) (v : at_result_enum)
    (hv : poll_verdict modem = some v) :
    ∃ pos : Int, pppos_command_wait modem sys_now =
      if v = .at_result_success ∨ v = .at_result_failure_error then
        some ({ modem with
                find_result_pos := pos
                command := { modem.command with at_result := v, try_count := 0 } },
          [.sys_timeout 0 .pppos_command_execute])
      else if (modem.command.start_time + modem.command.timeout) % 2 ^ 32 < sys_now then
        some ({ modem with
                find_result_pos := pos
                command := { modem.command with
                  at_result := v
                  try_count := wrap_int8 (modem.command.try_count - 1) } },
          [.sys_timeout 0 .pppos_command_execute])
      else
        some ({ modem with
                find_result_pos := pos
                command := { modem.command with at_result := v } },
          [.sys_timeout 10 .pppos_command_wait]) := by
  unfold poll_verdict at hv
  obtain ⟨⟨m1, v'⟩, hr, hv'⟩ := Option.map_eq_some'.mp hv
  simp only at hv'
  subst hv'
  have hm := pppos_find_ack_modem modem m1 _ _ v' hr
  refine ⟨m1.find_result_pos, ?_⟩
  unfold pppos_command_wait
  rw [hr]
  simp only []
  rw [hm]

/-- `pppos_command_execute` with no attempt left: evaluation and routing. -/
theorem pppos_command_execute_eval (modem : pppos_modem_t) (sys_now : Nat)
    (h0 : modem.command.try_count ≤ 0) :
    pppos_command_execute modem sys_now =
      (final_verdict modem).map (fun v =>
        ({ modem with
            command := { modem.command with at_result := v }
            state := if v = .at_result_success then modem.success_state
                     else modem.failure_state },
          [.sys_timeout 0 modem.command.callback])) := by
  obtain ⟨ps, ⟨cb, cmd, er, check, ee, tmo, st, tc, ar⟩, frp, state, ss, fs, ca, cal, bi, bip,
    bcp, bcc, bca⟩ := modem
  simp only at h0
  unfold pppos_command_execute final_verdict
  simp only [h0, if_true]
  cases check with
  | none =>
    simp only [Option.map_some']
    split <;> rfl
  | some check =>
    simp only []
    cases hv : check (c_str ca) with
    | none => rfl
    | some v =>
      simp only [Option.map_some']
      split <;> rfl

/-- `pppos_command_execute` with an attempt left: reset and send. -/
theorem pppos_command_execute_send (modem : pppos_modem_t) (sys_now : Nat)
    (h0 : 0 < modem.command.try_count) :
    pppos_command_execute modem sys_now =
      some ({ pppos_modem_receive_reset modem with
              command := { modem.command with start_time := sys_now } },
        [.sio_write modem.command.cmd, .sys_timeout 0 .pppos_command_wait]) := by
  unfold pppos_command_execute
  have : ¬ modem.command.try_count ≤ 0 := by omega
  simp only [this, if_false]
  rfl

theorem wrap_int8_id (x : Int) (h1 : -128 ≤ x) (h2 : x ≤ 127) : wrap_int8 x = x := by
  unfold wrap_int8
  omega

theorem exec_step_inv (N : Int) (cmd : List Byte) (ss fs : PPPOS_ChatscriptState)
    (hN : N ≤ 127) (s s' : exec_state) (e : exec_event)
    (hinv : retry_inv N cmd ss fs s) (hstep : exec_step s e = some s')
    (hsilent : ∀ now, e = .timer now → s.pending = .pppos_command_wait →
      poll_verdict s.modem = some .at_result_failure_no_response) :
    retry_inv N cmd ss fs s' := by
  obtain ⟨hcmd, hcb, hss, hfs, hall, htry, hwait, hexec, hdone, hnrx⟩ := hinv
  cases e with
  | rx chunk =>
    obtain ⟨⟨c1, c2, c3, c4, _, _⟩, hp, hw, hx⟩ := exec_step_rx s s' chunk hstep
    refine ⟨by rw [c1]; exact hcmd, by rw [c1]; exact hcb, by rw [c3]; exact hss,
      by rw [c4]; exact hfs, by rw [hw]; exact hall, by rw [c1, hx]; exact htry,
      ?_, ?_, ?_, by rw [hp]; exact hnrx⟩
    · intro h; rw [c1, hw, hx]; exact hwait (hp ▸ h)
    · intro h; rw [c1, hw, hx]; exact hexec (hp ▸ h)
    · intro h; rw [c1, hw, c2]; exact hdone (hp ▸ h)
  | timer now =>
    unfold exec_step at hstep
    simp only [] at hstep
    split at hstep
    · -- pppos_command_execute is pending
      rename_i hpend
      obtain ⟨ht0, hlen⟩ := hexec hpend
      by_cases h0 : s.modem.command.try_count ≤ 0
      · rw [pppos_command_execute_eval _ _ h0] at hstep
        obtain ⟨r, hr, hs⟩ := Option.map_eq_some'.mp hstep
        obtain ⟨v, _, hr'⟩ := Option.map_eq_some'.mp hr
        subst hr'
        subst hs
        have hz : s.modem.command.try_count = 0 := by omega
        refine ⟨hcmd, hcb, hss, hfs, ?_, ?_, ?_, ?_, ?_, ?_⟩
        · simpa [exec_after, sio_writes_append, sio_writes] using hall
        · simp only [exec_after, execute_scheduled_append, hcb, execute_scheduled]
          simpa using htry
        · simp [exec_after, scheduled, hcb]
        · simp [exec_after, scheduled, hcb]
        · intro _
          refine ⟨hz, ?_, ?_⟩
          · simp only [exec_after, sio_writes_append, sio_writes, List.append_nil]
            rw [hlen]; omega
          · simp only [exec_after]
            split
            · exact Or.inl hss
            · exact Or.inr hfs
        · simp [exec_after, scheduled, hcb]
      · have hpos : 0 < s.modem.command.try_count := by omega
        rw [pppos_command_execute_send _ _ hpos] at hstep
        simp only [Option.map_some', Option.some.injEq] at hstep
        subst hstep
        refine ⟨hcmd, hcb, hss, hfs, ?_, ?_, ?_, ?_, ?_, ?_⟩
        · intro x hx
          simp only [exec_after, sio_writes_append, sio_writes, List.mem_append,
            List.mem_singleton] at hx
          rcases hx with hx | hx
          · exact hall x hx
          · rw [hx]; exact hcmd
        · simp only [exec_after, execute_scheduled_append, execute_scheduled]
          simpa using htry
        · intro _
          refine ⟨by simpa [exec_after] using hpos, ?_⟩
          simp [exec_after, sio_writes_append, sio_writes, execute_scheduled_append,
            execute_scheduled, hlen]
        · simp [exec_after, scheduled]
        · simp [exec_after, scheduled]
        · simp [exec_after, scheduled]
    · -- pppos_command_wait is pending
      rename_i hpend
      obtain ⟨ht1, hlen⟩ := hwait hpend
      obtain ⟨pos, hw⟩ := pppos_command_wait_verdict s.modem now _ (hsilent now rfl hpend)
      rw [hw] at hstep
      simp only [reduceCtorEq, or_self, if_false] at hstep
      split at hstep
      · -- the attempt times out
        simp only [Option.map_some', Option.some.injEq] at hstep
        subst hstep
        have hwrap : wrap_int8 (s.modem.command.try_count - 1) = s.modem.command.try_count - 1 :=
          wrap_int8_id _ (by omega) (by omega)
        refine ⟨hcmd, hcb, hss, hfs, ?_, ?_, ?_, ?_, ?_, ?_⟩
        · simpa [exec_after, sio_writes_append, sio_writes] using hall
        · simp only [exec_after, execute_scheduled_append, execute_scheduled, hwrap]
          push_cast
          omega
        · simp [exec_after, scheduled]
        · intro _
          refine ⟨by simp only [exec_after, hwrap]; omega, ?_⟩
          simp [exec_after, sio_writes_append, sio_writes, execute_scheduled_append,
            execute_scheduled, hlen]
        · simp [exec_after, scheduled]
        · simp [exec_after, scheduled]
      · -- poll again
        simp only [Option.map_some', Option.some.injEq] at hstep
        subst hstep
        refine ⟨hcmd, hcb, hss, hfs, ?_, ?_, ?_, ?_, ?_, ?_⟩
        · simpa [exec_after, sio_writes_append, sio_writes] using hall
        · simp only [exec_after, execute_scheduled_append, execute_scheduled]
          simpa using htry
        · intro _
          refine ⟨by simpa [exec_after] using ht1, ?_⟩
          simp [exec_after, sio_writes_append, sio_writes, execute_scheduled_append,
            execute_scheduled, hlen]
        · simp [exec_after, scheduled]
        · simp [exec_after, scheduled]
        · simp [exec_after, scheduled]
    · -- the command is retired
      simp only [Option.some.injEq] at hstep
      subst hstep
      exact ⟨hcmd, hcb, hss, hfs, hall, htry, hwait, hexec, hdone, hnrx⟩

theorem exec_run_inv (N : Int) (cmd : List Byte) (ss fs : PPPOS_ChatscriptState)
    (hN : N ≤ 127) (evs : List exec_event) :
    ∀ s s' : exec_state, retry_inv N cmd ss fs s → exec_run s evs = some s' →
      polls_silent s evs = true → retry_inv N cmd ss fs s' := by
  induction evs with
  | nil =>
    intro s s' hinv hrun _
    simp only [exec_run, Option.some.injEq] at hrun
    subst hrun
    exact hinv
  | cons e es ih =>
    intro s s' hinv hrun hq
    rw [exec_run] at hrun
    rw [polls_silent] at hq
    cases hstep : exec_step s e with
    | none => simp [hstep] at hrun
    | some s1 =>
      simp only [hstep, Bool.and_eq_true] at hrun hq
      refine ih s1 s' (exec_step_inv N cmd ss fs hN s s1 e hinv hstep ?_) hrun hq.2
      intro now he hp
      have h1 := hq.1
      unfold poll_silent at h1
      rw [he, hp] at h1
      simpa using h1

/-- The count of writes and timeouts along every run with silent polls of a
command created with `N` attempts. -/
theorem silent_run_count (modem : pppos_modem_t) (cmd : List Byte)
    (result error : Option (List Byte)) (check : Option pppos_command_result_check)
    (N : Int) (timeout : Nat) (ss fs : PPPOS_ChatscriptState)
    (evs : List exec_event) (s : exec_state)
    (hN1 : 1 ≤ N) (hN2 : N ≤ 127)
    (hrun : exec_run (exec_start (pppos_command_run_with_check modem .pppos_state_interval
      cmd result error check N timeout ss fs).1) evs = some s)
    (hsilent : polls_silent (exec_start (pppos_command_run_with_check modem
      .pppos_state_interval cmd result error check N timeout ss fs).1) evs = true) :
    (∀ x ∈ sio_writes s.log, x = cmd) ∧
    s.modem.command.try_count = N - execute_scheduled s.log ∧
    (s.pending = .pppos_command_wait →
      1 ≤ s.modem.command.try_count ∧
        (sio_writes s.log).length = execute_scheduled s.log + 1) ∧
    (s.pending = .pppos_command_execute →
      0 ≤ s.modem.command.try_count ∧
        (sio_writes s.log).length = execute_scheduled s.log) ∧
    (s.pending = .pppos_state_interval →
      s.modem.command.try_count = 0 ∧ sio_writes s.log = List.replicate N.toNat cmd ∧
        execute_scheduled s.log = N.toNat ∧ (s.modem.state = ss ∨ s.modem.state = fs)) ∧
    (s.pending = .pppos_command_wait ∨ s.pending = .pppos_command_execute ∨
      s.pending = .pppos_state_interval) := by
  have h0 : retry_inv N cmd ss fs (exec_start (pppos_command_run_with_check modem
      .pppos_state_interval cmd result error check N timeout ss fs).1) := by
    refine ⟨rfl, rfl, rfl, rfl, ?_, ?_, ?_, ?_, ?_, ?_⟩
    · intro x hx; simp [exec_start, sio_writes] at hx
    · simp [exec_start, execute_scheduled, pppos_command_run_with_check]
    · intro h; simp [exec_start] at h
    · intro _
      refine ⟨?_, rfl⟩
      simp only [exec_start, pppos_command_run_with_check]
      omega
    · intro h; simp [exec_start] at h
    · simp [exec_start]
  obtain ⟨_, _, _, _, hall, htry, hwait, hexec, hdone, hnrx⟩ :=
    exec_run_inv N cmd ss fs hN2 evs _ s h0 hrun hsilent
  refine ⟨hall, htry, hwait, hexec, ?_, ?_⟩
  · intro hp
    obtain ⟨hz, hlen, hst⟩ := hdone hp
    refine ⟨hz, ?_, by omega, hst⟩
    rw [List.eq_replicate_iff]
    exact ⟨by omega, hall⟩
  · cases hp : s.pending with
    | pppos_rx_interval => exact absurd hp hnrx
    | pppos_state_interval => exact Or.inr (Or.inr rfl)
    | pppos_command_execute => exact Or.inr (Or.inl rfl)
    | pppos_command_wait => exact Or.inl rfl

theorem exec_step_error_inv (cmd : List Byte) (fs : PPPOS_ChatscriptState)
    (s s' : exec_state) (e : exec_event) (hinv : error_inv cmd fs s)
    (hstep : exec_step s e = some s') :
    error_inv cmd fs s' ∧
      ((∃ t, e = .timer t) → s'.pending = .pppos_state_interval ∧ s'.modem.state = fs) := by
  obtain ⟨hw, hz, hck, hcb, hfs, har, hp⟩ := hinv
  cases e with
  | rx chunk =>
    obtain ⟨⟨c1, c2, _, c4, _, _⟩, hp', hw', _⟩ := exec_step_rx s s' chunk hstep
    refine ⟨⟨by rw [hw']; exact hw, by rw [c1]; exact hz, by rw [c1]; exact hck,
      by rw [c1]; exact hcb, by rw [c4]; exact hfs, by rw [c1]; exact har, ?_⟩, ?_⟩
    · rw [hp', c2]; exact hp
    · rintro ⟨t, ht⟩; cases ht
  | timer now =>
    unfold exec_step at hstep
    simp only [] at hstep
    rcases hp with hp | ⟨hp, hst⟩
    · simp only [hp] at hstep
      rw [pppos_command_execute_eval _ _ (by omega)] at hstep
      have hv : final_verdict s.modem = some .at_result_failure_error := by
        unfold final_verdict; rw [hck, har]
      rw [hv] at hstep
      simp only [Option.map_some', Option.some.injEq] at hstep
      subst hstep
      have hres : (exec_after s
          ({ s.modem with
              command := { s.modem.command with at_result := .at_result_failure_error }
              state := if at_result_enum.at_result_failure_error = .at_result_success
                then s.modem.success_state else s.modem.failure_state },
            [Effect.sys_timeout 0 s.modem.command.callback])).pending = .pppos_state_interval ∧
          (exec_after s
          ({ s.modem with
              command := { s.modem.command with at_result := .at_result_failure_error }
              state := if at_result_enum.at_result_failure_error = .at_result_success
                then s.modem.success_state else s.modem.failure_state },
            [Effect.sys_timeout 0 s.modem.command.callback])).modem.state = fs := by
        refine ⟨by simp [exec_after, scheduled, hcb], ?_⟩
        simp [exec_after, hfs]
      refine ⟨⟨?_, hz, hck, hcb, hfs, rfl, Or.inr hres⟩, fun _ => hres⟩
      simpa [exec_after, sio_writes_append, sio_writes] using hw
    · simp only [hp, Option.some.injEq] at hstep
      subst hstep
      exact ⟨⟨hw, hz, hck, hcb, hfs, har, Or.inr ⟨hp, hst⟩⟩, fun _ => ⟨hp, hst⟩⟩

theorem exec_run_error_inv (cmd : List Byte) (fs : PPPOS_ChatscriptState)
    (evs : List exec_event) :
    ∀ s s' : exec_state, error_inv cmd fs s → exec_run s evs = some s' →
      error_inv cmd fs s' ∧
        ((∃ t, exec_event.timer t ∈ evs) →
          s'.pending = .pppos_state_interval ∧ s'.modem.state = fs) := by
  induction evs with
  | nil =>
    intro s s' hinv hrun
    simp only [exec_run, Option.some.injEq] at hrun
    subst hrun
    exact ⟨hinv, fun ⟨t, ht⟩ => by simp at ht⟩
  | cons e es ih =>
    intro s s' hinv hrun
    rw [exec_run] at hrun
    cases hstep : exec_step s e with
    | none => simp [hstep] at hrun
    | some s1 =>
      simp only [hstep] at hrun
      obtain ⟨hinv1, hdone1⟩ := exec_step_error_inv cmd fs s s1 e hinv hstep
      obtain ⟨hinv', hdone'⟩ := ih s1 s' hinv1 hrun
      refine ⟨hinv', ?_⟩
      rintro ⟨t, ht⟩
      rcases List.mem_cons.mp ht with ht | ht
      · -- the first event is the timer: the command is retired, and stays so
        obtain ⟨hp1, hst1⟩ := hdone1 ⟨t, ht.symm⟩
        obtain ⟨_, _, _, _, _, _, hp'⟩ := hinv'
        have hfix : ∀ (l : List exec_event) (a b : exec_state),
            a.pending = .pppos_state_interval → exec_run a l = some b → b = a := by
          intro l
          induction l with
          | nil => intro a b _ h; simp only [exec_run, Option.some.injEq] at h; exact h.symm
          | cons x l ihl =>
            intro a b ha h
            rw [exec_run] at h
            have hx : exec_step a x = some a := by
              cases x <;> simp [exec_step, ha]
            rw [hx] at h
            exact ihl a b ha h
        have := hfix es s1 s' hp1 hrun
        rw [this]
        exact ⟨hp1, hst1⟩
      · exact hdone' ⟨t, ht⟩

theorem pppos_command_wait_polls (modem : pppos_modem_t) (sys_now : Nat)
    (r : pppos_modem_t × List Effect) (h : pppos_command_wait modem sys_now = some r) :
    ∃ v, poll_verdict modem = some v := by
  unfold pppos_command_wait at h
  unfold poll_verdict
  cases hf : pppos_find_ack modem modem.command.expect_result modem.command.expect_error with
  | none => simp [hf] at h
  | some p => exact ⟨p.2, rfl⟩

/-- No step of the executor changes what the descriptor was created with. -/
theorem exec_step_descriptor (s s' : exec_state) (e : exec_event)
    (hstep : exec_step s e = some s') :
    s'.modem.command.check = s.modem.command.check ∧
    s'.modem.command.expect_result = s.modem.command.expect_result ∧
    s'.modem.command.expect_error = s.modem.command.expect_error := by
  cases e with
  | rx chunk =>
    obtain ⟨⟨c1, _⟩, _⟩ := exec_step_rx s s' chunk hstep
    rw [c1]
    exact ⟨rfl, rfl, rfl⟩
  | timer now =>
    unfold exec_step at hstep
    simp only [] at hstep
    split at hstep
    · by_cases h0 : s.modem.command.try_count ≤ 0
      · rw [pppos_command_execute_eval _ _ h0] at hstep
        obtain ⟨r, hr, hs⟩ := Option.map_eq_some'.mp hstep
        obtain ⟨v, _, hr'⟩ := Option.map_eq_some'.mp hr
        subst hr'; subst hs
        exact ⟨rfl, rfl, rfl⟩
      · rw [pppos_command_execute_send _ _ (by omega)] at hstep
        simp only [Option.map_some', Option.some.injEq] at hstep
        subst hstep
        exact ⟨rfl, rfl, rfl⟩
    · obtain ⟨r, hr, hs⟩ := Option.map_eq_some'.mp hstep
      obtain ⟨v, hv⟩ := pppos_command_wait_polls _ _ r hr
      obtain ⟨pos, hw⟩ := pppos_command_wait_verdict s.modem now v hv
      rw [hw] at hr
      subst hs
      split at hr
      · cases hr; exact ⟨rfl, rfl, rfl⟩
      · split at hr <;> (cases hr; exact ⟨rfl, rfl, rfl⟩)
    · simp only [Option.some.injEq] at hstep
      subst hstep
      exact ⟨rfl, rfl, rfl⟩

theorem exec_run_descriptor (evs : List exec_event) :
    ∀ s s' : exec_state, exec_run s evs = some s' →
      s'.modem.command.check = s.modem.command.check ∧
      s'.modem.command.expect_result = s.modem.command.expect_result ∧
      s'.modem.command.expect_error = s.modem.command.expect_error := by
  induction evs with
  | nil =>
    intro s s' hrun
    simp only [exec_run, Option.some.injEq] at hrun
    subst hrun
    exact ⟨rfl, rfl, rfl⟩
  | cons e es ih =>
    intro s s' hrun
    rw [exec_run] at hrun
    cases hstep : exec_step s e with
    | none => simp [hstep] at hrun
    | some s1 =>
      simp only [hstep] at hrun
      obtain ⟨a1, a2, a3⟩ := ih s1 s' hrun
      obtain ⟨b1, b2, b3⟩ := exec_step_descriptor s s1 e hstep
      exact ⟨a1.trans b1, a2.trans b2, a3.trans b3⟩

/-- C7, amended: a command created with 3 attempts and no custom check has
seen only silent polls and is waiting in its first attempt (`try_count` still
3). If at the next poll the error pattern matches the ring and the success
pattern does not, that poll sets `try_count` to 0 and schedules
`pppos_command_execute` at once, whatever the clock says; the command text has
been written exactly once and is not written again in any continuation of the
run; and after the next timer event the command is retired with the state set
to the failure state of the descriptor. -/
theorem error_verdict_is_terminal (modem : pppos_modem_t) (cmd : List Byte)
    (result error : Option (List Byte)) (timeout : Nat) (ss fs : PPPOS_ChatscriptState)
    (evs1 evs2 : List exec_event) (sys_now : Nat) (s1 s3 : exec_state) (r e : Int)
    (hrun1 : exec_run (exec_start (pppos_command_run modem .pppos_state_interval
      cmd result error 3 timeout ss fs).1) evs1 = some s1)
    (hsilent : polls_silent (exec_start (pppos_command_run modem .pppos_state_interval
      cmd result error 3 timeout ss fs).1) evs1 = true)
    (hwait : s1.pending = .pppos_command_wait)
    (hfirst : s1.modem.command.try_count = 3)
    (hsucc : find_cmd_ack s1.modem result = some r ∧ r < 0)
    (herr : find_cmd_ack s1.modem error = some e ∧ 0 ≤ e)
    (hrun2 : exec_run s1 (.timer sys_now :: evs2) = some s3) :
    (∃ s2, exec_step s1 (.timer sys_now) = some s2 ∧ s2.modem.command.try_count = 0 ∧
      s2.pending = .pppos_command_execute ∧
      s2.log = s1.log ++ [.sys_timeout 0 .pppos_command_execute]) ∧
    sio_writes s1.log = [cmd] ∧
    sio_writes s3.log = [cmd] ∧
    s3.modem.command.try_count = 0 ∧
    ((∃ t, exec_event.timer t ∈ evs2) →
      s3.pending = .pppos_state_interval ∧ s3.modem.state = fs) := by
  have hinv := exec_run_inv 3 cmd ss fs (by omega) evs1 _ s1
    (by
      refine ⟨rfl, rfl, rfl, rfl, ?_, ?_, ?_, ?_, ?_, ?_⟩
      · intro x hx; simp [exec_start, sio_writes] at hx
      · simp [exec_start, execute_scheduled, pppos_command_run, pppos_command_run_with_check]
      · intro h; simp [exec_start] at h
      · intro _
        exact ⟨by simp [exec_start, pppos_command_run, pppos_command_run_with_check], rfl⟩
      · intro h; simp [exec_start] at h
      · simp [exec_start])
    hrun1 hsilent
  obtain ⟨hcmd, hcb, hss, hfs, hall, htry, hw, _, _, _⟩ := hinv
  obtain ⟨d1, d2, d3⟩ := exec_run_descriptor evs1 _ s1 hrun1
  have hck : s1.modem.command.check = none := d1
  have hres : s1.modem.command.expect_result = result := d2
  have herr' : s1.modem.command.expect_error = error := d3
  obtain ⟨_, hlen⟩ := hw hwait
  have hx0 : execute_scheduled s1.log = 0 := by omega
  have hw1 : sio_writes s1.log = [cmd] := by
    have h1 : (sio_writes s1.log).length = 1 := by omega
    have h2 := (List.eq_replicate_iff (a := cmd) (n := 1) (l := sio_writes s1.log)).mpr
      ⟨h1, hall⟩
    simpa using h2
  have hverdict : poll_verdict s1.modem = some .at_result_failure_error := by
    unfold poll_verdict
    rw [pppos_find_ack_snd, hres, herr', hsucc.1, herr.1]
    have : ¬ 0 ≤ r := by omega
    simp [this, herr.2]
  obtain ⟨pos, hwv⟩ := pppos_command_wait_verdict s1.modem sys_now _ hverdict
  simp only [or_true, if_true] at hwv
  have hstep : exec_step s1 (.timer sys_now) = some (exec_after s1
      ({ s1.modem with
          find_result_pos := pos
          command := { s1.modem.command with
            at_result := .at_result_failure_error, try_count := 0 } },
        [.sys_timeout 0 .pppos_command_execute])) := by
    unfold exec_step
    simp only [hwait, hwv, Option.map_some']
  rw [exec_run, hstep] at hrun2
  simp only [] at hrun2
  have hinv2 : error_inv cmd fs (exec_after s1
      ({ s1.modem with
          find_result_pos := pos
          command := { s1.modem.command with
            at_result := .at_result_failure_error, try_count := 0 } },
        [.sys_timeout 0 .pppos_command_execute])) := by
    refine ⟨?_, rfl, hck, hcb, hfs, rfl, Or.inl ?_⟩
    · simpa [exec_after, sio_writes_append, sio_writes] using hw1
    · simp [exec_after, scheduled]
  obtain ⟨⟨hw3, hz3, _⟩, hdone⟩ := exec_run_error_inv cmd fs evs2 _ s3 hinv2 hrun2
  refine ⟨⟨_, hstep, rfl, by simp [exec_after, scheduled], rfl⟩, hw1, hw3, hz3, hdone⟩

theorem exec_run_getD (s : exec_state) (evs : List exec_event)
    (h : (exec_run s evs).isSome = true) :
    exec_run s evs = some ((exec_run s evs).getD s) := by
  cases hr : exec_run s evs with
  | none => simp [hr] at h
  | some x => rfl

theorem exec_run_append (evs1 evs2 : List exec_event) :
    ∀ s s1 : exec_state, exec_run s evs1 = some s1 →
      exec_run s (evs1 ++ evs2) = exec_run s1 evs2 := by
  induction evs1 with
  | nil =>
    intro s s1 h
    simp only [exec_run, Option.some.injEq] at h
    subst h
    rfl
  | cons e es ih =>
    intro s s1 h
    rw [exec_run] at h
    rw [List.cons_append, exec_run]
    cases hstep : exec_step s e with
    | none => simp [hstep] at h
    | some x =>
      simp only [hstep] at h ⊢
      exact ih x s1 h

/-- Witness of `error_verdict_is_terminal`: the modem answers `ERROR` to the
first attempt; the poll at 10 sets `try_count` to 0, the evaluation at 11 routes
to the failure state, and the command text was written once. -/
theorem error_verdict_is_terminal_witness :
    exec_run (exec_start sample_three) [.timer 0, .rx (cstr "\r\nERROR\r\n")]
      = some (sample_three_after [.timer 0, .rx (cstr "\r\nERROR\r\n")]) ∧
    (sample_three_after [.timer 0, .rx (cstr "\r\nERROR\r\n")]).pending
      = .pppos_command_wait ∧
    sio_writes (sample_three_after
      [.timer 0, .rx (cstr "\r\nERROR\r\n"), .timer 10, .timer 11]).log = [cstr "ATE0\r\n"] ∧
    (sample_three_after [.timer 0, .rx (cstr "\r\nERROR\r\n"), .timer 10, .timer 11]).pending
      = .pppos_state_interval ∧
    (sample_three_after [.timer 0, .rx (cstr "\r\nERROR\r\n"), .timer 10, .timer 11]).modem.state
      = .PPPOS_CHATSCRIPT_BEGIN := by
  have hrun1 := exec_run_getD (exec_start sample_three)
    [.timer 0, .rx (cstr "\r\nERROR\r\n")] (by decide)
  have hrun3 := exec_run_getD (exec_start sample_three)
    [.timer 0, .rx (cstr "\r\nERROR\r\n"), .timer 10, .timer 11] (by decide)
  have hrun2 : exec_run (sample_three_after [.timer 0, .rx (cstr "\r\nERROR\r\n")])
      (.timer 10 :: [.timer 11])
      = some (sample_three_after
          [.timer 0, .rx (cstr "\r\nERROR\r\n"), .timer 10, .timer 11]) := by
    have happ := exec_run_append [.timer 0, .rx (cstr "\r\nERROR\r\n")]
      [.timer 10, .timer 11] _ _ hrun1
    unfold sample_three_after
    rw [← happ]
    exact hrun3
  have hwait : (sample_three_after [.timer 0, .rx (cstr "\r\nERROR\r\n")]).pending
      = .pppos_command_wait := by decide
  have T := error_verdict_is_terminal modem_zero (cstr "ATE0\r\n") (some (cstr "OK\r\n"))
    (some (cstr "ERROR\r\n")) 500 .PPPOS_CHATSCRIPT_START_CFUN .PPPOS_CHATSCRIPT_BEGIN
    [.timer 0, .rx (cstr "\r\nERROR\r\n")] [.timer 11] 10
    (sample_three_after [.timer 0, .rx (cstr "\r\nERROR\r\n")])
    (sample_three_after [.timer 0, .rx (cstr "\r\nERROR\r\n"), .timer 10, .timer 11])
    (-1) 0 hrun1 (by decide) hwait (by decide) (by decide) (by decide) hrun2
  obtain ⟨_, _, hw3, _, hdone⟩ := T
  obtain ⟨hp, hst⟩ := hdone ⟨11, by simp⟩
  exact ⟨hrun1, hwait, hw3, hp, hst⟩

/-- C7 as stated fails: the modem answers `ERROR` and then `OK` before the
first poll; at that poll of the first attempt the error pattern matches the
ring, but so does the success pattern, and the state becomes the success
state `START_CFUN`, not the failure state `BEGIN`. -/
theorem error_match_routed_to_success :
    (sample_three_after [.timer 0, .rx (cstr "\r\nERROR\r\n\r\nOK\r\n")]).pending
      = .pppos_command_wait ∧
    (sample_three_after [.timer 0, .rx (cstr "\r\nERROR\r\n\r\nOK\r\n")]).modem.command.try_count
      = 3 ∧
    find_cmd_ack (sample_three_after [.timer 0, .rx (cstr "\r\nERROR\r\n\r\nOK\r\n")]).modem
      (some (cstr "ERROR\r\n")) = some 1 ∧
    (exec_run (exec_start sample_three)
      [.timer 0, .rx (cstr "\r\nERROR\r\n\r\nOK\r\n"), .timer 10, .timer 11]).map
        (fun s => (s.pending, s.modem.state, s.modem.failure_state))
      = some (.pppos_state_interval, .PPPOS_CHATSCRIPT_START_CFUN, .PPPOS_CHATSCRIPT_BEGIN) := by
  decide

/-! ## Evaluation, timeout and the descriptors of the controller -/

/-- C8, amended: when `pppos_command_execute` runs with `try_count <= 0` and
the verdict `v` is that of the custom check on `command_ack` if a check is
present (whatever the stored pattern verdict) and the stored pattern verdict
otherwise, it writes nothing to the serial channel, schedules the completion
callback exactly once, stores `v`, and sets the state to `success_state` if `v`
is success and to `failure_state` otherwise; when the two states differ, the
state becomes `success_state` if and only if `v` is success. -/
theorem command_execute_routes (modem : pppos_modem_t) (sys_now : Nat) (v : at_result_enum)
    (h0 : modem.command.try_count ≤ 0)
    (hv : (match modem.command.check with
            | some check => check (c_str modem.command_ack)
            | none => some modem.command.at_result) = some v) :
    ∃ modem', pppos_command_execute modem sys_now
        = some (modem', [.sys_timeout 0 modem.command.callback]) ∧
      modem'.command.at_result = v ∧
      (v = .at_result_success → modem'.state = modem.success_state) ∧
      (v ≠ .at_result_success → modem'.state = modem.failure_state) ∧
      (modem.success_state ≠ modem.failure_state →
        (modem'.state = modem.success_state ↔ v = .at_result_success)) := by
  have hfv : final_verdict modem = some v := hv
  rw [pppos_command_execute_eval modem sys_now h0, hfv]
  refine ⟨_, rfl, rfl, ?_, ?_, ?_⟩
  · intro h; simp [h]
  · intro h; simp [h]
  · intro hne
    by_cases h : v = .at_result_success
    · simp [h]
    · simp only [h, if_false, iff_false]
      exact fun hc => hne hc.symm

/-- Witness of `command_execute_routes`: the registration query after a timeout
with the raw acknowledgment `"\r\n+CREG: 0,1\r\n"`. -/
theorem command_execute_routes_witness :
    ∃ modem', pppos_command_execute
        (descriptor_after .PPPOS_CHATSCRIPT_START_CREG_QUERY
          [.timer 0, .rx (cstr "\r\n+CREG: 0,1\r\n"), .timer 501]).modem 502
        = some (modem', [.sys_timeout 0 .pppos_state_interval]) ∧
      modem'.command.at_result = .at_result_success ∧
      modem'.state = .PPPOS_CHATSCRIPT_START_CGDCONT := by
  obtain ⟨m', h1, h2, h3, _⟩ := command_execute_routes
    (descriptor_after .PPPOS_CHATSCRIPT_START_CREG_QUERY
      [.timer 0, .rx (cstr "\r\n+CREG: 0,1\r\n"), .timer 501]).modem 502
    .at_result_success (by decide) (by decide)
  exact ⟨m', h1, h2, h3 rfl⟩

/-- C8 as stated fails: the descriptor of `START_CGDCONT` has the same success
and failure state; after a timeout, with no custom check and the pattern
verdict "no response", the state becomes `success_state` all the same. -/
theorem routed_to_success_state_without_success :
    (exec_run (exec_start (descriptor_in .PPPOS_CHATSCRIPT_START_CGDCONT))
      [.timer 0, .timer 501, .timer 502]).map
        (fun s => (s.pending, s.modem.command.at_result, s.modem.command.check.isSome,
          decide (s.modem.state = s.modem.success_state)))
      = some (.pppos_state_interval, .at_result_failure_no_response, false, true) := by
  decide

/-- C9 fails on the code: the command of `START_CFUN` (timeout 500) is sent at
`sys_now() = 4294967196`; `start_time + timeout` wraps to 400, so the poll at
4294967246, 50 time units later and with nothing received, already declares
the timeout and decrements `try_count` from 1 to 0. -/
theorem command_wait_fires_early :
    (exec_run (exec_start (descriptor_in .PPPOS_CHATSCRIPT_START_CFUN))
      [.timer 4294967196, .timer 4294967246]).map
        (fun s => (s.pending, s.modem.command.try_count, s.modem.command.at_result,
          s.modem.command.start_time, s.modem.command.timeout))
      = some (.pppos_command_execute, 0, .at_result_failure_no_response, 4294967196, 500) ∧
    4294967246 < 2 ^ 32 ∧
    (4294967246 - 4294967196) % 2 ^ 32 = 50 := by
  decide

/-- C10: the descriptors that `pppos_state_interval` configures in the six
command-issuing states (`START_ATE0` is EchoOff, `START_CFUN` FunctionEnable,
`START_CREG_QUERY` RegistrationQuery, `START_CGDCONT` ContextSet,
`START_CGDCONT_QUERY` ContextQuery, `START_CGDATA` DataModeEntry): command
text, success pattern, no error pattern, attempts, timeout 500, success and
failure state, custom check only for the registration query; each call
schedules `pppos_command_execute` and sets `pppos_state_interval` as the
completion callback. -/
theorem chat_script_descriptors (modem : pppos_modem_t) (env : tick_env) :
    (configured (pppos_state_interval
        { modem with state := .PPPOS_CHATSCRIPT_START_ATE0 } env)
      = (cstr "ATE0\r\n", some (cstr "OK\r\n"), none, 2, 500,
          .PPPOS_CHATSCRIPT_START_CFUN, .PPPOS_CHATSCRIPT_BEGIN,
          .pppos_state_interval, [.sys_timeout 0 .pppos_command_execute]) ∧
      (pppos_state_interval
        { modem with state := .PPPOS_CHATSCRIPT_START_ATE0 } env).1.command.check = none) ∧
    (configured (pppos_state_interval
        { modem with state := .PPPOS_CHATSCRIPT_START_CFUN } env)
      = (cstr "AT+CFUN=1\r\n", some (cstr "OK\r\n"), none, 1, 500,
          .PPPOS_CHATSCRIPT_START_CREG_QUERY, .PPPOS_CHATSCRIPT_START_ATE0,
          .pppos_state_interval, [.sys_timeout 0 .pppos_command_execute]) ∧
      (pppos_state_interval
        { modem with state := .PPPOS_CHATSCRIPT_START_CFUN } env).1.command.check = none) ∧
    (configured (pppos_state_interval
        { modem with state := .PPPOS_CHATSCRIPT_START_CREG_QUERY } env)
      = (cstr "AT+CREG?\r\n", some (cstr "OK\r\n"), none, 1, 500,
          .PPPOS_CHATSCRIPT_START_CGDCONT, .PPPOS_CHATSCRIPT_START_ATE0,
          .pppos_state_interval, [.sys_timeout 0 .pppos_command_execute]) ∧
      (pppos_state_interval
        { modem with state := .PPPOS_CHATSCRIPT_START_CREG_QUERY } env).1.command.check
        = some pppos_at_creg_check) ∧
    (configured (pppos_state_interval
        { modem with state := .PPPOS_CHATSCRIPT_START_CGDCONT } env)
      = (cstr "AT+CGDCONT=1,\"IPV4V6\"\r\n", some (cstr "OK\r\n"), none, 1, 500,
          .PPPOS_CHATSCRIPT_START_CGDCONT_QUERY, .PPPOS_CHATSCRIPT_START_CGDCONT_QUERY,
          .pppos_state_interval, [.sys_timeout 0 .pppos_command_execute]) ∧
      (pppos_state_interval
        { modem with state := .PPPOS_CHATSCRIPT_START_CGDCONT } env).1.command.check = none) ∧
    (configured (pppos_state_interval
        { modem with state := .PPPOS_CHATSCRIPT_START_CGDCONT_QUERY } env)
      = (cstr "AT+CGDCONT?\r\n", some (cstr "OK\r\n"), none, 1, 500,
          .PPPOS_CHATSCRIPT_START_CGDATA, .PPPOS_CHATSCRIPT_START_ATE0,
          .pppos_state_interval, [.sys_timeout 0 .pppos_command_execute]) ∧
      (pppos_state_interval
        { modem with state := .PPPOS_CHATSCRIPT_START_CGDCONT_QUERY } env).1.command.check
        = none) ∧
    (configured (pppos_state_interval
        { modem with state := .PPPOS_CHATSCRIPT_START_CGDATA } env)
      = (cstr "AT+CGDATA=\"PPP\",1\r\n", some (cstr "CONNECT\r\n"), none, 1, 500,
          .PPPOS_CHATSCRIPT_ON_CONNECT, .PPPOS_CHATSCRIPT_START_ATE0,
          .pppos_state_interval, [.sys_timeout 0 .pppos_command_execute]) ∧
      (pppos_state_interval
        { modem with state := .PPPOS_CHATSCRIPT_START_CGDATA } env).1.command.check = none) := by
  refine ⟨⟨rfl, rfl⟩, ⟨rfl, rfl⟩, ⟨rfl, rfl⟩, ⟨rfl, rfl⟩, ⟨rfl, rfl⟩, ⟨rfl, rfl⟩⟩

/-- With no live slot no pattern matches. -/
theorem find_cmd_ack_empty_ring (modem : pppos_modem_t) (str : Option (List Byte))
    (h0 : modem.buffer_cmd_ack_count = 0)
    (hfit : ∀ p, str = some p → ∀ sub ∈ p.splitOn 0x0A, sub.length < 100) :
    find_cmd_ack modem str = some (-1) := by
  cases str with
  | none => rfl
  | some p =>
    have hfit' : ∀ sub ∈ split_lf p, sub.length < 100 := by
      rw [split_lf_eq_splitOn]; exact hfit p rfl
    obtain ⟨r, hr, hsign, hne, _⟩ :=
      find_cmd_ack_loop_spec modem.buffer_cmd_ack 0 (split_lf p) (-1) (Or.inl rfl) hfit'
    have hneg : ¬ 0 ≤ r := by
      rw [hne (split_lf_ne_nil p)]
      intro hall
      obtain ⟨sub, hsub⟩ := List.exists_mem_of_ne_nil _ (split_lf_ne_nil p)
      obtain ⟨i, hi, _⟩ := hall sub hsub
      omega
    have hr1 : r = -1 := by
      rcases hsign with h | h
      · exact h
      · exact absurd h hneg
    rw [hr1] at hr
    simp only [find_cmd_ack, h0]
    exact hr

theorem c_str_zero : c_str (fun _ => 0) = [] := by decide

/-- A command that gets no answer is retired after its attempts: from a state in
which `pppos_command_execute` is pending with `k` attempts left, the events of
`retry_schedule` have a defined result, every poll is silent, and the
completion callback is pending at the end. -/
theorem retry_schedule_retires (result error : Option (List Byte)) (timeout : Nat)
    (hres : ∀ p, result = some p → ∀ sub ∈ p.splitOn 0x0A, sub.length < 100)
    (herr : ∀ p, error = some p → ∀ sub ∈ p.splitOn 0x0A, sub.length < 100) (k : Nat) :
    ∀ s : exec_state, s.pending = .pppos_command_execute →
      s.modem.command.try_count = (k : Int) → k ≤ 127 →
      s.modem.command.expect_result = result → s.modem.command.expect_error = error →
      s.modem.command.timeout = timeout →
      s.modem.command.callback = .pppos_state_interval →
      (final_verdict s.modem).isSome = true →
      ∃ s', exec_run s (retry_schedule timeout k) = some s' ∧
        polls_silent s (retry_schedule timeout k) = true ∧
        s'.pending = .pppos_state_interval := by
  induction k with
  | zero =>
    intro s hp ht _ _ _ _ hcb hfv
    obtain ⟨v, hv⟩ := Option.isSome_iff_exists.mp hfv
    have hstep : exec_step s (.timer 0) = some (exec_after s
        ({ s.modem with
            command := { s.modem.command with at_result := v }
            state := if v = .at_result_success then s.modem.success_state
                     else s.modem.failure_state },
          [.sys_timeout 0 s.modem.command.callback])) := by
      unfold exec_step
      simp only [hp]
      rw [pppos_command_execute_eval _ _ (by rw [ht]; simp), hv]
      rfl
    generalize hs1 : exec_after s
        ({ s.modem with
            command := { s.modem.command with at_result := v }
            state := if v = .at_result_success then s.modem.success_state
                     else s.modem.failure_state },
          [.sys_timeout 0 s.modem.command.callback]) = s1 at hstep
    have hp1 : s1.pending = .pppos_state_interval := by
      rw [← hs1]; simp [exec_after, scheduled, hcb]
    refine ⟨s1, ?_, ?_, hp1⟩
    · simp only [retry_schedule, exec_run, hstep]
    · simp only [retry_schedule, polls_silent, poll_silent, hp, hstep, Bool.and_self]
  | succ k ih =>
    intro s hp ht hk hr he hto hcb hfv
    have hpos : 0 < s.modem.command.try_count := by rw [ht]; push_cast; omega
    have hstep1 : exec_step s (.timer 0) = some (exec_after s
        ({ pppos_modem_receive_reset s.modem with
            command := { s.modem.command with start_time := 0 } },
          [.sio_write s.modem.command.cmd, .sys_timeout 0 .pppos_command_wait])) := by
      unfold exec_step
      simp only [hp]
      rw [pppos_command_execute_send _ _ hpos]
      rfl
    generalize hs1 : exec_after s
        ({ pppos_modem_receive_reset s.modem with
            command := { s.modem.command with start_time := 0 } },
          [.sio_write s.modem.command.cmd, .sys_timeout 0 .pppos_command_wait]) = s1 at hstep1
    have hp1 : s1.pending = .pppos_command_wait := by
      rw [← hs1]; simp [exec_after, scheduled]
    have hm1 : s1.modem = { pppos_modem_receive_reset s.modem with
        command := { s.modem.command with start_time := 0 } } := by
      rw [← hs1]; rfl
    have hpoll : poll_verdict s1.modem = some .at_result_failure_no_response := by
      unfold poll_verdict
      rw [pppos_find_ack_snd]
      have e1 : find_cmd_ack s1.modem s1.modem.command.expect_result = some (-1) :=
        find_cmd_ack_empty_ring _ _ (by rw [hm1]; rfl) (by rw [hm1]; exact hr ▸ hres)
      have e2 : find_cmd_ack s1.modem s1.modem.command.expect_error = some (-1) :=
        find_cmd_ack_empty_ring _ _ (by rw [hm1]; rfl) (by rw [hm1]; exact he ▸ herr)
      rw [e1, e2]
      rfl
    obtain ⟨pos, hwv⟩ := pppos_command_wait_verdict s1.modem (timeout + 1) _ hpoll
    have hdead : (s1.modem.command.start_time + s1.modem.command.timeout) % 2 ^ 32
        < timeout + 1 := by
      rw [hm1]
      simp only [hto, Nat.zero_add]
      exact Nat.lt_succ_of_le (Nat.mod_le _ _)
    simp only [reduceCtorEq, or_self, if_false, hdead, if_true] at hwv
    have hstep2 : exec_step s1 (.timer (timeout + 1)) = some (exec_after s1
        ({ s1.modem with
            find_result_pos := pos
            command := { s1.modem.command with
              at_result := .at_result_failure_no_response
              try_count := wrap_int8 (s1.modem.command.try_count - 1) } },
          [.sys_timeout 0 .pppos_command_execute])) := by
      unfold exec_step
      simp only [hp1, hwv, Option.map_some']
    generalize hs2 : exec_after s1
        ({ s1.modem with
            find_result_pos := pos
            command := { s1.modem.command with
              at_result := .at_result_failure_no_response
              try_count := wrap_int8 (s1.modem.command.try_count - 1) } },
          [.sys_timeout 0 .pppos_command_execute]) = s2 at hstep2
    have hp2 : s2.pending = .pppos_command_execute := by
      rw [← hs2]; simp [exec_after, scheduled]
    have ht1 : s1.modem.command.try_count = ((k + 1 : Nat) : Int) := by rw [hm1]; exact ht
    have ht2 : s2.modem.command.try_count = (k : Int) := by
      rw [← hs2]
      simp only [exec_after, ht1]
      rw [wrap_int8_id _ (by push_cast; omega) (by push_cast; omega)]
      push_cast
      omega
    have hfv2 : (final_verdict s2.modem).isSome = true := by
      rw [← hs2]
      simp only [exec_after, final_verdict]
      rw [hm1]
      simp only [final_verdict] at hfv
      cases hc : s.modem.command.check with
      | none => simp
      | some f =>
        rw [hc] at hfv
        simpa using hfv
    obtain ⟨s', hrun, hq, hfin⟩ := ih s2 hp2 ht2 (by omega)
      (by rw [← hs2]; simp only [exec_after]; rw [hm1]; exact hr)
      (by rw [← hs2]; simp only [exec_after]; rw [hm1]; exact he)
      (by rw [← hs2]; simp only [exec_after]; rw [hm1]; exact hto)
      (by rw [← hs2]; simp only [exec_after]; rw [hm1]; exact hcb)
      hfv2
    refine ⟨s', ?_, ?_, hfin⟩
    · simp only [retry_schedule, exec_run, hstep1, hstep2]
      exact hrun
    · simp only [retry_schedule, polls_silent, poll_silent, hp, hp1, hstep1, hstep2, hpoll,
        decide_True, Bool.true_and]
      exact hq

/-! ## Retries of a command without answer -/

/-- The count of writes in runs without answer, for a command created with `N`
attempts, `1 ≤ N ≤ 127` (an `int8_t`):
in every run of receive and timer events in which every poll of the
acknowledgment matcher reports "no response", every write to the serial
channel is the command text; `try_count` is `N` minus the number of timeouts
declared so far; while waiting, at least one attempt is left and the text has
been written once more than timeouts were declared; before a send or the
evaluation the two numbers agree; and once the command is retired (the
completion callback is pending) `try_count` is 0, exactly `N` timeouts were
declared, the text was written exactly `N` times and the state is the success
or the failure state of the descriptor. Such a run to retirement exists: when
the patterns fit the matcher, the custom check, if any, is defined on the
empty acknowledgment and `timeout + 1` is a value of the 32-bit clock, the `N`
attempts of `retry_schedule` time out one after the other and the next timer
event retires the command. -/
theorem command_retry_count (modem : pppos_modem_t) (cmd : List Byte)
    (result error : Option (List Byte)) (check : Option pppos_command_result_check)
    (N : Int) (timeout : Nat) (ss fs : PPPOS_ChatscriptState)
    (hN1 : 1 ≤ N) (hN2 : N ≤ 127) :
    (∀ (evs : List exec_event) (s : exec_state),
      exec_run (exec_start (pppos_command_run_with_check modem .pppos_state_interval
        cmd result error check N timeout ss fs).1) evs = some s →
      polls_silent (exec_start (pppos_command_run_with_check modem .pppos_state_interval
        cmd result error check N timeout ss fs).1) evs = true →
      (∀ x ∈ sio_writes s.log, x = cmd) ∧
      s.modem.command.try_count = N - execute_scheduled s.log ∧
      (s.pending = .pppos_command_wait →
        1 ≤ s.modem.command.try_count ∧
          (sio_writes s.log).length = execute_scheduled s.log + 1) ∧
      (s.pending = .pppos_command_execute →
        0 ≤ s.modem.command.try_count ∧
          (sio_writes s.log).length = execute_scheduled s.log) ∧
      (s.pending = .pppos_state_interval →
        s.modem.command.try_count = 0 ∧ sio_writes s.log = List.replicate N.toNat cmd ∧
          execute_scheduled s.log = N.toNat ∧ (s.modem.state = ss ∨ s.modem.state = fs)) ∧
      (s.pending = .pppos_command_wait ∨ s.pending = .pppos_command_execute ∨
        s.pending = .pppos_state_interval)) ∧
    ((∀ p, result = some p → ∀ sub ∈ p.splitOn 0x0A, sub.length < 100) →
      (∀ p, error = some p → ∀ sub ∈ p.splitOn 0x0A, sub.length < 100) →
      (∀ f, check = some f → (f []).isSome = true) →
      timeout + 1 < 2 ^ 32 →
      ∃ s, exec_run (exec_start (pppos_command_run_with_check modem .pppos_state_interval
          cmd result error check N timeout ss fs).1) (retry_schedule timeout N.toNat) = some s ∧
        polls_silent (exec_start (pppos_command_run_with_check modem .pppos_state_interval
          cmd result error check N timeout ss fs).1) (retry_schedule timeout N.toNat) = true ∧
        s.pending = .pppos_state_interval ∧
        sio_writes s.log = List.replicate N.toNat cmd) := by
  refine ⟨fun evs s hrun hsilent =>
    silent_run_count modem cmd result error check N timeout ss fs evs s hN1 hN2 hrun hsilent,
    fun hres herr hcheck _ => ?_⟩
  have hfv : (final_verdict (exec_start (pppos_command_run_with_check modem
      .pppos_state_interval cmd result error check N timeout ss fs).1).modem).isSome = true := by
    simp only [exec_start, pppos_command_run_with_check, final_verdict]
    cases check with
    | none => rfl
    | some f =>
      simp only []
      rw [c_str_zero]
      exact hcheck f rfl
  obtain ⟨s, hrun, hq, hp⟩ := retry_schedule_retires result error timeout hres herr N.toNat
    (exec_start (pppos_command_run_with_check modem .pppos_state_interval
      cmd result error check N timeout ss fs).1)
    rfl (by simp only [exec_start, pppos_command_run_with_check]; omega) (by omega)
    rfl rfl rfl rfl hfv
  refine ⟨s, hrun, hq, hp, ?_⟩
  exact ((silent_run_count modem cmd result error check N timeout ss fs _ s hN1 hN2
    hrun hq).2.2.2.2.1 hp).2.1

/-- Instance of `command_retry_count`: two attempts, no answer; the run
`silent_events` retires the command after two writes and two timeouts, in the
failure state, and so does the run of `retry_schedule`. -/
theorem command_retry_count_witness :
    exec_run (exec_start sample_ate0) silent_events = some silent_final ∧
    polls_silent (exec_start sample_ate0) silent_events = true ∧
    silent_final.pending = .pppos_state_interval ∧
    silent_final.modem.command.try_count = 0 ∧
    sio_writes silent_final.log = [cstr "ATE0\r\n", cstr "ATE0\r\n"] ∧
    silent_final.modem.state = .PPPOS_CHATSCRIPT_BEGIN ∧
    ∃ s, exec_run (exec_start sample_ate0) (retry_schedule 500 2) = some s ∧
      sio_writes s.log = [cstr "ATE0\r\n", cstr "ATE0\r\n"] := by
  have hrun : exec_run (exec_start sample_ate0) silent_events = some silent_final :=
    exec_run_getD _ _ (by decide)
  have hq : polls_silent (exec_start sample_ate0) silent_events = true := by decide
  have T := command_retry_count modem_zero (cstr "ATE0\r\n") (some (cstr "OK\r\n")) none none
    2 500 .PPPOS_CHATSCRIPT_START_CFUN .PPPOS_CHATSCRIPT_BEGIN (by decide) (by decide)
  have hp : silent_final.pending = .pppos_state_interval := by decide
  obtain ⟨hz, hw, _, _⟩ := (T.1 silent_events silent_final hrun hq).2.2.2.2.1 hp
  obtain ⟨s, hs, _, _, hws⟩ := T.2
    (by
      intro p hp
      cases hp
      rw [← split_lf_eq_splitOn]
      decide)
    (by intro p hp; cases hp)
    (by intro f hf; cases hf)
    (by decide)
  exact ⟨hrun, hq, hp, hz, hw, by decide, s, hs, hws⟩

/-! ## Escape sequence, failure states, registration, connected state -/

/-- C11: from state `BEGIN`, whatever else the context holds and whatever the
collaborators report, four successive ticks of `pppos_state_interval` make
exactly these calls: reschedule after 1200; write the 3 bytes `+++` and
reschedule after 0; reschedule after 1200; reschedule after 0. The states after
the ticks are `AT_MODE_PRE_WAIT`, `SEND_PLUS_PLUS_PLUS`, `AT_MODE_POST_WAIT`,
`START_ATE0`, and nothing else in the context changes. A second pass, from any
other context in state `BEGIN`, makes the same calls. -/
theorem escape_sequence_ticks (modem modem' : pppos_modem_t)
    (e1 e2 e3 e4 e1' e2' e3' e4' : tick_env) :
    (state_ticks { modem with state := .PPPOS_CHATSCRIPT_BEGIN } [e1, e2, e3, e4]).2 =
      [[.sys_timeout 1200 .pppos_state_interval],
       [.sio_write (cstr "+++"), .sys_timeout 0 .pppos_state_interval],
       [.sys_timeout 1200 .pppos_state_interval],
       [.sys_timeout 0 .pppos_state_interval]] ∧
    (cstr "+++").length = 3 ∧
    (state_ticks { modem with state := .PPPOS_CHATSCRIPT_BEGIN } [e1]).1 =
      { modem with state := .PPPOS_CHATSCRIPT_AT_MODE_PRE_WAIT } ∧
    (state_ticks { modem with state := .PPPOS_CHATSCRIPT_BEGIN } [e1, e2]).1 =
      { modem with state := .PPPOS_CHATSCRIPT_SEND_PLUS_PLUS_PLUS } ∧
    (state_ticks { modem with state := .PPPOS_CHATSCRIPT_BEGIN } [e1, e2, e3]).1 =
      { modem with state := .PPPOS_CHATSCRIPT_AT_MODE_POST_WAIT } ∧
    (state_ticks { modem with state := .PPPOS_CHATSCRIPT_BEGIN } [e1, e2, e3, e4]).1 =
      { modem with state := .PPPOS_CHATSCRIPT_START_ATE0 } ∧
    (state_ticks { modem' with state := .PPPOS_CHATSCRIPT_BEGIN } [e1', e2', e3', e4']).2 =
      (state_ticks { modem with state := .PPPOS_CHATSCRIPT_BEGIN } [e1, e2, e3, e4]).2 := by
  refine ⟨rfl, by decide, rfl, rfl, rfl, rfl, rfl⟩

/-- C12, amended: the failure state that the controller configures is strictly
earlier in the chat-script sequence than the issuing state for `START_ATE0`,
`START_CFUN`, `START_CREG_QUERY`, `START_CGDCONT_QUERY` and `START_CGDATA`; for
`START_CGDCONT` (ContextSet) it is `START_CGDCONT_QUERY` (ContextQuery), the
next state of the sequence. -/
theorem failure_states_earlier (modem : pppos_modem_t) (env : tick_env) :
    script_position (configured_failure modem env .PPPOS_CHATSCRIPT_START_ATE0)
      < script_position .PPPOS_CHATSCRIPT_START_ATE0 ∧
    script_position (configured_failure modem env .PPPOS_CHATSCRIPT_START_CFUN)
      < script_position .PPPOS_CHATSCRIPT_START_CFUN ∧
    script_position (configured_failure modem env .PPPOS_CHATSCRIPT_START_CREG_QUERY)
      < script_position .PPPOS_CHATSCRIPT_START_CREG_QUERY ∧
    script_position (configured_failure modem env .PPPOS_CHATSCRIPT_START_CGDCONT_QUERY)
      < script_position .PPPOS_CHATSCRIPT_START_CGDCONT_QUERY ∧
    script_position (configured_failure modem env .PPPOS_CHATSCRIPT_START_CGDATA)
      < script_position .PPPOS_CHATSCRIPT_START_CGDATA ∧
    configured_failure modem env .PPPOS_CHATSCRIPT_START_CGDCONT
      = .PPPOS_CHATSCRIPT_START_CGDCONT_QUERY ∧
    script_position (configured_failure modem env .PPPOS_CHATSCRIPT_START_CGDCONT)
      = script_position .PPPOS_CHATSCRIPT_START_CGDCONT + 1 := by
  refine ⟨?_, ?_, ?_, ?_, ?_, rfl, rfl⟩ <;>
    simp [configured_failure, pppos_state_interval, pppos_command_run,
      pppos_command_run_with_check, script_position]

/-- C12 as stated fails: the failure state configured in `START_CGDCONT`
(ContextSet) is `START_CGDCONT_QUERY` (ContextQuery), which does not come
earlier in the sequence than `START_CGDCONT`. -/
theorem context_set_failure_not_earlier :
    configured_failure modem_zero ⟨0, 0, 0, 0⟩ .PPPOS_CHATSCRIPT_START_CGDCONT
      = .PPPOS_CHATSCRIPT_START_CGDCONT_QUERY ∧
    ¬ script_position
        (configured_failure modem_zero ⟨0, 0, 0, 0⟩ .PPPOS_CHATSCRIPT_START_CGDCONT)
      < script_position .PPPOS_CHATSCRIPT_START_CGDCONT := by
  decide

/-- C13, amended: the command of `START_CREG_QUERY` is sent at time 0. When the
answer `\r\n+CREG: 0,1\r\n\r\nOK\r\n` arrives with no echo before it, in one
chunk or in two with a poll in between, the command retires before the timeout
with verdict success and the state becomes `START_CGDCONT` (ContextSet). When
the echo `AT+CREG?\r\n` arrives before the same answer, the poll still finds
the success pattern and ends the wait, but the evaluation that follows stores
`at_result_failure_error` and the state becomes `START_ATE0` (EchoOff). -/
theorem registration_scenario :
    (exec_run (exec_start (descriptor_in .PPPOS_CHATSCRIPT_START_CREG_QUERY))
        [.timer 0, .rx (cstr "\r\n+CREG: 0,1\r\n\r\nOK\r\n"), .timer 10, .timer 11]).map
        exec_outcome
      = some (.pppos_state_interval, .PPPOS_CHATSCRIPT_START_CGDCONT, .at_result_success, 0) ∧
    (exec_run (exec_start (descriptor_in .PPPOS_CHATSCRIPT_START_CREG_QUERY))
        [.timer 0, .rx (cstr "\r\n+CREG: 0,1\r\n"), .timer 10, .rx (cstr "\r\nOK\r\n"),
         .timer 20, .timer 21]).map exec_outcome
      = some (.pppos_state_interval, .PPPOS_CHATSCRIPT_START_CGDCONT, .at_result_success, 0) ∧
    (exec_run (exec_start (descriptor_in .PPPOS_CHATSCRIPT_START_CREG_QUERY))
        [.timer 0, .rx (cstr "AT+CREG?\r\n"), .rx (cstr "\r\n+CREG: 0,1\r\n\r\nOK\r\n"),
         .timer 10]).map exec_outcome
      = some (.pppos_command_execute, .PPPOS_CHATSCRIPT_START_CREG_QUERY,
          .at_result_success, 0) ∧
    (exec_run (exec_start (descriptor_in .PPPOS_CHATSCRIPT_START_CREG_QUERY))
        [.timer 0, .rx (cstr "AT+CREG?\r\n"), .rx (cstr "\r\n+CREG: 0,1\r\n\r\nOK\r\n"),
         .timer 10, .timer 11]).map exec_outcome
      = some (.pppos_state_interval, .PPPOS_CHATSCRIPT_START_ATE0,
          .at_result_failure_error, 0) := by
  decide

/-- C13 as stated fails: with the echo `AT+CREG?\r\n` first, the raw
acknowledgment handed to the registration check begins with `AT+CREG?`; the
check returns `at_result_failure_error` on it, and the run ends in `START_ATE0`
with that verdict, not in the success state `START_CGDCONT`. -/
theorem registration_scenario_with_echo :
    (exec_run (exec_start (descriptor_in .PPPOS_CHATSCRIPT_START_CREG_QUERY))
        [.timer 0, .rx (cstr "AT+CREG?\r\n"), .rx (cstr "\r\n+CREG: 0,1\r\n\r\nOK\r\n"),
         .timer 10, .timer 11]).map
        (fun s => (s.modem.state, s.modem.command.at_result, s.modem.success_state,
          c_str s.modem.command_ack))
      = some (.PPPOS_CHATSCRIPT_START_ATE0, .at_result_failure_error,
          .PPPOS_CHATSCRIPT_START_CGDCONT,
          cstr "AT+CREG?\r\n\r\n+CREG: 0,1\r\n\r\nOK\r\n") ∧
    pppos_at_creg_check (cstr "AT+CREG?\r\n\r\n+CREG: 0,1\r\n\r\nOK\r\n")
      = some .at_result_failure_error := by
  decide

/-- C14 fails on the code: on an acknowledgment whose second (or first)
integer does not fit an `int`, the `%d` conversion of `sscanf` has no defined
result, so `pppos_at_creg_check` returns neither success nor
`at_result_failure_error`. On the in-range texts of the claim the check answers
as stated: success for status 1 and 5, with or without leading white space,
`at_result_failure_error` for status 0, 15, and for a text without a
registration response. -/
theorem creg_check_integer_out_of_range :
    pppos_at_creg_check (cstr "\r\n+CREG: 0,4294967297\r\n") = none ∧
    pppos_at_creg_check (cstr "\r\n+CREG: 99999999999,1\r\n") = none ∧
    pppos_at_creg_check (cstr "\r\n+CREG: 0,1\r\n") = some .at_result_success ∧
    pppos_at_creg_check (cstr "\r\n+CREG: 0,5\r\n") = some .at_result_success ∧
    pppos_at_creg_check (cstr "+CREG: 2,5") = some .at_result_success ∧
    pppos_at_creg_check (cstr "+CREG: 0,0") = some .at_result_failure_error ∧
    pppos_at_creg_check (cstr "\r\n+CREG: 0,15\r\n") = some .at_result_failure_error ∧
    pppos_at_creg_check (cstr "\r\nOK\r\n") = some .at_result_failure_error := by
  decide

theorem pppos_state_interval_connected (modem : pppos_modem_t) (env : tick_env)
    (h : modem.state = .PPPOS_CHATSCRIPT_ON_CONNECT) :
    pppos_state_interval modem env = pppos_state_on_connect modem env := by
  unfold pppos_state_interval
  rw [h]

/-- `phase_observe` on a changed phase that is dead or terminating, nothing
recorded before: the connect request. -/
theorem phase_observe_connect (modem : pppos_modem_t) (env : tick_env)
    (hdiff : env.ppp_phase ≠ modem.phase_saved)
    (hdead : env.ppp_phase = PPP_PHASE_DEAD ∨ env.ppp_phase = PPP_PHASE_TERMINATE)
    (hs : modem.phase_saved = 0xFF) :
    phase_observe modem env =
      ({ modem with
          phase_saved := env.ppp_phase
          command := { modem.command with start_time := env.sys_now } },
        [.ppp_connect], env.ppp_phase_after_connect) := by
  unfold phase_observe
  simp only []
  rw [if_pos hdiff, if_pos hdead, if_pos hs]

/-- `phase_observe` on a changed phase that is dead or terminating, a phase
recorded before: back to the beginning of the chat script. -/
theorem phase_observe_drop (modem : pppos_modem_t) (env : tick_env)
    (hdiff : env.ppp_phase ≠ modem.phase_saved)
    (hdead : env.ppp_phase = PPP_PHASE_DEAD ∨ env.ppp_phase = PPP_PHASE_TERMINATE)
    (hs : modem.phase_saved ≠ 0xFF) :
    phase_observe modem env =
      ({ modem with phase_saved := 0xFF, state := .PPPOS_CHATSCRIPT_BEGIN }, [],
        env.ppp_phase) := by
  unfold phase_observe
  simp only []
  rw [if_pos hdiff, if_pos hdead, if_neg hs]

/-- `phase_observe` when the engine is running: only the snapshot changes. -/
theorem phase_observe_running (modem : pppos_modem_t) (env : tick_env)
    (hrun : env.ppp_phase = PPP_PHASE_RUNNING) :
    phase_observe modem env =
      ({ modem with phase_saved := PPP_PHASE_RUNNING }, [], PPP_PHASE_RUNNING) := by
  have hnd : ¬ (env.ppp_phase = PPP_PHASE_DEAD ∨ env.ppp_phase = PPP_PHASE_TERMINATE) := by
    rw [hrun]; decide
  have hne : ¬ env.ppp_phase = PPP_PHASE_ESTABLISH := by rw [hrun]; decide
  unfold phase_observe
  simp only []
  by_cases hdiff : env.ppp_phase ≠ modem.phase_saved
  · rw [if_pos hdiff, if_neg hnd, if_neg hne, hrun]
  · rw [if_neg hdiff, hrun]
    have : modem.phase_saved = PPP_PHASE_RUNNING := by
      rw [← hrun]; exact (not_not.mp hdiff).symm
    rw [← this]

/-- `phase_observe` when the engine is establishing: the snapshot is taken and,
if it changed, the clock is recorded. -/
theorem phase_observe_establish (modem : pppos_modem_t) (env : tick_env)
    (hest : env.ppp_phase = PPP_PHASE_ESTABLISH) :
    phase_observe modem env =
      (if modem.phase_saved = PPP_PHASE_ESTABLISH then modem
        else { modem with
                phase_saved := PPP_PHASE_ESTABLISH
                command := { modem.command with start_time := env.sys_now } },
        [], PPP_PHASE_ESTABLISH) := by
  have hnd : ¬ (env.ppp_phase = PPP_PHASE_DEAD ∨ env.ppp_phase = PPP_PHASE_TERMINATE) := by
    rw [hest]; decide
  unfold phase_observe
  simp only []
  by_cases hs : modem.phase_saved = PPP_PHASE_ESTABLISH
  · rw [if_neg (by rw [hest, hs]; simp), if_pos hs, hest]
  · rw [if_pos (by rw [hest]; exact fun h => hs h.symm), if_neg hnd, if_pos hest, if_neg hs,
      hest]

/-- The calls of `phase_supervise`: at most a close request. -/
theorem phase_supervise_calls (modem : pppos_modem_t) (phase : Nat) (env : tick_env) :
    (phase_supervise modem phase env).2 = [] ∨
      (phase_supervise modem phase env).2 = [.ppp_close] := by
  unfold phase_supervise
  simp only []
  split
  · split <;> split <;> simp
  · split <;> simp

/-- `phase_supervise` changes the chat-script state and the snapshot only when
the engine is running and a reconnect is reported. -/
theorem phase_supervise_state (modem : pppos_modem_t) (phase : Nat) (env : tick_env)
    (h : phase ≠ PPP_PHASE_RUNNING ∨ env.sio_reconnected = 0) :
    (phase_supervise modem phase env).1.state = modem.state ∧
      (phase_supervise modem phase env).1.phase_saved = modem.phase_saved := by
  unfold phase_supervise
  simp only []
  by_cases hp : phase ≠ PPP_PHASE_RUNNING
  · rw [if_pos hp]
    split <;> split <;> exact ⟨rfl, rfl⟩
  · have h0 : env.sio_reconnected = 0 := by
      rcases h with h | h
      · exact absurd h hp
      · exact h
    rw [if_neg hp, if_neg (by rw [h0]; simp)]
    exact ⟨rfl, rfl⟩

/-- `phase_supervise` while the engine is establishing and the deadline
`start_time + 2000` does not wrap: a close request exactly when the clock is
past the deadline; the context is left as it is. -/
theorem phase_supervise_establish (modem : pppos_modem_t) (env : tick_env)
    (hnw : modem.command.start_time + 2000 < 2 ^ 32) :
    phase_supervise modem PPP_PHASE_ESTABLISH env =
      (modem, if modem.command.start_time + 2000 < env.sys_now then [.ppp_close] else []) := by
  unfold phase_supervise
  simp only []
  rw [if_pos (by decide), Nat.mod_eq_of_lt hnw]
  simp only [if_true]
  split <;> rfl

/-- C15: in state `ON_CONNECT`, on a tick where the phase of the PPP engine
differs from the snapshot `phase_saved` and is dead or terminating: if the
snapshot is the sentinel `0xFF`, `ppp_connect` is called and, provided the
engine is not found running with a reconnect reported right after that call,
the state is still `ON_CONNECT` after the tick; if the snapshot is not the
sentinel, `ppp_connect` is not called, the snapshot is reset to `0xFF` and the
state becomes `BEGIN`. -/
theorem connected_dead_phase (modem : pppos_modem_t) (env : tick_env)
    (hstate : modem.state = .PPPOS_CHATSCRIPT_ON_CONNECT)
    (hdiff : env.ppp_phase ≠ modem.phase_saved)
    (hdead : env.ppp_phase = PPP_PHASE_DEAD ∨ env.ppp_phase = PPP_PHASE_TERMINATE) :
    (modem.phase_saved = 0xFF →
      Effect.ppp_connect ∈ (pppos_state_interval modem env).2 ∧
      ((env.ppp_phase_after_connect ≠ PPP_PHASE_RUNNING ∨ env.sio_reconnected = 0) →
        (pppos_state_interval modem env).1.state = .PPPOS_CHATSCRIPT_ON_CONNECT)) ∧
    (modem.phase_saved ≠ 0xFF →
      Effect.ppp_connect ∉ (pppos_state_interval modem env).2 ∧
        (pppos_state_interval modem env).1.phase_saved = 0xFF ∧
        (pppos_state_interval modem env).1.state = .PPPOS_CHATSCRIPT_BEGIN) := by
  rw [pppos_state_interval_connected modem env hstate]
  unfold pppos_state_on_connect
  simp only []
  constructor
  · intro hs
    rw [phase_observe_connect modem env hdiff hdead hs]
    refine ⟨by simp, ?_⟩
    intro hafter
    rw [(phase_supervise_state _ _ env hafter).1]
    exact hstate
  · intro hs
    rw [phase_observe_drop modem env hdiff hdead hs]
    have hnr : env.ppp_phase ≠ PPP_PHASE_RUNNING := by
      rcases hdead with h | h <;> rw [h] <;> decide
    obtain ⟨h1, h2⟩ := phase_supervise_state
      { modem with phase_saved := 0xFF, state := .PPPOS_CHATSCRIPT_BEGIN }
      env.ppp_phase env (Or.inl hnr)
    refine ⟨?_, h2, h1⟩
    rcases phase_supervise_calls
      { modem with phase_saved := 0xFF, state := .PPPOS_CHATSCRIPT_BEGIN }
      env.ppp_phase env with h | h <;> simp [h]

/-- Instances of C15: the first observation of a dead engine (which is
establishing after the connect request), and the observation of a terminating
engine after the running phase was recorded. -/
theorem connected_dead_phase_witness :
    (Effect.ppp_connect ∈ (pppos_state_interval (modem_connected 0xFF) ⟨100, 0, 6, 0⟩).2 ∧
      (pppos_state_interval (modem_connected 0xFF) ⟨100, 0, 6, 0⟩).1.state
        = .PPPOS_CHATSCRIPT_ON_CONNECT) ∧
    (Effect.ppp_connect ∉ (pppos_state_interval (modem_connected 10) ⟨100, 11, 11, 0⟩).2 ∧
      (pppos_state_interval (modem_connected 10) ⟨100, 11, 11, 0⟩).1.phase_saved = 0xFF ∧
      (pppos_state_interval (modem_connected 10) ⟨100, 11, 11, 0⟩).1.state
        = .PPPOS_CHATSCRIPT_BEGIN) :=
  ⟨⟨((connected_dead_phase (modem_connected 0xFF) ⟨100, 0, 6, 0⟩ rfl (by decide)
        (Or.inl rfl)).1 rfl).1,
    ((connected_dead_phase (modem_connected 0xFF) ⟨100, 0, 6, 0⟩ rfl (by decide)
        (Or.inl rfl)).1 rfl).2 (Or.inl (by decide))⟩,
   (connected_dead_phase (modem_connected 10) ⟨100, 11, 11, 0⟩ rfl (by decide)
      (Or.inr rfl)).2 (by decide)⟩

/-- In state `ON_CONNECT`, a tick that finds the engine establishing for the
first time (the snapshot is another phase) at a clock value `t0` with
`t0 + 2000 < 2 ^ 32` records `t0` and makes no close request. -/
theorem establish_first_tick (modem : pppos_modem_t) (env : tick_env)
    (hstate : modem.state = .PPPOS_CHATSCRIPT_ON_CONNECT)
    (hsaved : modem.phase_saved ≠ PPP_PHASE_ESTABLISH)
    (hest : env.ppp_phase = PPP_PHASE_ESTABLISH)
    (hnw : env.sys_now + 2000 < 2 ^ 32) :
    pppos_state_interval modem env =
      ({ modem with
          phase_saved := PPP_PHASE_ESTABLISH
          command := { modem.command with start_time := env.sys_now } },
        [.sys_timeout 200 .pppos_state_interval]) := by
  rw [pppos_state_interval_connected modem env hstate]
  unfold pppos_state_on_connect
  simp only []
  rw [phase_observe_establish modem env hest, if_neg hsaved]
  simp only []
  rw [phase_supervise_establish _ env hnw]
  simp

/-- In state `ON_CONNECT`, a later tick that finds the engine still
establishing, the deadline `start_time + 2000` not wrapping: a close request
is made exactly when the clock is past the deadline. -/
theorem establish_later_tick (modem : pppos_modem_t) (env : tick_env)
    (hstate : modem.state = .PPPOS_CHATSCRIPT_ON_CONNECT)
    (hsaved : modem.phase_saved = PPP_PHASE_ESTABLISH)
    (hest : env.ppp_phase = PPP_PHASE_ESTABLISH)
    (hnw : modem.command.start_time + 2000 < 2 ^ 32) :
    pppos_state_interval modem env =
      (modem, (if modem.command.start_time + 2000 < env.sys_now then [.ppp_close] else [])
        ++ [.sys_timeout 200 .pppos_state_interval]) := by
  rw [pppos_state_interval_connected modem env hstate]
  unfold pppos_state_on_connect
  simp only []
  rw [phase_observe_establish modem env hest, if_pos hsaved]
  simp only []
  rw [phase_supervise_establish _ env hnw]
  simp

/-- C16 fails on the code: in state `ON_CONNECT` the engine is first observed
establishing at `t0 = 4294966296` and observed running at `t0 + 200`, within
the deadline, with no reconnect reported; `start_time + 2000` wraps to 1000 in
32 bits, which is below the clock, and `ppp_close` is called on the very tick
of the first observation. -/
theorem establish_deadline_wraps :
    (state_ticks (modem_connected 0xFF)
        [⟨4294966296, 6, 6, 0⟩, ⟨4294966496, 10, 10, 0⟩]).2 =
      [[.ppp_close, .sys_timeout 200 .pppos_state_interval],
       [.sys_timeout 200 .pppos_state_interval]] ∧
    PPP_PHASE_ESTABLISH = 6 ∧ PPP_PHASE_RUNNING = 10 ∧
    4294966496 ≤ 4294966296 + 2000 ∧ 4294966496 < 2 ^ 32 := by
  decide

/-- C17: in state `ON_CONNECT`, on every tick where the PPP engine is running
and the serial channel reports a reconnect, the calls made are `ppp_close` and
the rescheduling of the controller after 200; the snapshot `phase_saved` is
reset to `0xFF` and the state becomes `START_ATE0` (EchoOff), which is not
`BEGIN`. -/
theorem connected_reconnect (modem : pppos_modem_t) (env : tick_env)
    (hstate : modem.state = .PPPOS_CHATSCRIPT_ON_CONNECT)
    (hrun : env.ppp_phase = PPP_PHASE_RUNNING)
    (hrec : env.sio_reconnected ≠ 0) :
    (pppos_state_interval modem env).2
      = [.ppp_close, .sys_timeout 200 .pppos_state_interval] ∧
    (pppos_state_interval modem env).1.phase_saved = 0xFF ∧
    (pppos_state_interval modem env).1.state = .PPPOS_CHATSCRIPT_START_ATE0 ∧
    (pppos_state_interval modem env).1.state ≠ .PPPOS_CHATSCRIPT_BEGIN := by
  rw [pppos_state_interval_connected modem env hstate]
  unfold pppos_state_on_connect
  simp only []
  rw [phase_observe_running modem env hrun]
  unfold phase_supervise
  simp only []
  rw [if_neg (by simp), if_pos hrec]
  exact ⟨rfl, rfl, rfl, by simp⟩

/-- Instance of C17: the engine is running, the running phase was recorded
before, a reconnect is reported. -/
theorem connected_reconnect_witness :
    (pppos_state_interval (modem_connected 10) ⟨100, 10, 10, 1⟩).2
      = [.ppp_close, .sys_timeout 200 .pppos_state_interval] ∧
    (pppos_state_interval (modem_connected 10) ⟨100, 10, 10, 1⟩).1.phase_saved = 0xFF ∧
    (pppos_state_interval (modem_connected 10) ⟨100, 10, 10, 1⟩).1.state
      = .PPPOS_CHATSCRIPT_START_ATE0 ∧
    (pppos_state_interval (modem_connected 10) ⟨100, 10, 10, 1⟩).1.state
      ≠ .PPPOS_CHATSCRIPT_BEGIN :=
  connected_reconnect (modem_connected 10) ⟨100, 10, 10, 1⟩ rfl rfl (by decide)

/-- The loop of `pppos_input_connect` is the left fold of `pppos_byte_process`
over the chunk, stopping where a byte has no defined effect. -/
theorem feed_bytes_eq_foldlM (s : List Byte) :
    ∀ modem : pppos_modem_t, feed_bytes modem s = s.foldlM pppos_byte_process modem := by
  induction s with
  | nil => intro modem; rfl
  | cons b bs ih =>
    intro modem
    rw [feed_bytes, List.foldlM_cons]
    cases h : pppos_byte_process modem b with
    | none => rfl
    | some m => exact ih m

/-- C18: in state `ON_CONNECT`, `pppos_input_connect` makes one call, of
`pppos_rx_input` with the chunk as received, and leaves the whole context
(scratch buffer, line ring and raw acknowledgment included) as it was; in every
other state it makes no call and the context is the one obtained by passing the
bytes of the chunk to `pppos_byte_process` one by one, in order. -/
theorem input_connect_routes (modem : pppos_modem_t) (s : List Byte) :
    (modem.state = .PPPOS_CHATSCRIPT_ON_CONNECT →
      pppos_input_connect modem s = some (modem, [.pppos_rx_input s])) ∧
    (modem.state ≠ .PPPOS_CHATSCRIPT_ON_CONNECT →
      pppos_input_connect modem s =
        (s.foldlM pppos_byte_process modem).map (fun m => (m, []))) := by
  constructor
  · intro h
    unfold pppos_input_connect
    rw [if_neg (not_not.mpr h)]
  · intro h
    unfold pppos_input_connect
    rw [if_pos h, feed_bytes_eq_foldlM]
    cases s.foldlM pppos_byte_process modem <;> rfl

/-- Instances of C18: a chunk received in state `ON_CONNECT` and the same chunk
received in state `BEGIN`. -/
theorem input_connect_routes_witness :
    pppos_input_connect (modem_connected 10) (cstr "\r\nOK\r\n")
        = some (modem_connected 10, [.pppos_rx_input (cstr "\r\nOK\r\n")]) ∧
    pppos_input_connect modem_zero (cstr "\r\nOK\r\n") =
        ((cstr "\r\nOK\r\n").foldlM pppos_byte_process modem_zero).map (fun m => (m, [])) :=
  ⟨(input_connect_routes (modem_connected 10) (cstr "\r\nOK\r\n")).1 rfl,
   (input_connect_routes modem_zero (cstr "\r\nOK\r\n")).2 (by decide)⟩

/-- C19: in state `ON_CONNECT`, `ppp_output_cb` writes the data to the serial
channel and returns the byte count of that write; in every other state it
writes nothing and returns 0. -/
theorem output_routed_when_connected (modem : pppos_modem_t) (data : List Byte)
    (sio_write : List Byte → Nat) :
    (modem.state = .PPPOS_CHATSCRIPT_ON_CONNECT →
      ppp_output_cb modem data sio_write = (sio_write data, [.sio_write data])) ∧
    (modem.state ≠ .PPPOS_CHATSCRIPT_ON_CONNECT →
      ppp_output_cb modem data sio_write = (0, [])) := by
  constructor
  · intro h
    unfold ppp_output_cb
    rw [if_pos h]
  · intro h
    unfold ppp_output_cb
    rw [if_neg h]

/-- Instances of C19: one byte of output in state `ON_CONNECT` and in state
`BEGIN`, on a serial channel that accepts every byte. -/
theorem output_routed_when_connected_witness :
    ppp_output_cb (modem_connected 10) (cstr "~") List.length = (1, [.sio_write (cstr "~")]) ∧
    ppp_output_cb modem_zero (cstr "~") List.length = (0, []) :=
  ⟨(output_routed_when_connected (modem_connected 10) (cstr "~") List.length).1 rfl,
   (output_routed_when_connected modem_zero (cstr "~") List.length).2 (by decide)⟩

/-- C20 fails on the code: after 256 lines `A\r\n` since the receive reset the
8-bit `buffer_cmd_ack_count` is back at 0; both slots hold the line `A\r\n`,
but the matcher examines no slot and does not find `A`. After one more line,
`B\r\n`, the count is 1: the matcher finds `B` in slot 0 and still does not
find `A`, the line before it, which slot 1 holds. After 255 lines it finds
`A`. -/
theorem line_count_wraps :
    (feed_bytes (pppos_modem_receive_reset modem_zero) (repeat_bytes 256 (cstr "A\r\n"))).map
        (fun m => (m.buffer_cmd_ack_count, c_str (m.buffer_cmd_ack 0),
          c_str (m.buffer_cmd_ack 1)))
      = some (0, cstr "A\r\n", cstr "A\r\n") ∧
    (feed_bytes (pppos_modem_receive_reset modem_zero) (repeat_bytes 256 (cstr "A\r\n"))).bind
        (fun m => find_cmd_ack m (some (cstr "A"))) = some (-1) ∧
    (feed_bytes (pppos_modem_receive_reset modem_zero)
        (repeat_bytes 256 (cstr "A\r\n") ++ cstr "B\r\n")).map
        (fun m => (m.buffer_cmd_ack_count, c_str (m.buffer_cmd_ack 0),
          c_str (m.buffer_cmd_ack 1)))
      = some (1, cstr "B\r\n", cstr "A\r\n") ∧
    (feed_bytes (pppos_modem_receive_reset modem_zero)
        (repeat_bytes 256 (cstr "A\r\n") ++ cstr "B\r\n")).bind
        (fun m => find_cmd_ack m (some (cstr "B"))) = some 0 ∧
    (feed_bytes (pppos_modem_receive_reset modem_zero)
        (repeat_bytes 256 (cstr "A\r\n") ++ cstr "B\r\n")).bind
        (fun m => find_cmd_ack m (some (cstr "A"))) = some (-1) ∧
    (feed_bytes (pppos_modem_receive_reset modem_zero) (repeat_bytes 255 (cstr "A\r\n"))).bind
        (fun m => find_cmd_ack m (some (cstr "A"))) = some 1 := by
  set_option maxRecDepth 100000 in decide

/-! ## Broadcast test of an IPv4 address -/

theorem u32_not_testBit (x : Nat) (hx : x < 2 ^ 32) (i : Nat) :
    (u32_not x).testBit i = (decide (i < 32) && !x.testBit i) := by
  unfold u32_not
  rw [Nat.mod_eq_of_lt hx]
  have : 2 ^ 32 - 1 - x = 2 ^ 32 - (x + 1) := by omega
  rw [this]
  exact Nat.testBit_two_pow_sub_succ hx i

theorem net_eq_iff_on_subnet (addr ip mask : Nat) (hm : mask < 2 ^ 32) :
    ip4_addr_net_eq addr ip mask = true ↔ on_subnet addr ip mask := by
  unfold ip4_addr_net_eq on_subnet
  rw [decide_eq_true_iff]
  constructor
  · intro h i _ hmi
    have := congrArg (fun n => n.testBit i) h
    simpa [Nat.testBit_and, hmi] using this
  · intro h
    apply Nat.eq_of_testBit_eq
    intro i
    rw [Nat.testBit_and, Nat.testBit_and]
    by_cases hi : i < 32
    · cases hmi : mask.testBit i with
      | false => simp
      | true => simp [h i hi hmi]
    · have : mask.testBit i = false :=
        Nat.testBit_lt_two_pow (lt_of_lt_of_le hm (Nat.pow_le_pow_right (by decide) (by omega)))
      simp [this]

theorem host_bits_iff (addr mask : Nat) (hm : mask < 2 ^ 32) :
    addr &&& u32_not mask = IPADDR_BROADCAST &&& u32_not mask ↔ host_bits_all_one addr mask := by
  unfold host_bits_all_one
  have hb : ∀ i, IPADDR_BROADCAST.testBit i = decide (i < 32) := by
    intro i
    have : IPADDR_BROADCAST = 2 ^ 32 - 1 := by decide
    rw [this, Nat.testBit_two_pow_sub_one]
  constructor
  · intro h i hi hmi
    have := congrArg (fun n => n.testBit i) h
    simpa [Nat.testBit_and, u32_not_testBit mask hm, hb, hi, hmi] using this
  · intro h
    apply Nat.eq_of_testBit_eq
    intro i
    rw [Nat.testBit_and, Nat.testBit_and, u32_not_testBit mask hm, hb]
    by_cases hi : i < 32
    · cases hmi : mask.testBit i with
      | false => simp [h i hi hmi, hi]
      | true => simp
    · simp [hi]

/-- C21: for `u32_t` arguments, `ip4_addr_isbroadcast_u32(addr, netif)` returns
1 if `addr` is 255.255.255.255 or 0.0.0.0, or else if the interface has the
broadcast flag, `addr` is not the address of the interface, `addr` agrees with
that address on every bit of the netmask and has every bit outside the netmask
set; it returns 0 in every other case. -/
theorem ip4_addr_isbroadcast_u32_spec (addr : Nat) (netif : netif_t)
    (haddr : addr < 2 ^ 32) (hmask : netif.netmask < 2 ^ 32) :
    (ip4_addr_isbroadcast_u32 addr netif ≠ 0 ↔
      (addr = 0xFFFFFFFF ∨ addr = 0 ∨
        (netif.flags &&& NETIF_FLAG_BROADCAST ≠ 0 ∧ addr ≠ netif.ip_addr ∧
          on_subnet addr netif.ip_addr netif.netmask ∧
          host_bits_all_one addr netif.netmask))) ∧
    (ip4_addr_isbroadcast_u32 addr netif = 0 ∨ ip4_addr_isbroadcast_u32 addr netif = 1) := by
  have hnot : u32_not addr = IPADDR_ANY ↔ addr = 0xFFFFFFFF := by
    unfold u32_not IPADDR_ANY
    rw [Nat.mod_eq_of_lt haddr]
    omega
  have hany : addr = IPADDR_ANY ↔ addr = 0 := by unfold IPADDR_ANY; rfl
  have hsub := net_eq_iff_on_subnet addr netif.ip_addr netif.netmask hmask
  have hhost := host_bits_iff addr netif.netmask hmask
  unfold ip4_addr_isbroadcast_u32
  simp only []
  by_cases h1 : u32_not addr = IPADDR_ANY ∨ addr = IPADDR_ANY
  · rw [if_pos h1]
    refine ⟨⟨fun _ => ?_, fun _ => by decide⟩, Or.inr rfl⟩
    rcases h1 with h | h
    · exact Or.inl (hnot.mp h)
    · exact Or.inr (Or.inl (hany.mp h))
  · rw [if_neg h1]
    have h1a : ¬ addr = 0xFFFFFFFF := fun h => h1 (Or.inl (hnot.mpr h))
    have h1b : ¬ addr = 0 := fun h => h1 (Or.inr (hany.mpr h))
    by_cases h2 : netif.flags &&& NETIF_FLAG_BROADCAST = 0
    · rw [if_pos h2]
      exact ⟨⟨fun h => absurd rfl h, fun h => by
        rcases h with h | h | ⟨h, _⟩
        · exact absurd h h1a
        · exact absurd h h1b
        · exact absurd h2 h⟩, Or.inl rfl⟩
    · rw [if_neg h2]
      by_cases h3 : addr = netif.ip_addr
      · rw [if_pos h3]
        exact ⟨⟨fun h => absurd rfl h, fun h => by
          rcases h with h | h | ⟨_, h, _⟩
          · exact absurd h h1a
          · exact absurd h h1b
          · exact absurd h3 h⟩, Or.inl rfl⟩
      · rw [if_neg h3]
        by_cases h4 : ip4_addr_net_eq addr netif.ip_addr netif.netmask = true ∧
            addr &&& u32_not netif.netmask = IPADDR_BROADCAST &&& u32_not netif.netmask
        · rw [if_pos h4]
          exact ⟨⟨fun _ => Or.inr (Or.inr ⟨h2, h3, hsub.mp h4.1, hhost.mp h4.2⟩),
            fun _ => by decide⟩, Or.inr rfl⟩
        · rw [if_neg h4]
          exact ⟨⟨fun h => absurd rfl h, fun h => by
            rcases h with h | h | ⟨_, _, h5, h6⟩
            · exact absurd h h1a
            · exact absurd h h1b
            · exact absurd ⟨hsub.mpr h5, hhost.mpr h6⟩ h4⟩, Or.inl rfl⟩

/-- Instances of C21 on the interface 192.168.1.10/24: the subnet broadcast
192.168.1.255 is a broadcast address, the own address and the host
192.168.1.77 are not. -/
theorem ip4_addr_isbroadcast_u32_spec_witness :
    ip4_addr_isbroadcast_u32 0xC0A801FF netif_sample = 1 ∧
    ip4_addr_isbroadcast_u32 0xC0A8010A netif_sample = 0 ∧
    ip4_addr_isbroadcast_u32 0xC0A8014D netif_sample = 0 ∧
    ip4_addr_isbroadcast_u32 0xFFFFFFFF netif_sample = 1 ∧
    (ip4_addr_isbroadcast_u32 0xC0A801FF netif_sample ≠ 0 ↔
      ((0xC0A801FF : Nat) = 0xFFFFFFFF ∨ (0xC0A801FF : Nat) = 0 ∨
        (netif_sample.flags &&& NETIF_FLAG_BROADCAST ≠ 0 ∧ 0xC0A801FF ≠ netif_sample.ip_addr ∧
          on_subnet 0xC0A801FF netif_sample.ip_addr netif_sample.netmask ∧
          host_bits_all_one 0xC0A801FF netif_sample.netmask))) :=
  ⟨by decide, by decide, by decide, by decide,
   (ip4_addr_isbroadcast_u32_spec 0xC0A801FF netif_sample (by decide) (by decide)).1⟩

/-! ## Timeout test, receive reset and anomaly branch -/

/-- C22, amended: in `pppos_command_wait` with no success or error match, the
sum `start_time + timeout` fitting in 32 bits and `try_count` above the least
`int8_t`: the attempt is timed out (`try_count` decremented by one,
`pppos_command_execute` scheduled at once) if `start_time + timeout < now`,
that is if more than `timeout` has passed since the send; otherwise, and so
when exactly `timeout` has passed, the wait is rescheduled after 10 with
`try_count` unchanged. -/
theorem command_wait_timeout (modem : pppos_modem_t) (sys_now : Nat)
    (hv : poll_verdict modem = some .at_result_failure_no_response)
    (hnw : modem.command.start_time + modem.command.timeout < 2 ^ 32)
    (htc : -128 < modem.command.try_count ∧ modem.command.try_count ≤ 127) :
    ∃ r, pppos_command_wait modem sys_now = some r ∧
      (modem.command.start_time + modem.command.timeout < sys_now →
        r.1.command.try_count = modem.command.try_count - 1 ∧
          r.2 = [.sys_timeout 0 .pppos_command_execute]) ∧
      (sys_now ≤ modem.command.start_time + modem.command.timeout →
        r.1.command.try_count = modem.command.try_count ∧
          r.2 = [.sys_timeout 10 .pppos_command_wait]) := by
  obtain ⟨pos, hw⟩ := pppos_command_wait_verdict modem sys_now _ hv
  rw [hw, if_neg (by decide), Nat.mod_eq_of_lt hnw]
  by_cases ht : modem.command.start_time + modem.command.timeout < sys_now
  · rw [if_pos ht]
    refine ⟨_, rfl, fun _ => ⟨?_, rfl⟩, fun h => absurd ht (by omega)⟩
    exact wrap_int8_id _ (by omega) (by omega)
  · rw [if_neg ht]
    exact ⟨_, rfl, fun h => absurd h ht, fun _ => ⟨rfl, rfl⟩⟩

/-- Instance of C22: the echo-off command (timeout 500, two attempts) with
`start_time = 0` and an empty ring, polled at 501 and at 500. -/
theorem command_wait_timeout_witness :
    (∃ r, pppos_command_wait sample_ate0 501 = some r ∧
      r.1.command.try_count = sample_ate0.command.try_count - 1 ∧
      r.2 = [.sys_timeout 0 .pppos_command_execute]) ∧
    (∃ r, pppos_command_wait sample_ate0 500 = some r ∧
      r.1.command.try_count = sample_ate0.command.try_count ∧
      r.2 = [.sys_timeout 10 .pppos_command_wait]) := by
  constructor
  · obtain ⟨r, hr, h1, _⟩ :=
      command_wait_timeout sample_ate0 501 (by decide) (by decide) (by decide)
    exact ⟨r, hr, h1 (by decide)⟩
  · obtain ⟨r, hr, _, h2⟩ :=
      command_wait_timeout sample_ate0 500 (by decide) (by decide) (by decide)
    exact ⟨r, hr, h2 (by decide)⟩

/-- C22 as stated fails: the command of `START_CFUN` (timeout 500, one attempt)
is sent at 0 and polled at 500 with nothing received: `now - start_time` equals
the timeout, yet the wait is rescheduled and `try_count` is still 1; the poll
at 501 declares the timeout. -/
theorem command_wait_at_deadline :
    (exec_run (exec_start (descriptor_in .PPPOS_CHATSCRIPT_START_CFUN))
      [.timer 0, .timer 500]).map
        (fun s => (s.pending, s.modem.command.try_count, s.modem.command.start_time,
          s.modem.command.timeout, s.log.getLast?))
      = some (.pppos_command_wait, 1, 0, 500, some (.sys_timeout 10 .pppos_command_wait)) ∧
    500 - 0 ≥ 500 ∧
    (exec_run (exec_start (descriptor_in .PPPOS_CHATSCRIPT_START_CFUN))
      [.timer 0, .timer 501]).map
        (fun s => (s.pending, s.modem.command.try_count))
      = some (.pppos_command_execute, 0) := by
  decide

/-- C23, amended: whenever `pppos_command_execute` sends the command text (an
attempt is left), the calls are the write of the text and the scheduling of
`pppos_command_wait`, and the context it leaves has the ring cursor, the ring
count and the scratch position at 0, while `command_ack` and `command_ack_len`
are as they were before the call; they are cleared by
`pppos_command_run_with_check`, when the descriptor is created. -/
theorem command_execute_send_resets (modem : pppos_modem_t) (sys_now : Nat)
    (h0 : 0 < modem.command.try_count) :
    (∃ r, pppos_command_execute modem sys_now = some r ∧
      r.2 = [.sio_write modem.command.cmd, .sys_timeout 0 .pppos_command_wait] ∧
      r.1.buffer_cmd_ack_pos = 0 ∧ r.1.buffer_cmd_ack_count = 0 ∧ r.1.buffer_int_pos = 0 ∧
      r.1.command_ack = modem.command_ack ∧ r.1.command_ack_len = modem.command_ack_len) ∧
    (∀ callback cmd result error check try_count timeout success_state failure_state,
      (pppos_command_run_with_check modem callback cmd result error check try_count timeout
          success_state failure_state).1.command_ack = (fun _ => 0) ∧
      (pppos_command_run_with_check modem callback cmd result error check try_count timeout
          success_state failure_state).1.command_ack_len = 0) := by
  refine ⟨?_, fun _ _ _ _ _ _ _ _ _ => ⟨rfl, rfl⟩⟩
  rw [pppos_command_execute_send modem sys_now h0]
  exact ⟨_, rfl, rfl, rfl, rfl, rfl, rfl, rfl⟩

/-- Instance of C23: the first send of the echo-off command. -/
theorem command_execute_send_resets_witness :
    ∃ r, pppos_command_execute sample_ate0 7 = some r ∧
      r.2 = [.sio_write (cstr "ATE0\r\n"), .sys_timeout 0 .pppos_command_wait] ∧
      r.1.buffer_cmd_ack_pos = 0 ∧ r.1.buffer_cmd_ack_count = 0 ∧ r.1.buffer_int_pos = 0 ∧
      r.1.command_ack = sample_ate0.command_ack ∧
      r.1.command_ack_len = sample_ate0.command_ack_len :=
  (command_execute_send_resets sample_ate0 7 (by decide)).1

/-- C23 as stated fails: the echo-off command (two attempts) receives `X\r\n`
during its first attempt and times out; the send of the second attempt clears
ring and scratch position, but `command_ack` still holds `X\r\n`. With a custom
check on a command of two attempts, the registration answer of the first
attempt and the `OK` of the second make the check succeed. -/
theorem raw_ack_kept_over_retry :
    (exec_run (exec_start sample_ate0)
      [.timer 0, .rx (cstr "X\r\n"), .timer 501, .timer 502]).map
        (fun s => (s.pending, sio_writes s.log, s.modem.buffer_cmd_ack_pos,
          s.modem.buffer_cmd_ack_count, s.modem.buffer_int_pos))
      = some (.pppos_command_wait, [cstr "ATE0\r\n", cstr "ATE0\r\n"], 0, 0, 0) ∧
    (exec_run (exec_start sample_ate0)
      [.timer 0, .rx (cstr "X\r\n"), .timer 501, .timer 502]).map
        (fun s => (s.modem.command_ack_len, c_str s.modem.command_ack))
      = some (3, cstr "X\r\n") ∧
    (exec_run (exec_start sample_creg_two)
      [.timer 0, .rx (cstr "\r\n+CREG: 0,1\r\n"), .timer 501, .timer 502,
       .rx (cstr "\r\nOK\r\n"), .timer 510, .timer 511]).map
        (fun s => (s.pending, s.modem.state, s.modem.command.at_result,
          c_str s.modem.command_ack))
      = some (.pppos_state_interval, .PPPOS_CHATSCRIPT_START_CGDCONT, .at_result_success,
          cstr "\r\n+CREG: 0,1\r\n\r\nOK\r\n") := by
  decide

/-- C24: the scratch buffer holds two or more bytes, the last two being LF CR,
and has room for the byte; the byte LF arrives. `pppos_byte_process` then leaves
the scratch position at 2 with CR LF in the first two places, so that the bytes
held before are no longer part of the line, and completes no line: cursor,
count and both slots are as before. -/
theorem anomaly_resets_scratch (modem : pppos_modem_t) (data : Byte)
    (hpos : 2 ≤ modem.buffer_int_pos) (hroom : modem.buffer_int_pos < 128)
    (h3 : modem.buffer_int (modem.buffer_int_pos - 2) = 0x0A)
    (h2 : modem.buffer_int (modem.buffer_int_pos - 1) = 0x0D)
    (h1 : data = 0x0A) :
    ∃ modem', pppos_byte_process modem data = some modem' ∧
      modem'.buffer_int_pos = 2 ∧ modem'.buffer_int 0 = 0x0D ∧ modem'.buffer_int 1 = 0x0A ∧
      scratch_tail modem' = [0x0D, 0x0A] ∧
      modem'.buffer_cmd_ack_pos = modem.buffer_cmd_ack_pos ∧
      modem'.buffer_cmd_ack_count = modem.buffer_cmd_ack_count ∧
      modem'.buffer_cmd_ack = modem.buffer_cmd_ack := by
  subst h1
  unfold pppos_byte_process scratch_store
  rw [if_neg (by omega)]
  simp only []
  rw [line_check_eq]
  simp only [command_ack_store_buffer_int, command_ack_store_buffer_int_pos,
    command_ack_store_buffer_cmd_ack, command_ack_store_buffer_cmd_ack_pos,
    command_ack_store_buffer_cmd_ack_count]
  have e3 : modem.buffer_int_pos + 1 - 3 = modem.buffer_int_pos - 2 := by omega
  have e2 : modem.buffer_int_pos + 1 - 2 = modem.buffer_int_pos - 1 := by omega
  have e1 : modem.buffer_int_pos + 1 - 1 = modem.buffer_int_pos := by omega
  have c3 : arr_set modem.buffer_int modem.buffer_int_pos (0x0A : Byte)
      (modem.buffer_int_pos + 1 - 3) = 0x0A := by
    rw [e3]; unfold arr_set; rw [if_neg (by omega)]; exact h3
  have c2 : arr_set modem.buffer_int modem.buffer_int_pos (0x0A : Byte)
      (modem.buffer_int_pos + 1 - 2) = 0x0D := by
    rw [e2]; unfold arr_set; rw [if_neg (by omega)]; exact h2
  have c1 : arr_set modem.buffer_int modem.buffer_int_pos (0x0A : Byte)
      (modem.buffer_int_pos + 1 - 1) = 0x0A := by
    rw [e1]; unfold arr_set; rw [if_pos rfl]
  rw [if_pos ⟨by omega, c3, c2, c1⟩]
  refine ⟨_, rfl, rfl, ?_, ?_, ?_, ?_, ?_, ?_⟩
  · simp [arr_set]
  · simp [arr_set]
  · simp [scratch_tail, arr_set]
  · simp
  · simp
  · simp

/-- Instance of C24: after `AB`, LF and CR the byte LF arrives; and the line
that the assembler completes next, on `OK` CR LF, is CR LF `OK` CR LF. -/
theorem anomaly_resets_scratch_witness :
    (∃ modem', pppos_byte_process
        ((feed_bytes (pppos_modem_receive_reset modem_zero) (cstr "AB\n\r")).getD modem_zero)
        0x0A = some modem' ∧
      modem'.buffer_int_pos = 2 ∧ modem'.buffer_int 0 = 0x0D ∧ modem'.buffer_int 1 = 0x0A ∧
      scratch_tail modem' = [0x0D, 0x0A] ∧
      modem'.buffer_cmd_ack_pos = 0 ∧ modem'.buffer_cmd_ack_count = 0 ∧
      modem'.buffer_cmd_ack = fun _ _ => 0) ∧
    (feed_bytes (pppos_modem_receive_reset modem_zero) (cstr "AB\n\r\nOK\r\n")).map
        (fun m => (m.buffer_cmd_ack_count, c_str (m.buffer_cmd_ack 0)))
      = some (1, cstr "\r\nOK\r\n") :=
  ⟨anomaly_resets_scratch
      ((feed_bytes (pppos_modem_receive_reset modem_zero) (cstr "AB\n\r")).getD modem_zero)
      0x0A (by decide) (by decide) (by decide) (by decide) rfl,
   by decide⟩

/-! ## Raw acknowledgment -/

/-- What one byte does to the raw acknowledgment: `line_check` and the scratch
store leave it alone, so it is what `command_ack_store` made of it. -/
theorem pppos_byte_process_command_ack (modem modem' : pppos_modem_t) (data : Byte)
    (h : pppos_byte_process modem data = some modem') :
    modem'.command_ack =
        (if modem.command_ack_len + 1 < 128 then
          arr_set modem.command_ack modem.command_ack_len data
        else modem.command_ack) ∧
    modem'.command_ack_len =
        (if modem.command_ack_len + 1 < 128 then modem.command_ack_len + 1
        else modem.command_ack_len) := by
  unfold pppos_byte_process scratch_store at h
  by_cases hp : 128 ≤ modem.buffer_int_pos
  · rw [if_pos hp] at h
    cases h
  · rw [if_neg hp] at h
    simp only [] at h
    have hstore : ∀ m : pppos_modem_t, m.command_ack = modem.command_ack →
        m.command_ack_len = modem.command_ack_len →
        (command_ack_store m data).command_ack =
          (if modem.command_ack_len + 1 < 128 then
            arr_set modem.command_ack modem.command_ack_len data
          else modem.command_ack) ∧
        (command_ack_store m data).command_ack_len =
          (if modem.command_ack_len + 1 < 128 then modem.command_ack_len + 1
          else modem.command_ack_len) := by
      intro m h1 h2
      unfold command_ack_store
      rw [h2]
      split
      · exact ⟨by simp [h1, h2], rfl⟩
      · exact ⟨h1, h2⟩
    have hcheck : ∀ m m' : pppos_modem_t, line_check m = some m' →
        m'.command_ack = m.command_ack ∧ m'.command_ack_len = m.command_ack_len := by
      intro m m' hm
      unfold line_check at hm
      split at hm
      · simp only [] at hm
        split at hm
        · cases hm; exact ⟨rfl, rfl⟩
        · split at hm
          · unfold line_complete at hm
            split at hm
            · cases hm
            · cases hm; exact ⟨rfl, rfl⟩
          · cases hm; exact ⟨rfl, rfl⟩
      · cases hm; exact ⟨rfl, rfl⟩
    obtain ⟨c1, c2⟩ := hcheck _ _ h
    obtain ⟨s1, s2⟩ := hstore
      { modem with
        buffer_int := arr_set modem.buffer_int modem.buffer_int_pos data
        buffer_int_pos := modem.buffer_int_pos + 1 } rfl rfl
    exact ⟨c1.trans s1, c2.trans s2⟩

/-- The raw acknowledgment after a chunk: the bytes are appended from
`command_ack_len` on, as long as the last place of the array stays free. -/
theorem feed_bytes_command_ack (bs : List Byte) :
    ∀ modem modem' : pppos_modem_t, modem.command_ack_len ≤ 127 →
      feed_bytes modem bs = some modem' →
      modem'.command_ack_len = min (modem.command_ack_len + bs.length) 127 ∧
      ∀ j, modem'.command_ack j =
        if modem.command_ack_len ≤ j ∧ j < min (modem.command_ack_len + bs.length) 127 then
          bs.getD (j - modem.command_ack_len) 0
        else modem.command_ack j := by
  induction bs with
  | nil =>
    intro modem modem' hlen h
    simp only [feed_bytes, Option.some.injEq] at h
    subst h
    refine ⟨by simp; omega, fun j => ?_⟩
    rw [if_neg]
    simp only [List.length_nil, Nat.add_zero]
    omega
  | cons b bs ih =>
    intro modem modem' hlen h
    rw [feed_bytes] at h
    cases hstep : pppos_byte_process modem b with
    | none => simp [hstep] at h
    | some m1 =>
      simp only [hstep] at h
      obtain ⟨ha, hl⟩ := pppos_byte_process_command_ack modem m1 b hstep
      by_cases hroom : modem.command_ack_len + 1 < 128
      · rw [if_pos hroom] at ha hl
        obtain ⟨i1, i2⟩ := ih m1 modem' (by omega) h
        rw [hl] at i1 i2
        refine ⟨by rw [i1]; simp only [List.length_cons]; omega, fun j => ?_⟩
        rw [i2 j, ha]
        simp only [List.length_cons]
        by_cases hj : j = modem.command_ack_len
        · subst hj
          rw [if_neg (by omega), if_pos (by omega)]
          simp [arr_set]
        · by_cases hj2 : modem.command_ack_len + 1 ≤ j ∧
              j < min (modem.command_ack_len + 1 + bs.length) 127
          · rw [if_pos hj2, if_pos (by omega)]
            have : j - modem.command_ack_len = (j - (modem.command_ack_len + 1)) + 1 := by
              omega
            rw [this, List.getD_cons_succ]
          · rw [if_neg hj2, if_neg (by omega)]
            simp [arr_set, hj]
      · rw [if_neg hroom] at ha hl
        obtain ⟨i1, i2⟩ := ih m1 modem' (by omega) h
        rw [hl] at i1 i2
        refine ⟨by rw [i1]; simp only [List.length_cons]; omega, fun j => ?_⟩
        rw [i2 j, ha, if_neg (by omega), if_neg (by omega)]

/-- C25: a descriptor is created and `n` bytes are then fed through
`pppos_byte_process` (the feed having a defined result, as it has whenever the
scratch buffer is not overrun): `command_ack` holds the first `min(n, 127)` of
the bytes followed by NUL bytes, and `command_ack_len` is `min(n, 127)`. A
byte that arrives when `command_ack_len` is 127 leaves both unchanged. A feed
that fits the free part of the scratch buffer has a defined result. -/
theorem command_ack_capped (modem : pppos_modem_t) (callback : sys_timeout_handler)
    (cmd : List Byte) (result error : Option (List Byte))
    (check : Option pppos_command_result_check) (try_count : Int) (timeout : Nat)
    (success_state failure_state : PPPOS_ChatscriptState) (bs : List Byte) :
    (∀ modem', feed_bytes (pppos_command_run_with_check modem callback cmd result error check
          try_count timeout success_state failure_state).1 bs = some modem' →
      modem'.command_ack = arr_of_list (bs.take 127) ∧
      modem'.command_ack_len = min bs.length 127 ∧
      modem'.command_ack (min bs.length 127) = 0 ∧
      ∀ data modem'', 127 ≤ bs.length → pppos_byte_process modem' data = some modem'' →
        modem''.command_ack = modem'.command_ack ∧
        modem''.command_ack_len = modem'.command_ack_len) ∧
    (modem.buffer_int_pos + bs.length < 128 →
      ∃ modem', feed_bytes (pppos_command_run_with_check modem callback cmd result error check
          try_count timeout success_state failure_state).1 bs = some modem') := by
  constructor
  · intro modem' h
    obtain ⟨h1, h2⟩ := feed_bytes_command_ack bs _ modem' (by
      show (0 : Nat) ≤ 127
      omega) h
    have hl0 : (pppos_command_run_with_check modem callback cmd result error check
          try_count timeout success_state failure_state).1.command_ack_len = 0 := rfl
    have ha0 : ∀ j, (pppos_command_run_with_check modem callback cmd result error check
          try_count timeout success_state failure_state).1.command_ack j = 0 := fun _ => rfl
    rw [hl0] at h1 h2
    simp only [Nat.zero_add, Nat.zero_le, true_and, Nat.sub_zero] at h1 h2
    have hall : ∀ j, modem'.command_ack j = arr_of_list (bs.take 127) j := by
      intro j
      rw [h2 j, ha0 j]
      unfold arr_of_list
      by_cases hj : j < min bs.length 127
      · rw [if_pos hj]
        rw [List.getD_eq_getElem?_getD, List.getD_eq_getElem?_getD, List.getElem?_take]
        rw [if_pos (by omega)]
      · rw [if_neg hj]
        rw [List.getD_eq_getElem?_getD, List.getElem?_eq_none (by simp; omega)]
        rfl
    refine ⟨funext hall, h1, ?_, ?_⟩
    · rw [h2, ha0, if_neg (by omega)]
    · intro data modem'' hn hstep
      obtain ⟨ha, hl⟩ := pppos_byte_process_command_ack modem' modem'' data hstep
      have : ¬ modem'.command_ack_len + 1 < 128 := by rw [h1]; omega
      rw [if_neg this] at ha hl
      exact ⟨ha, hl⟩
  · intro hlen
    obtain ⟨m', h, _⟩ := feed_bytes_defined bs (pppos_command_run_with_check modem callback
      cmd result error check try_count timeout success_state failure_state).1 hlen
    exact ⟨m', h⟩

/-- Instance of C25: the echo-off descriptor is created on a zeroed context and
fifty lines `AB` CR LF, 200 bytes, are fed: the feed has a defined result, the
raw acknowledgment holds the first 127 bytes and its length is 127. -/
theorem command_ack_capped_witness :
    ∃ modem', feed_bytes sample_ate0 (repeat_bytes 50 (cstr "AB\r\n")) = some modem' ∧
      modem'.command_ack = arr_of_list ((repeat_bytes 50 (cstr "AB\r\n")).take 127) ∧
      modem'.command_ack_len = 127 ∧ modem'.command_ack 127 = 0 := by
  have hd : (feed_bytes sample_ate0 (repeat_bytes 50 (cstr "AB\r\n"))).isSome = true := by
    set_option maxRecDepth 100000 in decide
  obtain ⟨m', hm'⟩ := Option.isSome_iff_exists.mp hd
  obtain ⟨h1, h2, h3, _⟩ := (command_ack_capped modem_zero .pppos_state_interval
    (cstr "ATE0\r\n") (some (cstr "OK\r\n")) none none 2 500
    .PPPOS_CHATSCRIPT_START_CFUN .PPPOS_CHATSCRIPT_BEGIN
    (repeat_bytes 50 (cstr "AB\r\n"))).1 m' hm'
  have hmin : min (repeat_bytes 50 (cstr "AB\r\n")).length 127 = 127 := by
    set_option maxRecDepth 100000 in decide
  rw [hmin] at h2 h3
  exact ⟨m', hm', h1, h2, h3⟩

/-! ## Attempts of a command never increase -/

/-- One step of the executor keeps `attempts_inv`, does not increase
`try_count` and does not take it below 0 from a value that is not below 0. -/
theorem exec_step_attempts (s s' : exec_state) (e : exec_event)
    (hinv : attempts_inv s) (hstep : exec_step s e = some s') :
    attempts_inv s' ∧ s'.modem.command.try_count ≤ s.modem.command.try_count ∧
      (0 ≤ s.modem.command.try_count → 0 ≤ s'.modem.command.try_count) := by
  obtain ⟨hcb, hlo, hhi, hwait⟩ := hinv
  cases e with
  | rx chunk =>
    obtain ⟨⟨c1, _⟩, hp, _⟩ := exec_step_rx s s' chunk hstep
    unfold attempts_inv
    rw [c1, hp]
    exact ⟨⟨hcb, hlo, hhi, hwait⟩, le_refl _, fun h => h⟩
  | timer now =>
    unfold exec_step at hstep
    simp only [] at hstep
    split at hstep
    · -- pppos_command_execute
      by_cases h0 : s.modem.command.try_count ≤ 0
      · rw [pppos_command_execute_eval s.modem now h0] at hstep
        cases hv : final_verdict s.modem with
        | none => simp [hv] at hstep
        | some v =>
          simp only [hv, Option.map_some', Option.some.injEq] at hstep
          subst hstep
          refine ⟨⟨hcb, hlo, hhi, ?_⟩, le_refl _, fun h => h⟩
          intro hp
          simp [exec_after, scheduled, hcb] at hp
      · rw [pppos_command_execute_send s.modem now (by omega)] at hstep
        simp only [Option.map_some', Option.some.injEq] at hstep
        subst hstep
        refine ⟨⟨hcb, hlo, hhi, fun _ => ?_⟩, le_refl _, fun h => h⟩
        show 1 ≤ s.modem.command.try_count
        omega
    · -- pppos_command_wait
      rename_i hpend
      have h1 := hwait hpend
      cases hw : pppos_command_wait s.modem now with
      | none => simp [hw] at hstep
      | some r =>
        obtain ⟨v, hv⟩ := pppos_command_wait_polls s.modem now r hw
        obtain ⟨pos, hw'⟩ := pppos_command_wait_verdict s.modem now v hv
        rw [hw] at hstep hw'
        simp only [Option.map_some', Option.some.injEq] at hstep
        subst hstep
        split at hw'
        · cases hw'
          refine ⟨⟨hcb, by show (-128 : Int) ≤ 0; omega, by show (0 : Int) ≤ 127; omega, ?_⟩,
            by show (0 : Int) ≤ s.modem.command.try_count; omega, fun _ => le_refl _⟩
          intro hp
          simp [exec_after, scheduled] at hp
        · split at hw'
          · cases hw'
            have hwrap : wrap_int8 (s.modem.command.try_count - 1)
                = s.modem.command.try_count - 1 := wrap_int8_id _ (by omega) (by omega)
            refine ⟨⟨hcb, ?_, ?_, ?_⟩, ?_, fun _ => ?_⟩
            · show -128 ≤ wrap_int8 (s.modem.command.try_count - 1)
              rw [hwrap]; omega
            · show wrap_int8 (s.modem.command.try_count - 1) ≤ 127
              rw [hwrap]; omega
            · intro hp
              simp [exec_after, scheduled] at hp
            · show wrap_int8 (s.modem.command.try_count - 1) ≤ s.modem.command.try_count
              rw [hwrap]; omega
            · show 0 ≤ wrap_int8 (s.modem.command.try_count - 1)
              rw [hwrap]; omega
          · cases hw'
            exact ⟨⟨hcb, hlo, hhi, fun _ => h1⟩, le_refl _, fun h => h⟩
    · simp only [Option.some.injEq] at hstep
      subst hstep
      exact ⟨⟨hcb, hlo, hhi, hwait⟩, le_refl _, fun h => h⟩

/-- A run of the executor keeps `attempts_inv`, does not increase `try_count`
and does not take it below 0 from a value that is not below 0. -/
theorem exec_run_attempts (evs : List exec_event) :
    ∀ s s' : exec_state, attempts_inv s → exec_run s evs = some s' →
      attempts_inv s' ∧ s'.modem.command.try_count ≤ s.modem.command.try_count ∧
        (0 ≤ s.modem.command.try_count → 0 ≤ s'.modem.command.try_count) := by
  induction evs with
  | nil =>
    intro s s' hinv hrun
    simp only [exec_run, Option.some.injEq] at hrun
    subst hrun
    exact ⟨hinv, le_refl _, fun h => h⟩
  | cons e es ih =>
    intro s s' hinv hrun
    rw [exec_run] at hrun
    cases hstep : exec_step s e with
    | none => simp [hstep] at hrun
    | some s1 =>
      simp only [hstep] at hrun
      obtain ⟨i1, m1, n1⟩ := exec_step_attempts s s1 e hinv hstep
      obtain ⟨i2, m2, n2⟩ := ih s1 s' i1 hrun
      exact ⟨i2, le_trans m2 m1, fun h => n2 (n1 h)⟩

/-- C26: a descriptor is created with `N` attempts (an `int8_t`) and the
controller as completion callback. In every run of receive and timer events of
the executor from there, `try_count` is at most `N`; every further step
(`pppos_command_execute`, `pppos_command_wait` or a received chunk) leaves
`try_count` as it is or lowers it; and if `N` is not negative, `try_count` is
not negative, before and after that step. -/
theorem try_count_never_increases (modem : pppos_modem_t) (cmd : List Byte)
    (result error : Option (List Byte)) (check : Option pppos_command_result_check)
    (N : Int) (timeout : Nat) (success_state failure_state : PPPOS_ChatscriptState)
    (hN : -128 ≤ N ∧ N ≤ 127) (evs : List exec_event) (s : exec_state)
    (hrun : exec_run (exec_start (pppos_command_run_with_check modem .pppos_state_interval
      cmd result error check N timeout success_state failure_state).1) evs = some s) :
    s.modem.command.try_count ≤ N ∧ (0 ≤ N → 0 ≤ s.modem.command.try_count) ∧
    ∀ e s', exec_step s e = some s' →
      s'.modem.command.try_count ≤ s.modem.command.try_count ∧
      (0 ≤ N → 0 ≤ s'.modem.command.try_count) := by
  have h0 : attempts_inv (exec_start (pppos_command_run_with_check modem .pppos_state_interval
      cmd result error check N timeout success_state failure_state).1) :=
    ⟨rfl, hN.1, hN.2, fun h => by simp [exec_start] at h⟩
  obtain ⟨hinv, hle, hnn⟩ := exec_run_attempts evs _ s h0 hrun
  refine ⟨hle, hnn, fun e s' hstep => ?_⟩
  obtain ⟨_, m1, n1⟩ := exec_step_attempts s s' e hinv hstep
  exact ⟨m1, fun h => n1 (hnn h)⟩

/-- Instance of C26: the echo-off command (two attempts) after its first
timeout: `try_count` is 1, and the timer event that follows, the second send,
leaves it at 1. -/
theorem try_count_never_increases_witness :
    (exec_run (exec_start sample_ate0) [.timer 0, .timer 501]).map
        (fun s => s.modem.command.try_count) = some 1 ∧
    (((exec_run (exec_start sample_ate0) [.timer 0, .timer 501]).getD
        (exec_start sample_ate0)).modem.command.try_count ≤ 2 ∧
      (0 ≤ (2 : Int) →
        0 ≤ ((exec_run (exec_start sample_ate0) [.timer 0, .timer 501]).getD
          (exec_start sample_ate0)).modem.command.try_count)) := by
  refine ⟨by decide, ?_⟩
  have h := try_count_never_increases modem_zero (cstr "ATE0\r\n") (some (cstr "OK\r\n")) none
    none 2 500 .PPPOS_CHATSCRIPT_START_CFUN .PPPOS_CHATSCRIPT_BEGIN (by decide)
    [.timer 0, .timer 501]
    ((exec_run (exec_start sample_ate0) [.timer 0, .timer 501]).getD (exec_start sample_ate0))
    (exec_run_getD (exec_start sample_ate0) _ (by decide))
  exact ⟨h.1, h.2.1⟩

/-! ## State changes of a connected tick -/

/-- `phase_observe` where it does not restart the chat script: the state is
kept, and the engine is called only for the connect request. -/
theorem phase_observe_keeps (modem : pppos_modem_t) (env : tick_env)
    (h : ¬ link_dropped modem env) :
    (phase_observe modem env).1.state = modem.state ∧
    ((phase_observe modem env).2.1 = [] ∨ (phase_observe modem env).2.1 = [.ppp_connect]) ∧
    ((phase_observe modem env).2.1 = [] → (phase_observe modem env).2.2 = env.ppp_phase) := by
  unfold link_dropped at h
  unfold phase_observe
  simp only []
  by_cases hdiff : env.ppp_phase ≠ modem.phase_saved
  · rw [if_pos hdiff]
    by_cases hdead : env.ppp_phase = PPP_PHASE_DEAD ∨ env.ppp_phase = PPP_PHASE_TERMINATE
    · rw [if_pos hdead]
      have hs : modem.phase_saved = 0xFF := by
        by_contra hs
        exact h ⟨hdiff, hdead, hs⟩
      rw [if_pos hs]
      exact ⟨rfl, Or.inr rfl, fun h => by cases h⟩
    · rw [if_neg hdead]
      split <;> exact ⟨rfl, Or.inl rfl, fun _ => rfl⟩
  · rw [if_neg hdiff]
    exact ⟨rfl, Or.inl rfl, fun _ => rfl⟩

/-- `phase_supervise` when the engine is running and a reconnect is reported. -/
theorem phase_supervise_reconnect (modem : pppos_modem_t) (env : tick_env)
    (hrec : env.sio_reconnected ≠ 0) :
    phase_supervise modem PPP_PHASE_RUNNING env =
      ({ modem with phase_saved := 0xFF, state := .PPPOS_CHATSCRIPT_START_ATE0 },
        [.ppp_close]) := by
  unfold phase_supervise
  simp only []
  rw [if_neg (by simp), if_pos hrec]

/-- C28: a tick in state `ON_CONNECT` ends with the rescheduling of the
controller after 200, its only `sys_timeout`, after at most one `ppp_connect`
and one `ppp_close`. The state after the tick is `BEGIN` exactly when the phase
changed to dead or terminating with a phase recorded before; it is `START_ATE0`
(EchoOff) exactly when the engine is found running (by the second statement,
which reads the phase again) and the serial channel reports a reconnect; in
every other case it is `ON_CONNECT`. The phase read by the second statement is
the phase on entry unless `ppp_connect` was called. -/
theorem connected_tick_state (modem : pppos_modem_t) (env : tick_env)
    (hstate : modem.state = .PPPOS_CHATSCRIPT_ON_CONNECT) :
    (∃ calls, (pppos_state_interval modem env).2
        = calls ++ [.sys_timeout 200 .pppos_state_interval] ∧
      (calls = [] ∨ calls = [.ppp_connect] ∨ calls = [.ppp_close] ∨
        calls = [.ppp_connect, .ppp_close])) ∧
    ((pppos_state_interval modem env).1.state = .PPPOS_CHATSCRIPT_BEGIN ↔
      link_dropped modem env) ∧
    ((pppos_state_interval modem env).1.state = .PPPOS_CHATSCRIPT_START_ATE0 ↔
      (phase_supervised modem env = PPP_PHASE_RUNNING ∧ env.sio_reconnected ≠ 0)) ∧
    (¬ link_dropped modem env →
      ¬ (phase_supervised modem env = PPP_PHASE_RUNNING ∧ env.sio_reconnected ≠ 0) →
      (pppos_state_interval modem env).1.state = .PPPOS_CHATSCRIPT_ON_CONNECT) ∧
    (Effect.ppp_connect ∉ (pppos_state_interval modem env).2 →
      phase_supervised modem env = env.ppp_phase) := by
  rw [pppos_state_interval_connected modem env hstate]
  unfold pppos_state_on_connect phase_supervised
  simp only []
  by_cases hdrop : link_dropped modem env
  · -- the chat script restarts
    obtain ⟨hdiff, hdead, hs⟩ := hdrop
    have hnr : env.ppp_phase ≠ PPP_PHASE_RUNNING := by
      rcases hdead with h | h <;> rw [h] <;> decide
    rw [phase_observe_drop modem env hdiff hdead hs]
    simp only []
    obtain ⟨h1, _⟩ := phase_supervise_state
      { modem with phase_saved := 0xFF, state := .PPPOS_CHATSCRIPT_BEGIN }
      env.ppp_phase env (Or.inl hnr)
    have hcalls := phase_supervise_calls
      { modem with phase_saved := 0xFF, state := .PPPOS_CHATSCRIPT_BEGIN } env.ppp_phase env
    refine ⟨?_, ?_, ?_, ?_, fun _ => trivial⟩
    · rcases hcalls with h | h
      · exact ⟨[], by rw [h]; rfl, Or.inl rfl⟩
      · exact ⟨[.ppp_close], by rw [h]; rfl, Or.inr (Or.inr (Or.inl rfl))⟩
    · rw [h1]
      exact Iff.intro (fun _ => ⟨hdiff, hdead, hs⟩) (fun _ => rfl)
    · rw [h1]
      exact Iff.intro (fun h => nomatch h) (fun h => absurd h.1 hnr)
    · intro h
      exact absurd ⟨hdiff, hdead, hs⟩ h
  · -- the first statement keeps the state
    obtain ⟨k1, k2, k3⟩ := phase_observe_keeps modem env hdrop
    have hcalls := phase_supervise_calls (phase_observe modem env).1
      (phase_observe modem env).2.2 env
    have hfirst : (∃ calls, (phase_observe modem env).2.1 ++
          (phase_supervise (phase_observe modem env).1 (phase_observe modem env).2.2 env).2 ++
          [.sys_timeout 200 .pppos_state_interval]
        = calls ++ [.sys_timeout 200 .pppos_state_interval] ∧
      (calls = [] ∨ calls = [.ppp_connect] ∨ calls = [.ppp_close] ∨
        calls = [.ppp_connect, .ppp_close])) := by
      rcases k2 with a | a <;> rcases hcalls with b | b <;> rw [a, b]
      · exact ⟨[], rfl, Or.inl rfl⟩
      · exact ⟨[.ppp_close], rfl, Or.inr (Or.inr (Or.inl rfl))⟩
      · exact ⟨[.ppp_connect], rfl, Or.inr (Or.inl rfl)⟩
      · exact ⟨[.ppp_connect, .ppp_close], rfl, Or.inr (Or.inr (Or.inr rfl))⟩
    have hlast : Effect.ppp_connect ∉ (phase_observe modem env).2.1 ++
          (phase_supervise (phase_observe modem env).1 (phase_observe modem env).2.2 env).2 ++
          [.sys_timeout 200 .pppos_state_interval] →
        (phase_observe modem env).2.2 = env.ppp_phase := by
      intro hno
      rcases k2 with a | a
      · exact k3 a
      · rw [a] at hno
        simp at hno
    by_cases hre : (phase_observe modem env).2.2 = PPP_PHASE_RUNNING ∧ env.sio_reconnected ≠ 0
    · obtain ⟨hrun, hrec⟩ := hre
      have hsup : (phase_supervise (phase_observe modem env).1
          (phase_observe modem env).2.2 env).1.state = .PPPOS_CHATSCRIPT_START_ATE0 := by
        rw [hrun, phase_supervise_reconnect _ env hrec]
      refine ⟨hfirst, ?_, ?_, ?_, hlast⟩
      · rw [hsup]
        exact Iff.intro (fun h => nomatch h) (fun h => absurd h hdrop)
      · rw [hsup]
        exact Iff.intro (fun _ => ⟨hrun, hrec⟩) (fun _ => rfl)
      · intro _ h
        exact absurd ⟨hrun, hrec⟩ h
    · have hsup : (phase_supervise (phase_observe modem env).1
          (phase_observe modem env).2.2 env).1.state = .PPPOS_CHATSCRIPT_ON_CONNECT := by
        have hor : (phase_observe modem env).2.2 ≠ PPP_PHASE_RUNNING ∨
            env.sio_reconnected = 0 := by
          by_cases hr : (phase_observe modem env).2.2 = PPP_PHASE_RUNNING
          · right
            by_contra h0
            exact hre ⟨hr, h0⟩
          · exact Or.inl hr
        rw [(phase_supervise_state _ _ env hor).1, k1]
        exact hstate
      refine ⟨hfirst, ?_, ?_, ?_, hlast⟩
      · rw [hsup]
        exact Iff.intro (fun h => nomatch h) (fun h => absurd h hdrop)
      · rw [hsup]
        exact Iff.intro (fun h => nomatch h) (fun h => absurd h hre)
      · intro _ _
        exact hsup

/-- Instances of C28: a terminating engine after the running phase was recorded
(back to `BEGIN`); a running engine with a reconnect reported (to `START_ATE0`);
an engine still establishing past its deadline, with a reconnect reported
(`ppp_close`, the state stays `ON_CONNECT`); a dead engine that is still dead
after the connect request (the state stays `ON_CONNECT`). -/
theorem connected_tick_state_witness :
    (pppos_state_interval (modem_connected 10) ⟨100, 11, 11, 0⟩).1.state
      = .PPPOS_CHATSCRIPT_BEGIN ∧
    (pppos_state_interval (modem_connected 10) ⟨100, 10, 10, 1⟩).1.state
      = .PPPOS_CHATSCRIPT_START_ATE0 ∧
    ((pppos_state_interval (modem_connected 6) ⟨5000, 6, 6, 1⟩).1.state
        = .PPPOS_CHATSCRIPT_ON_CONNECT ∧
      (pppos_state_interval (modem_connected 6) ⟨5000, 6, 6, 1⟩).2
        = [.ppp_close, .sys_timeout 200 .pppos_state_interval]) ∧
    ((pppos_state_interval (modem_connected 0xFF) ⟨100, 0, 0, 0⟩).1.state
        = .PPPOS_CHATSCRIPT_ON_CONNECT ∧
      (pppos_state_interval (modem_connected 0xFF) ⟨100, 0, 0, 0⟩).2
        = [.ppp_connect, .sys_timeout 200 .pppos_state_interval]) :=
  ⟨(connected_tick_state (modem_connected 10) ⟨100, 11, 11, 0⟩ rfl).2.1.mpr
      (by unfold link_dropped; decide),
   (connected_tick_state (modem_connected 10) ⟨100, 10, 10, 1⟩ rfl).2.2.1.mpr (by decide),
   ⟨(connected_tick_state (modem_connected 6) ⟨5000, 6, 6, 1⟩ rfl).2.2.2.1
      (by unfold link_dropped; decide) (by decide), by decide⟩,
   ⟨(connected_tick_state (modem_connected 0xFF) ⟨100, 0, 0, 0⟩ rfl).2.2.2.1
      (by unfold link_dropped; decide) (by decide), by decide⟩⟩



/-! ## The whole core under the scheduler -/

theorem timeouts_append (a b : List Effect) : timeouts (a ++ b) = timeouts a ++ timeouts b := by
  induction a with
  | nil => rfl
  | cons x xs ih =>
    cases x with
    | sys_timeout _ h => simp [timeouts, ih]
    | _ => simp [timeouts, ih]

/-- A received chunk changes only the buffers of the receive path and
schedules nothing. -/
theorem pppos_input_connect_frame (modem : pppos_modem_t) (chunk : List Byte)
    (r : pppos_modem_t × List Effect) (h : pppos_input_connect modem chunk = some r) :
    same_control r.1 modem ∧ timeouts r.2 = [] := by
  unfold pppos_input_connect at h
  split at h
  · cases hf : feed_bytes modem chunk with
    | none => simp [hf] at h
    | some m1 =>
      simp only [hf, Option.some.injEq] at h
      subst h
      exact ⟨feed_bytes_frame chunk modem m1 hf, rfl⟩
  · simp only [Option.some.injEq] at h
    subst h
    exact ⟨⟨rfl, rfl, rfl, rfl, rfl, rfl⟩, rfl⟩

/-- `pppos_rx_interval` changes only the buffers of the receive path and
schedules itself, once. -/
theorem pppos_rx_interval_frame (chunks : List (List Byte)) :
    ∀ (modem : pppos_modem_t) (r : pppos_modem_t × List Effect),
      pppos_rx_interval modem chunks = some r →
      same_control r.1 modem ∧ timeouts r.2 = [.pppos_rx_interval] := by
  induction chunks with
  | nil =>
    intro modem r h
    simp only [pppos_rx_interval, Option.some.injEq] at h
    subst h
    exact ⟨⟨rfl, rfl, rfl, rfl, rfl, rfl⟩, rfl⟩
  | cons c cs ih =>
    intro modem r h
    rw [pppos_rx_interval] at h
    cases h1 : pppos_input_connect modem c with
    | none => simp [h1] at h
    | some r1 =>
      simp only [h1] at h
      cases h2 : pppos_rx_interval r1.1 cs with
      | none => simp [h2] at h
      | some r2 =>
        simp only [h2, Option.some.injEq] at h
        subst h
        obtain ⟨f1, t1⟩ := pppos_input_connect_frame modem c r1 h1
        obtain ⟨f2, t2⟩ := ih r1.1 r2 h2
        refine ⟨?_, by simp [timeouts_append, t1, t2]⟩
        obtain ⟨a1, a2, a3, a4, a5, a6⟩ := f1
        obtain ⟨b1, b2, b3, b4, b5, b6⟩ := f2
        exact ⟨b1.trans a1, b2.trans a2, b3.trans a3, b4.trans a4, b5.trans a5, b6.trans a6⟩

/-- The calls of `phase_observe`: at most a connect request. -/
theorem phase_observe_calls (modem : pppos_modem_t) (env : tick_env) :
    (phase_observe modem env).2.1 = [] ∨ (phase_observe modem env).2.1 = [.ppp_connect] := by
  unfold phase_observe
  simp only []
  split
  · split
    · split
      · exact Or.inr rfl
      · exact Or.inl rfl
    · split <;> exact Or.inl rfl
  · exact Or.inl rfl

/-- A tick in state `ON_CONNECT` that leaves the state resets the snapshot. -/
theorem connected_exit_resets (modem : pppos_modem_t) (env : tick_env)
    (hstate : modem.state = .PPPOS_CHATSCRIPT_ON_CONNECT)
    (hexit : (pppos_state_interval modem env).1.state ≠ .PPPOS_CHATSCRIPT_ON_CONNECT) :
    (pppos_state_interval modem env).1.phase_saved = 0xFF := by
  rw [pppos_state_interval_connected modem env hstate] at hexit ⊢
  unfold pppos_state_on_connect at hexit ⊢
  simp only [] at hexit ⊢
  by_cases hdrop : link_dropped modem env
  · obtain ⟨hdiff, hdead, hs⟩ := hdrop
    have hnr : env.ppp_phase ≠ PPP_PHASE_RUNNING := by
      rcases hdead with h | h <;> rw [h] <;> decide
    rw [phase_observe_drop modem env hdiff hdead hs]
    exact (phase_supervise_state _ env.ppp_phase env (Or.inl hnr)).2
  · obtain ⟨k1, _, _⟩ := phase_observe_keeps modem env hdrop
    by_cases hre : (phase_observe modem env).2.2 = PPP_PHASE_RUNNING ∧ env.sio_reconnected ≠ 0
    · obtain ⟨hrun, hrec⟩ := hre
      rw [hrun, phase_supervise_reconnect _ env hrec]
    · have hor : (phase_observe modem env).2.2 ≠ PPP_PHASE_RUNNING ∨
          env.sio_reconnected = 0 := by
        by_cases hr : (phase_observe modem env).2.2 = PPP_PHASE_RUNNING
        · right
          by_contra h0
          exact hre ⟨hr, h0⟩
        · exact Or.inl hr
      exfalso
      apply hexit
      rw [(phase_supervise_state _ _ env hor).1, k1]
      exact hstate

/-- What a call of `pppos_state_interval` schedules: one timeout, of itself or,
when it created a descriptor, of `pppos_command_execute`; a descriptor has the
controller as completion callback and is created outside the connected state;
outside the connected state the snapshot stays `0xFF`. -/
theorem pppos_state_interval_schedules (modem : pppos_modem_t) (env : tick_env) :
    (timeouts (pppos_state_interval modem env).2 = [.pppos_state_interval] ∨
      (timeouts (pppos_state_interval modem env).2 = [.pppos_command_execute] ∧
        (pppos_state_interval modem env).1.command.callback = .pppos_state_interval ∧
        (pppos_state_interval modem env).1.state ≠ .PPPOS_CHATSCRIPT_ON_CONNECT)) ∧
    ((modem.state ≠ .PPPOS_CHATSCRIPT_ON_CONNECT → modem.phase_saved = 0xFF) →
      (pppos_state_interval modem env).1.state ≠ .PPPOS_CHATSCRIPT_ON_CONNECT →
      (pppos_state_interval modem env).1.phase_saved = 0xFF) := by
  cases hst : modem.state with
  | PPPOS_CHATSCRIPT_ON_CONNECT =>
    constructor
    · left
      rw [pppos_state_interval_connected modem env hst]
      unfold pppos_state_on_connect
      simp only []
      rcases phase_observe_calls modem env with a | a <;>
        rcases phase_supervise_calls (phase_observe modem env).1
          (phase_observe modem env).2.2 env with b | b <;>
        rw [a, b] <;> rfl
    · intro _ hexit
      exact connected_exit_resets modem env hst hexit
  | _ =>
    unfold pppos_state_interval
    rw [hst]
    refine ⟨?_, fun hinv _ => hinv (by decide)⟩
    simp [pppos_command_run, pppos_command_run_with_check, timeouts, hst]

/-- What a call of `pppos_command_execute` schedules: the completion callback
when no attempt is left, `pppos_command_wait` after a send, which keeps the
chat-script state; the callback and the snapshot are kept. -/
theorem pppos_command_execute_schedules (modem : pppos_modem_t) (sys_now : Nat)
    (r : pppos_modem_t × List Effect) (h : pppos_command_execute modem sys_now = some r) :
    r.1.command.callback = modem.command.callback ∧ r.1.phase_saved = modem.phase_saved ∧
    ((modem.command.try_count ≤ 0 ∧ timeouts r.2 = [modem.command.callback]) ∨
      (0 < modem.command.try_count ∧ timeouts r.2 = [.pppos_command_wait] ∧
        r.1.state = modem.state)) := by
  by_cases h0 : modem.command.try_count ≤ 0
  · rw [pppos_command_execute_eval modem sys_now h0] at h
    cases hv : final_verdict modem with
    | none => simp [hv] at h
    | some v =>
      simp only [hv, Option.map_some', Option.some.injEq] at h
      subst h
      exact ⟨rfl, rfl, Or.inl ⟨h0, rfl⟩⟩
  · rw [pppos_command_execute_send modem sys_now (by omega)] at h
    simp only [Option.some.injEq] at h
    subst h
    exact ⟨rfl, rfl, Or.inr ⟨by omega, rfl, rfl⟩⟩

/-- What a call of `pppos_command_wait` schedules: `pppos_command_execute` or
itself; callback, chat-script state and snapshot are kept. -/
theorem pppos_command_wait_schedules (modem : pppos_modem_t) (sys_now : Nat)
    (r : pppos_modem_t × List Effect) (h : pppos_command_wait modem sys_now = some r) :
    r.1.command.callback = modem.command.callback ∧ r.1.phase_saved = modem.phase_saved ∧
    r.1.state = modem.state ∧
    (timeouts r.2 = [.pppos_command_execute] ∨ timeouts r.2 = [.pppos_command_wait]) := by
  obtain ⟨v, hv⟩ := pppos_command_wait_polls modem sys_now r h
  obtain ⟨pos, hw⟩ := pppos_command_wait_verdict modem sys_now v hv
  rw [h] at hw
  split at hw
  · cases hw; exact ⟨rfl, rfl, rfl, Or.inl rfl⟩
  · split at hw
    · cases hw; exact ⟨rfl, rfl, rfl, Or.inl rfl⟩
    · cases hw; exact ⟨rfl, rfl, rfl, Or.inr rfl⟩

theorem count_after_expiry (timers : List sys_timeout_handler) (g h x : sys_timeout_handler) :
    (timers.erase g ++ [h]).count x =
      timers.count x - (if g = x then 1 else 0) + (if h = x then 1 else 0) := by
  rw [List.count_append, List.count_erase, List.count_singleton]
  simp only [beq_iff_eq]

theorem mem_iff_count (timers : List sys_timeout_handler) (x : sys_timeout_handler) :
    x ∈ timers ↔ 0 < timers.count x := List.count_pos_iff.symm

/-- One event keeps the invariant of the core; and when the handler is one of
the controller and the executor, it schedules exactly one timeout, again of
one of the three. -/
theorem core_step_inv (s s' : core_state) (e : core_event)
    (hinv : core_inv s) (hstep : core_step s e = some s') :
    core_inv s' ∧
    (e.handler ≠ .pppos_rx_interval →
      ∃ r h, run_handler s.modem e = some r ∧ timeouts r.2 = [h] ∧
        h ≠ .pppos_rx_interval) := by
  obtain ⟨hone, hexec, hsnap⟩ := hinv
  unfold chat_pending at hone
  unfold core_step at hstep
  by_cases hmem : e.handler ∈ s.timers
  · rw [if_pos hmem] at hstep
    cases hrun : run_handler s.modem e with
    | none => simp [hrun] at hstep
    | some r =>
      simp only [hrun, Option.some.injEq] at hstep
      subst hstep
      have hcount := (mem_iff_count s.timers e.handler).mp hmem
      have hex := mem_iff_count s.timers .pppos_command_execute
      have hwa := mem_iff_count s.timers .pppos_command_wait
      unfold run_handler at hrun
      unfold core_inv chat_pending
      simp only []
      cases hh : e.handler with
      | pppos_rx_interval =>
        rw [hh] at hrun hcount
        simp only [] at hrun
        obtain ⟨⟨c1, c2, _, _, c5, _⟩, ht⟩ := pppos_rx_interval_frame e.chunks s.modem r hrun
        refine ⟨⟨?_, ?_, ?_⟩, fun h => absurd rfl h⟩
        · rw [ht, count_after_expiry, count_after_expiry, count_after_expiry]
          simp only [reduceCtorEq, if_false]
          omega
        · rw [mem_iff_count, mem_iff_count, ht, count_after_expiry, count_after_expiry]
          simp only [reduceCtorEq, if_false, Nat.sub_zero, Nat.add_zero]
          intro h
          rw [← hex, ← hwa] at h
          rw [c1, c2]
          exact hexec h
        · rw [c2, c5]
          exact hsnap
      | pppos_state_interval =>
        rw [hh] at hrun hcount
        simp only [Option.some.injEq] at hrun
        subst hrun
        obtain ⟨hsched, hkeep⟩ := pppos_state_interval_schedules s.modem e.env
        rcases hsched with ht | ⟨ht, hcb, hnc⟩
        · refine ⟨⟨?_, ?_, hkeep hsnap⟩, fun _ => ⟨_, _, rfl, ht, by decide⟩⟩
          · rw [ht, count_after_expiry, count_after_expiry, count_after_expiry]
            simp only [reduceCtorEq, if_false, if_true]
            omega
          · rw [mem_iff_count, mem_iff_count, ht, count_after_expiry, count_after_expiry]
            simp only [reduceCtorEq, if_false, Nat.sub_zero, Nat.add_zero]
            intro h
            omega
        · refine ⟨⟨?_, fun _ => ⟨hcb, hnc⟩, hkeep hsnap⟩, fun _ => ⟨_, _, rfl, ht, by decide⟩⟩
          rw [ht, count_after_expiry, count_after_expiry, count_after_expiry]
          simp only [reduceCtorEq, if_false, if_true]
          omega
      | pppos_command_execute =>
        rw [hh] at hrun hcount
        simp only [] at hrun
        obtain ⟨hcb0, hst0⟩ := hexec (Or.inl (hex.mpr hcount))
        obtain ⟨k1, k2, k3⟩ := pppos_command_execute_schedules s.modem e.env.sys_now r hrun
        rcases k3 with ⟨_, ht⟩ | ⟨_, ht, hstate⟩
        · rw [hcb0] at ht
          refine ⟨⟨?_, ?_, ?_⟩, fun _ => ⟨_, _, rfl, ht, by decide⟩⟩
          · rw [ht, count_after_expiry, count_after_expiry, count_after_expiry]
            simp only [reduceCtorEq, if_false, if_true]
            omega
          · rw [mem_iff_count, mem_iff_count, ht, count_after_expiry, count_after_expiry]
            simp only [reduceCtorEq, if_false, if_true, Nat.add_zero]
            intro h
            omega
          · intro _
            rw [k2]
            exact hsnap hst0
        · refine ⟨⟨?_, fun _ => ⟨?_, ?_⟩, ?_⟩, fun _ => ⟨_, _, rfl, ht, by decide⟩⟩
          · rw [ht, count_after_expiry, count_after_expiry, count_after_expiry]
            simp only [reduceCtorEq, if_false, if_true]
            omega
          · rw [k1]; exact hcb0
          · rw [hstate]; exact hst0
          · intro _
            rw [k2]
            exact hsnap hst0
      | pppos_command_wait =>
        rw [hh] at hrun hcount
        simp only [] at hrun
        obtain ⟨hcb0, hst0⟩ := hexec (Or.inr (hwa.mpr hcount))
        obtain ⟨k1, k2, k3, k4⟩ := pppos_command_wait_schedules s.modem e.env.sys_now r hrun
        have hrest : (r.1.command.callback = .pppos_state_interval ∧
            r.1.state ≠ .PPPOS_CHATSCRIPT_ON_CONNECT) ∧
            (r.1.state ≠ .PPPOS_CHATSCRIPT_ON_CONNECT → r.1.phase_saved = 0xFF) := by
          rw [k1, k2, k3]
          exact ⟨⟨hcb0, hst0⟩, hsnap⟩
        rcases k4 with ht | ht
        · refine ⟨⟨?_, fun _ => hrest.1, hrest.2⟩, fun _ => ⟨_, _, rfl, ht, by decide⟩⟩
          rw [ht, count_after_expiry, count_after_expiry, count_after_expiry]
          simp only [reduceCtorEq, if_false, if_true]
          omega
        · refine ⟨⟨?_, fun _ => hrest.1, hrest.2⟩, fun _ => ⟨_, _, rfl, ht, by decide⟩⟩
          rw [ht, count_after_expiry, count_after_expiry, count_after_expiry]
          simp only [reduceCtorEq, if_false, if_true]
          omega
  · rw [if_neg hmem] at hstep
    cases hstep

/-- The core satisfies its invariant after `pppos_modem_start`. -/
theorem core_start_inv (modem : pppos_modem_t) : core_inv (core_start modem) := by
  refine ⟨?_, ?_, fun _ => rfl⟩
  · show List.count _ [sys_timeout_handler.pppos_rx_interval, .pppos_state_interval] +
      List.count _ [sys_timeout_handler.pppos_rx_interval, .pppos_state_interval] +
      List.count _ [sys_timeout_handler.pppos_rx_interval, .pppos_state_interval] = 1
    decide
  intro h
  exfalso
  revert h
  show ¬ (_ ∈ [sys_timeout_handler.pppos_rx_interval, .pppos_state_interval] ∨
    _ ∈ [sys_timeout_handler.pppos_rx_interval, .pppos_state_interval])
  decide

/-- Every run keeps the invariant of the core. -/
theorem core_run_inv (evs : List core_event) :
    ∀ s s' : core_state, core_inv s → core_run s evs = some s' → core_inv s' := by
  induction evs with
  | nil =>
    intro s s' hinv hrun
    simp only [core_run, Option.some.injEq] at hrun
    subst hrun
    exact hinv
  | cons e es ih =>
    intro s s' hinv hrun
    rw [core_run] at hrun
    cases hstep : core_step s e with
    | none => simp [hstep] at hrun
    | some s1 =>
      simp only [hstep] at hrun
      exact ih s1 s' (core_step_inv s s1 e hinv hstep).1 hrun

theorem core_run_getD (s : core_state) (evs : List core_event)
    (h : (core_run s evs).isSome = true) :
    core_run s evs = some ((core_run s evs).getD s) := by
  cases hr : core_run s evs with
  | none => simp [hr] at h
  | some x => rfl

theorem core_step_getD (s : core_state) (e : core_event)
    (h : (core_step s e).isSome = true) :
    core_step s e = some ((core_step s e).getD s) := by
  cases hr : core_step s e with
  | none => simp [hr] at h
  | some x => rfl

/-- Outside the connected state no handler writes the snapshot. -/
theorem core_step_snapshot (s s' : core_state) (e : core_event)
    (hstep : core_step s e = some s')
    (hout : s.modem.state ≠ .PPPOS_CHATSCRIPT_ON_CONNECT) :
    s'.modem.phase_saved = s.modem.phase_saved := by
  unfold core_step at hstep
  split at hstep
  · cases hrun : run_handler s.modem e with
    | none => simp [hrun] at hstep
    | some r =>
      simp only [hrun, Option.some.injEq] at hstep
      subst hstep
      unfold run_handler at hrun
      simp only []
      split at hrun
      · exact (pppos_rx_interval_frame e.chunks s.modem r hrun).1.2.2.2.2.1
      · simp only [Option.some.injEq] at hrun
        subst hrun
        unfold pppos_state_interval
        cases hst : s.modem.state with
        | PPPOS_CHATSCRIPT_ON_CONNECT => exact absurd hst hout
        | _ => rfl
      · exact (pppos_command_execute_schedules s.modem e.env.sys_now r hrun).2.1
      · exact (pppos_command_wait_schedules s.modem e.env.sys_now r hrun).2.1
  · cases hstep

/-- `phase_supervise` keeps the chat-script state or sets it to `START_ATE0`. -/
theorem phase_supervise_state_cases (modem : pppos_modem_t) (phase : Nat) (env : tick_env) :
    (phase_supervise modem phase env).1.state = modem.state ∨
      (phase_supervise modem phase env).1.state = .PPPOS_CHATSCRIPT_START_ATE0 := by
  unfold phase_supervise
  simp only []
  split
  · split <;> split <;> exact Or.inl rfl
  · split
    · exact Or.inr rfl
    · exact Or.inl rfl

/-- A tick in state `ON_CONNECT` with no phase recorded that finds the engine
dead or terminating calls `ppp_connect` and does not go back to `BEGIN`. -/
theorem sentinel_tick_connects (modem : pppos_modem_t) (env : tick_env)
    (hstate : modem.state = .PPPOS_CHATSCRIPT_ON_CONNECT)
    (hs : modem.phase_saved = 0xFF)
    (hdead : env.ppp_phase = PPP_PHASE_DEAD ∨ env.ppp_phase = PPP_PHASE_TERMINATE) :
    Effect.ppp_connect ∈ (pppos_state_interval modem env).2 ∧
      (pppos_state_interval modem env).1.state ≠ .PPPOS_CHATSCRIPT_BEGIN := by
  have hdiff : env.ppp_phase ≠ modem.phase_saved := by
    rw [hs]
    rcases hdead with h | h <;> rw [h] <;> decide
  rw [pppos_state_interval_connected modem env hstate]
  unfold pppos_state_on_connect
  simp only []
  rw [phase_observe_connect modem env hdiff hdead hs]
  refine ⟨by simp, ?_⟩
  rcases phase_supervise_state_cases
    { modem with
      phase_saved := env.ppp_phase
      command := { modem.command with start_time := env.sys_now } }
    env.ppp_phase_after_connect env with h | h
  · rw [h]
    show modem.state ≠ _
    rw [hstate]
    decide
  · rw [h]
    decide

/-- C27: in every run of the scheduler from `pppos_modem_start`, exactly one
timeout among `pppos_state_interval`, `pppos_command_execute` and
`pppos_command_wait` is pending; so while the controller, which alone creates
descriptors, is pending or running, no timeout of the executor is pending;
while the executor is pending, the completion callback of its descriptor is
the controller; and every expiry of one of the three handlers schedules
exactly one timeout, again of one of the three, so that again exactly one is
pending. -/
theorem one_chat_timeout_pending (modem : pppos_modem_t) (evs : List core_event)
    (s : core_state) (hrun : core_run (core_start modem) evs = some s) :
    chat_pending s = 1 ∧
    (.pppos_state_interval ∈ s.timers →
      .pppos_command_execute ∉ s.timers ∧ .pppos_command_wait ∉ s.timers) ∧
    ((.pppos_command_execute ∈ s.timers ∨ .pppos_command_wait ∈ s.timers) →
      s.modem.command.callback = .pppos_state_interval) ∧
    (∀ e s', e.handler ≠ .pppos_rx_interval → core_step s e = some s' →
      (∃ r h, run_handler s.modem e = some r ∧ timeouts r.2 = [h] ∧
        h ≠ .pppos_rx_interval) ∧ chat_pending s' = 1) := by
  have hinv := core_run_inv evs _ s (core_start_inv modem) hrun
  refine ⟨hinv.1, ?_, fun h => (hinv.2.1 h).1, ?_⟩
  · intro hsi
    have h1 := hinv.1
    unfold chat_pending at h1
    rw [mem_iff_count] at hsi
    rw [mem_iff_count, mem_iff_count]
    omega
  · intro e s' hne hstep
    obtain ⟨hinv', hsched⟩ := core_step_inv s s' e hinv hstep
    exact ⟨hsched hne, hinv'.1⟩

/-- Instance of C27: after the answered echo-off command, when the poll of the
second command has been rescheduled, `pppos_command_wait` is the one pending
timeout of the three. -/
theorem one_chat_timeout_pending_witness :
    (core_after (answered (cstr "\r\nOK\r\n") ++
        [expiry .pppos_state_interval [], expiry .pppos_command_execute [],
         expiry .pppos_command_wait []])).timers
      = [.pppos_rx_interval, .pppos_command_wait] ∧
    chat_pending (core_after (answered (cstr "\r\nOK\r\n") ++
        [expiry .pppos_state_interval [], expiry .pppos_command_execute [],
         expiry .pppos_command_wait []])) = 1 :=
  ⟨by decide,
   (one_chat_timeout_pending modem_zero _ _
      (core_run_getD (core_start modem_zero) (answered (cstr "\r\nOK\r\n") ++
        [expiry .pppos_state_interval [], expiry .pppos_command_execute [],
         expiry .pppos_command_wait []]) (by decide))).1⟩

/-- C29: in every run of the scheduler from `pppos_modem_start`, the snapshot
`phase_saved` is `0xFF` whenever the chat-script state is not `ON_CONNECT`. So
at every entry into `ON_CONNECT` the snapshot is `0xFF`; the reads of the
serial channel keep state and snapshot; and the tick that follows, if it finds
the engine dead or terminating, calls `ppp_connect` and does not restart the
chat script from `BEGIN`. -/
theorem snapshot_sentinel_outside_connected (modem : pppos_modem_t) (evs : List core_event)
    (s : core_state) (hrun : core_run (core_start modem) evs = some s) :
    (s.modem.state ≠ .PPPOS_CHATSCRIPT_ON_CONNECT → s.modem.phase_saved = 0xFF) ∧
    (∀ e s', core_step s e = some s' →
      s.modem.state ≠ .PPPOS_CHATSCRIPT_ON_CONNECT →
      s'.modem.state = .PPPOS_CHATSCRIPT_ON_CONNECT →
      s'.modem.phase_saved = 0xFF ∧
      ∀ chunks r, pppos_rx_interval s'.modem chunks = some r →
        r.1.state = .PPPOS_CHATSCRIPT_ON_CONNECT ∧ r.1.phase_saved = 0xFF ∧
        ∀ env, (env.ppp_phase = PPP_PHASE_DEAD ∨ env.ppp_phase = PPP_PHASE_TERMINATE) →
          Effect.ppp_connect ∈ (pppos_state_interval r.1 env).2 ∧
          (pppos_state_interval r.1 env).1.state ≠ .PPPOS_CHATSCRIPT_BEGIN) := by
  have hinv := core_run_inv evs _ s (core_start_inv modem) hrun
  refine ⟨hinv.2.2, ?_⟩
  intro e s' hstep hout hin
  have hsnap : s'.modem.phase_saved = 0xFF := by
    rw [core_step_snapshot s s' e hstep hout]
    exact hinv.2.2 hout
  refine ⟨hsnap, ?_⟩
  intro chunks r hrx
  obtain ⟨_, c2, _, _, c5, _⟩ := (pppos_rx_interval_frame chunks s'.modem r hrx).1
  have hst : r.1.state = .PPPOS_CHATSCRIPT_ON_CONNECT := by rw [c2]; exact hin
  have hps : r.1.phase_saved = 0xFF := by rw [c5]; exact hsnap
  exact ⟨hst, hps, fun env hdead => sentinel_tick_connects r.1 env hst hps hdead⟩

/-- Instance of C29: the modem answers every command of the chat script; the
evaluation of the data-mode command enters `ON_CONNECT` with the snapshot
`0xFF`, and the first tick there, finding the engine dead (and establishing
after the connect request), calls `ppp_connect` and stays in `ON_CONNECT`. -/
theorem snapshot_sentinel_outside_connected_witness :
    script_before_entry.modem.state = .PPPOS_CHATSCRIPT_START_CGDATA ∧
    script_entry.modem.state = .PPPOS_CHATSCRIPT_ON_CONNECT ∧
    script_entry.modem.phase_saved = 0xFF ∧
    (pppos_state_interval script_entry.modem ⟨3000, 0, 6, 0⟩).2
      = [.ppp_connect, .sys_timeout 200 .pppos_state_interval] ∧
    (Effect.ppp_connect ∈ (pppos_state_interval script_entry.modem ⟨3000, 0, 6, 0⟩).2 ∧
      (pppos_state_interval script_entry.modem ⟨3000, 0, 6, 0⟩).1.state
        ≠ .PPPOS_CHATSCRIPT_BEGIN) := by
  have h := (snapshot_sentinel_outside_connected modem_zero script_events.dropLast
    script_before_entry (core_run_getD (core_start modem_zero) _ (by decide))).2
    (expiry .pppos_command_execute []) script_entry
    (core_step_getD script_before_entry _ (by decide)) (by decide) (by decide)
  refine ⟨by decide, by decide, h.1, by decide, ?_⟩
  exact (h.2 [] (script_entry.modem, [.sys_timeout 1 .pppos_rx_interval]) rfl).2.2
    ⟨3000, 0, 6, 0⟩ (Or.inl rfl)

/-! ## The scratch bytes read as signed characters -/

theorem word_byte_or (k x y : Nat) :
    word_byte k (x ||| y) = word_byte k x ||| word_byte k y := by
  unfold word_byte
  apply Nat.eq_of_testBit_eq
  intro i
  simp only [Nat.testBit_mod_two_pow, Nat.testBit_or, Nat.testBit_shiftRight]
  cases decide (i < 8) <;> simp

theorem word_eq_iff_bytes (x y : Nat) (hx : x < 2 ^ 32) (hy : y < 2 ^ 32) :
    x = y ↔ word_byte 0 x = word_byte 0 y ∧ word_byte 1 x = word_byte 1 y ∧
      word_byte 2 x = word_byte 2 y ∧ word_byte 3 x = word_byte 3 y := by
  unfold word_byte
  simp only [Nat.shiftRight_eq_div_pow]
  constructor
  · rintro rfl
    exact ⟨rfl, rfl, rfl, rfl⟩
  · rintro ⟨h0, h1, h2, h3⟩
    norm_num at h0 h1 h2 h3 hx hy
    omega

theorem word_low_iff_bytes (x y : Nat) :
    x % 2 ^ 16 = y % 2 ^ 16 ↔
      word_byte 0 x = word_byte 0 y ∧ word_byte 1 x = word_byte 1 y := by
  unfold word_byte
  simp only [Nat.shiftRight_eq_div_pow]
  norm_num
  omega

/-- The bytes of a sign-extended scratch byte after each of the three shifts. -/
theorem sign_extend_bytes (b : Byte) :
    word_byte 0 ((sign_extend b <<< 0) % 2 ^ 32) = b.val ∧
    word_byte 1 ((sign_extend b <<< 0) % 2 ^ 32) = sign_fill b ∧
    word_byte 2 ((sign_extend b <<< 0) % 2 ^ 32) = sign_fill b ∧
    word_byte 3 ((sign_extend b <<< 0) % 2 ^ 32) = sign_fill b ∧
    word_byte 0 ((sign_extend b <<< 8) % 2 ^ 32) = 0 ∧
    word_byte 1 ((sign_extend b <<< 8) % 2 ^ 32) = b.val ∧
    word_byte 2 ((sign_extend b <<< 8) % 2 ^ 32) = sign_fill b ∧
    word_byte 3 ((sign_extend b <<< 8) % 2 ^ 32) = sign_fill b ∧
    word_byte 0 ((sign_extend b <<< 16) % 2 ^ 32) = 0 ∧
    word_byte 1 ((sign_extend b <<< 16) % 2 ^ 32) = 0 ∧
    word_byte 2 ((sign_extend b <<< 16) % 2 ^ 32) = b.val ∧
    word_byte 3 ((sign_extend b <<< 16) % 2 ^ 32) = sign_fill b := by
  revert b
  set_option maxRecDepth 100000 in decide

/-- The four bytes of `val` where `char` is signed. -/
theorem scratch_val_signed_bytes (b3 b2 b1 : Byte) :
    scratch_val_signed b3 b2 b1 < 2 ^ 32 ∧
    word_byte 0 (scratch_val_signed b3 b2 b1) = b1.val ∧
    word_byte 1 (scratch_val_signed b3 b2 b1) = b2.val ||| sign_fill b1 ∧
    word_byte 2 (scratch_val_signed b3 b2 b1) = b3.val ||| sign_fill b2 ||| sign_fill b1 ∧
    word_byte 3 (scratch_val_signed b3 b2 b1)
      = sign_fill b3 ||| sign_fill b2 ||| sign_fill b1 := by
  have hlt : (sign_extend b3 <<< 16) % 2 ^ 32 ||| (sign_extend b2 <<< 8) % 2 ^ 32 |||
      (sign_extend b1 <<< 0) % 2 ^ 32 < 2 ^ 32 :=
    Nat.or_lt_two_pow (Nat.or_lt_two_pow (Nat.mod_lt _ (by decide)) (Nat.mod_lt _ (by decide)))
      (Nat.mod_lt _ (by decide))
  obtain ⟨a0, a1, a2, a3, _⟩ := sign_extend_bytes b1
  obtain ⟨_, _, _, _, c0, c1, c2, c3, _⟩ := sign_extend_bytes b2
  obtain ⟨_, _, _, _, _, _, _, _, d0, d1, d2, d3⟩ := sign_extend_bytes b3
  unfold scratch_val_signed
  rw [Nat.mod_eq_of_lt hlt]
  refine ⟨hlt, ?_, ?_, ?_, ?_⟩
  · rw [word_byte_or, word_byte_or, a0, c0, d0, Nat.zero_or, Nat.zero_or]
  · rw [word_byte_or, word_byte_or, a1, c1, d1, Nat.zero_or]
  · rw [word_byte_or, word_byte_or, a2, c2, d2]
  · rw [word_byte_or, word_byte_or, a3, c3, d3]

theorem sign_fill_of_small (b : Byte) (n : Nat) (h : b.val = n) (hn : n < 128) :
    sign_fill b = 0 := by
  unfold sign_fill
  rw [if_pos (by omega)]

/-- The anomaly test where `char` is signed. -/
theorem line_splitter_test_signed (b3 b2 b1 : Byte) :
    line_splitter = scratch_val_signed b3 b2 b1 ↔ b3 = 0x0A ∧ b2 = 0x0D ∧ b1 = 0x0A := by
  obtain ⟨hlt, h0, h1, h2, h3⟩ := scratch_val_signed_bytes b3 b2 b1
  rw [word_eq_iff_bytes _ _ (by decide) hlt, h0, h1, h2, h3]
  have e0 : word_byte 0 line_splitter = 0x0A := by decide
  have e1 : word_byte 1 line_splitter = 0x0D := by decide
  have e2 : word_byte 2 line_splitter = 0x0A := by decide
  have e3 : word_byte 3 line_splitter = 0 := by decide
  rw [e0, e1, e2, e3]
  constructor
  · rintro ⟨g0, g1, g2, _⟩
    have f1 := sign_fill_of_small b1 _ g0.symm (by decide)
    rw [f1, Nat.or_zero] at g1 g2
    have f2 := sign_fill_of_small b2 _ g1.symm (by decide)
    rw [f2, Nat.or_zero] at g2
    exact ⟨Fin.ext g2.symm, Fin.ext g1.symm, Fin.ext g0.symm⟩
  · rintro ⟨rfl, rfl, rfl⟩
    decide

/-- The line-end test where `char` is signed. -/
theorem line_end_test_signed (b3 b2 b1 : Byte) :
    scratch_val_signed b3 b2 b1 &&& 0xFFFF = line_end ↔ b2 = 0x0D ∧ b1 = 0x0A := by
  obtain ⟨_, h0, h1, _, _⟩ := scratch_val_signed_bytes b3 b2 b1
  have hand : ∀ x : Nat, x &&& 0xFFFF = x % 2 ^ 16 :=
    fun x => Nat.and_pow_two_sub_one_eq_mod x 16
  have hle : line_end = line_end % 2 ^ 16 := by decide
  rw [hand, hle, word_low_iff_bytes, h0, h1]
  have e0 : word_byte 0 line_end = 0x0A := by decide
  have e1 : word_byte 1 line_end = 0x0D := by decide
  rw [e0, e1]
  constructor
  · rintro ⟨g0, g1⟩
    have f1 := sign_fill_of_small b1 _ g0 (by decide)
    rw [f1, Nat.or_zero] at g1
    exact ⟨Fin.ext g1, Fin.ext g0⟩
  · rintro ⟨rfl, rfl⟩
    decide

/-- C30: for every three consecutive scratch bytes, the anomaly test and the
line-end test of `pppos_byte_process` have the same outcome on the `val` built
from sign-extended bytes (`char` signed) as on the `val` built from the bytes
as unsigned values: the anomaly test succeeds exactly when the bytes are
`0x0A`, `0x0D`, `0x0A`, the line-end test exactly when the last two are
`0x0D`, `0x0A`. -/
theorem signed_and_unsigned_tests_agree (b3 b2 b1 : Byte) :
    (line_splitter = scratch_val_signed b3 b2 b1 ↔ line_splitter = scratch_val b3 b2 b1) ∧
    (line_splitter = scratch_val_signed b3 b2 b1 ↔ b3 = 0x0A ∧ b2 = 0x0D ∧ b1 = 0x0A) ∧
    (scratch_val_signed b3 b2 b1 &&& 0xFFFF = line_end ↔
      scratch_val b3 b2 b1 &&& 0xFFFF = line_end) ∧
    (scratch_val_signed b3 b2 b1 &&& 0xFFFF = line_end ↔ b2 = 0x0D ∧ b1 = 0x0A) ∧
    (scratch_val_signed 0x0A 0x0D 0x0A = line_splitter ∧
      scratch_val_signed 0xFF 0x0D 0x0A = 0xFFFF0D0A ∧ scratch_val 0xFF 0x0D 0x0A = 0xFF0D0A ∧
      scratch_val_signed 0x0A 0x8D 0x0A = 0xFFFF8D0A) := by
  refine ⟨?_, line_splitter_test_signed b3 b2 b1, ?_, line_end_test_signed b3 b2 b1, ?_⟩
  · rw [line_splitter_test_signed, line_splitter_test]
  · rw [line_end_test_signed, line_end_test]
  · decide

/-! ## A deadline at the end of the clock range -/

/-- A poll of a command whose deadline is `2 ^ 32 - 1` finds no clock reading
above the deadline: with nothing received it is rescheduled, whatever the
clock reads. -/
theorem exec_step_stuck (cmd : List Byte) (N : Int) (s : exec_state) (t : Nat)
    (h : deadline_stuck cmd N s) :
    ∃ s', exec_step s (.timer (t % 2 ^ 32)) = some s' ∧
      poll_silent s (.timer (t % 2 ^ 32)) = true ∧ deadline_stuck cmd N s' := by
  obtain ⟨hp, h0, hres, herr, hsum, htc, hw, hx⟩ := h
  have hpoll : poll_verdict s.modem = some .at_result_failure_no_response := by
    unfold poll_verdict
    rw [pppos_find_ack_snd, find_cmd_ack_empty_ring _ _ h0 hres,
      find_cmd_ack_empty_ring _ _ h0 herr]
    rfl
  obtain ⟨pos, hwv⟩ := pppos_command_wait_verdict s.modem (t % 2 ^ 32) _ hpoll
  have hnot : ¬ (s.modem.command.start_time + s.modem.command.timeout) % 2 ^ 32
      < t % 2 ^ 32 := by
    rw [hsum]
    have := Nat.mod_lt t (show 0 < 2 ^ 32 by decide)
    omega
  simp only [reduceCtorEq, or_self, if_false, hnot] at hwv
  have hstep : exec_step s (.timer (t % 2 ^ 32)) = some (exec_after s
      ({ s.modem with
          find_result_pos := pos
          command := { s.modem.command with at_result := .at_result_failure_no_response } },
        [.sys_timeout 10 .pppos_command_wait])) := by
    unfold exec_step
    simp only [hp]
    rw [hwv]
    rfl
  refine ⟨_, hstep, ?_, ?_⟩
  · simp only [poll_silent, hp, hpoll, decide_True]
  · refine ⟨?_, h0, hres, herr, hsum, htc, ?_, ?_⟩
    · simp [exec_after, scheduled]
    · simp only [exec_after, sio_writes_append, hw]
      rfl
    · simp only [exec_after, execute_scheduled_append, hx]
      rfl

/-- However often and at whatever clock readings such a command is polled, it
keeps waiting. -/
theorem exec_run_stuck (cmd : List Byte) (N : Int) (clocks : List Nat) :
    ∀ s : exec_state, deadline_stuck cmd N s →
      ∃ s', exec_run s (polls_at clocks) = some s' ∧
        polls_silent s (polls_at clocks) = true ∧ deadline_stuck cmd N s' := by
  induction clocks with
  | nil =>
    intro s h
    exact ⟨s, rfl, rfl, h⟩
  | cons t ts ih =>
    intro s h
    obtain ⟨s1, hstep, hq, h1⟩ := exec_step_stuck cmd N s t h
    obtain ⟨s2, hrun, hqs, h2⟩ := ih s1 h1
    refine ⟨s2, ?_, ?_, h2⟩
    · show exec_run s (.timer (t % 2 ^ 32) :: polls_at ts) = some s2
      rw [exec_run, hstep]
      exact hrun
    · show polls_silent s (.timer (t % 2 ^ 32) :: polls_at ts) = true
      rw [polls_silent, hq, hstep]
      simpa using hqs

/-- C6 fails on the code: the echo-off command (two attempts, timeout 500) is
sent when `sys_now()` returns 4294966795, so that `start_time + timeout` is
4294967295, the largest value of the clock. No reading of the clock is above
it: with nothing received, every poll, at whatever readings and however many,
reschedules the wait. The text has been written once, not twice; no timeout is
declared, `try_count` stays 2, and the command is never evaluated. One such
run, with a clock that advances and wraps, is evaluated as well. -/
theorem silent_command_never_retried (clocks : List Nat) :
    (∃ s, exec_run (exec_start sample_ate0) (.timer 4294966795 :: polls_at clocks) = some s ∧
      polls_silent (exec_start sample_ate0) (.timer 4294966795 :: polls_at clocks) = true ∧
      s.pending = .pppos_command_wait ∧ s.modem.command.try_count = 2 ∧
      sio_writes s.log = [cstr "ATE0\r\n"] ∧ execute_scheduled s.log = 0) ∧
    (exec_run (exec_start sample_ate0)
        [.timer 4294966795, .timer 4294966805, .timer 4294967295, .timer 0, .timer 10,
         .timer 501, .timer 2000000000, .timer 4294967295, .timer 0]).map
        (fun s => (s.pending, s.modem.command.try_count, sio_writes s.log,
          s.modem.command.start_time + s.modem.command.timeout))
      = some (.pppos_command_wait, 2, [cstr "ATE0\r\n"], 4294967295) := by
  refine ⟨?_, by decide⟩
  have hsend : exec_step (exec_start sample_ate0) (.timer 4294966795) = some
      ((exec_step (exec_start sample_ate0) (.timer 4294966795)).getD
        (exec_start sample_ate0)) := by
    have hd : (exec_step (exec_start sample_ate0) (.timer 4294966795)).isSome = true := by
      decide
    cases hr : exec_step (exec_start sample_ate0) (.timer 4294966795) with
    | none => rw [hr] at hd; cases hd
    | some x => rfl
  have hstuck : deadline_stuck (cstr "ATE0\r\n") 2
      ((exec_step (exec_start sample_ate0) (.timer 4294966795)).getD
        (exec_start sample_ate0)) := by
    refine ⟨by decide, by decide, ?_, ?_, by decide, by decide, by decide, by decide⟩
    · intro p hp
      have : p = cstr "OK\r\n" := by
        have h2 : ((exec_step (exec_start sample_ate0) (.timer 4294966795)).getD
          (exec_start sample_ate0)).modem.command.expect_result = some (cstr "OK\r\n") := by
          decide
        rw [h2] at hp
        exact (Option.some.inj hp).symm
      subst this
      rw [← split_lf_eq_splitOn]
      decide
    · intro p hp
      have h2 : ((exec_step (exec_start sample_ate0) (.timer 4294966795)).getD
          (exec_start sample_ate0)).modem.command.expect_error = none := by
        decide
      rw [h2] at hp
      cases hp
  obtain ⟨s, hrun, hq, hp, _, _, _, _, htc, hw, hx⟩ :=
    exec_run_stuck (cstr "ATE0\r\n") 2 clocks _ hstuck
  refine ⟨s, ?_, ?_, hp, htc, hw, hx⟩
  · rw [exec_run, hsend]
    exact hrun
  · rw [polls_silent, hsend]
    simpa [poll_silent, exec_start] using hq

end PPPoS
